import Mathlib

/-!
pam_modules: directory-identity resolution and descriptor parsing

A shallow embedding of `src/common/Common.c` (OpenDirectory helpers shared by the
PAM modules), of the certificate matching of
`src/modules/pam_smartcard/attribute_matching.c` and of the account check of
`src/modules/pam_self/pam_self.c`, together with theorems about them.

Modelling conventions

* PAM return codes are the symbolic constants of `security/pam_constants.h`; a C test
  `if (retval)` or `res == 0` is a comparison with `PAM_SUCCESS`.
* A `CFStringRef` is a `String`; a `char *` is a `CString`, the list of characters held
  by the buffer before its final terminator.  Functions that walk a buffer look for the
  NUL character themselves.
* A `CFTypeRef` is `Option CFType`, `none` being `NULL`.
* An out-parameter is returned as an `Option`: `none` when the function left the
  caller's (NULL-initialised) variable untouched or wrote NULL to it.
* CoreFoundation and libc allocation (`CFStringCreateCopy`, `CFArrayCreate`, `calloc`,
  `strdup`, `CFStringCreateArrayBySeparatingStrings`) never fails, so the branches taken
  only on a NULL allocation are not represented.  The release of an object that a
  function owns (`CFRelease`, `CFReleaseSafe`, `free` of a value it created) has no
  effect on returned values and is not represented.
* One release is not of an object: on every return with a code other than PAM_SUCCESS
  the cleanup of od_record_attribute_create_cfstring runs `CFReleaseSafe(out)` on the
  out-pointer itself (Common.c:278-281).  It is represented: a run of the accessor is a
  `ScalarFetch`, whose field `releases_out_pointer` records that call, and a run of the
  certificate matching is a `KeychainSearch` with the same field.  The functions of the
  same names without `_run` give the values computed, code and `*out` or reference; on
  a call none of whose fetches fails they are the whole effect of the call.
* The directory service is an explicit value: the answers it gives at the k-th poll of
  the retry loop are a function of k.
* The configuration file and the dictionary of a certificate's fields are inputs of the
  certificate matching; their entries are strings.
* The answers of `pam_get_user`, `pam_get_item` and `getpwnam_r` are inputs of the
  account check; a `uid_t` is a natural number.
-/

namespace PamModules

/-! ## Return codes and CoreFoundation values -/

/-- PAM return codes used in Common.c. -/
inductive PamCode
  | PAM_SUCCESS
  | PAM_SERVICE_ERR
  | PAM_BUF_ERR
  | PAM_PERM_DENIED
  | PAM_AUTH_ERR
  | PAM_NEW_AUTHTOK_REQD
  | PAM_USER_UNKNOWN
  | PAM_APPLE_ACCT_TEMP_LOCK
  | PAM_APPLE_ACCT_LOCKED
  deriving DecidableEq, Repr

open PamCode

/-- A `char *` argument or result: the characters of the buffer. -/
abbrev CString := List Char

/-- A CoreFoundation object as far as Common.c distinguishes them: `CFGetTypeID(v)`
equals `CFStringGetTypeID()` exactly for `string`; `other` is any object of another
type, identified by its type id. -/
inductive CFType
  | string (s : String)
  | other (typeID : Nat)
  deriving DecidableEq, Repr

/-- A `CFTypeRef`, `none` being NULL. -/
abbrev CFTypeRef := Option CFType

/-- An `ODRecordRef` that is not NULL: `values attrib` is what
`ODRecordCopyValues(record, attrib, NULL)` returns, NULL (`none`) or an array. -/
structure ODRecord where
  values : String → Option (List CFTypeRef)

/-- The OpenDirectory attribute name of the authentication authority. -/
def kODAttributeTypeAuthenticationAuthority : String := "dsAttrTypeStandard:AuthenticationAuthority"

/-- The OpenDirectory attribute name of the home-directory mount value. -/
def kODAttributeTypeHomeDirectory : String := "dsAttrTypeStandard:HomeDirectory"

/-- The OpenDirectory attribute name of the NFS home path. -/
def kODAttributeTypeNFSHomeDirectory : String := "dsAttrTypeStandard:NFSHomeDirectory"

/-- The OpenDirectory attribute name of the login shell. -/
def kODAttributeTypeUserShell : String := "dsAttrTypeStandard:UserShell"

/-- The DirectoryService marker that starts the authentication authority of a
disabled user. -/
def kDSValueAuthAuthorityDisabledUser : String := ";DisabledUser;"

/-- Model of `CFStringHasPrefix(s, p)` for a non-empty `p`. -/
def CFStringHasPrefix (s p : String) : Bool :=
  p.data.isPrefixOf s.data

/-- Model of `CFStringCompare(a, b, 0) == kCFCompareEqualTo`: literal equality. -/
def CFStringEqual (a b : String) : Bool :=
  decide (a = b)

/-! ## Attribute accessors (Common.c:202-285) -/

/-- Common.c:203-221.  Returns the code and `*out`.  The only code other than
PAM_SUCCESS is that of the NULL-argument test of line 208, the one path on which the
cleanup of lines 217-219 does anything; od_record_attribute_create_cfstring tests the
record before the call, and od_principal_for_user passes the record that
od_record_create_cstring has just returned with PAM_SUCCESS. -/
def od_record_attribute_create_cfarray (record : Option ODRecord) (attrib : String) :
    PamCode × Option (List CFTypeRef) :=
  match record with
  | none => (PAM_SERVICE_ERR, none)
  | some r => (PAM_SUCCESS, r.values attrib)

/-- The `for` loop of od_record_attribute_create_cfstring, Common.c:257-276, run on the
entries not yet visited.  A NULL entry is passed over (`continue`); the first entry that
is not NULL ends the loop: a string is copied to `*out` (`break`, then line 276), any
other object gives PAM_PERM_DENIED. -/
def od_record_attribute_create_cfstring_loop : List CFTypeRef → PamCode × Option String
  | [] => (PAM_SUCCESS, none)
  | none :: rest => od_record_attribute_create_cfstring_loop rest
  | some (CFType.string s) :: _ => (PAM_SUCCESS, some s)
  | some (CFType.other _) :: _ => (PAM_PERM_DENIED, none)

/-- The statements of od_record_attribute_create_cfstring above its label `cleanup`,
Common.c:227-276: the values of `retval` and of `*out` when the label is reached.  The
cardinality message of lines 250-255 is only logged. -/
def od_record_attribute_create_cfstring_body (record : Option ODRecord) (attrib : String) :
    PamCode × Option String :=
  match record with
  | none => (PAM_SERVICE_ERR, none)
  | some _ =>
    match od_record_attribute_create_cfarray record attrib with
    | (PAM_SUCCESS, none) => (PAM_SUCCESS, none)
    | (PAM_SUCCESS, some vals) => od_record_attribute_create_cfstring_loop vals
    | (retval, _) => (retval, none)

/-- What one call of od_record_attribute_create_cfstring does: the code it is about to
return, the final `*out`, and whether its cleanup has called `CFRelease` on `out`
itself.  `out` is the address of the caller's variable and not a CoreFoundation object:
what `CFRelease` does with it depends on the memory at that address, which the source
does not determine, so on a run with `releases_out_pointer = true` the fields `retval`
and `out` are what the function has computed, not a result the caller is sure to see. -/
structure ScalarFetch where
  retval : PamCode
  out : Option String
  releases_out_pointer : Bool
  deriving DecidableEq, Repr

/-- Common.c:224-285, with `out` the address of a variable of the caller, as at every
call in the sources.  After the label `cleanup`, lines 278-281 run `CFReleaseSafe(out)`
whenever `retval` is not PAM_SUCCESS; the macro of Common.h calls `CFRelease` on an
argument that is not NULL, and its argument here is `out`, not `*out`.  The release of
`vals` at line 282 is of an array that the function owns. -/
def od_record_attribute_create_cfstring_run (record : Option ODRecord) (attrib : String) :
    ScalarFetch :=
  match od_record_attribute_create_cfstring_body record attrib with
  | (retval, out) => ⟨retval, out, decide (PAM_SUCCESS ≠ retval)⟩

/-- The code and the `*out` of a call of od_record_attribute_create_cfstring: the first
two fields of its run.  On a run with code PAM_SUCCESS they are the whole effect of the
call; on a run with any other code the cleanup has released the out-pointer as well,
which the third field of the run records and this pair does not. -/
def od_record_attribute_create_cfstring (record : Option ODRecord) (attrib : String) :
    PamCode × Option String :=
  ((od_record_attribute_create_cfstring_run record attrib).retval,
    (od_record_attribute_create_cfstring_run record attrib).out)

/-! ## Policy checks (Common.c:372-405) -/

/-- Common.c:372-405.  `retval` is assigned the accessor's code at line 384; lines
389-395 can only assign PAM_SUCCESS to it. -/
def od_record_check_authauthority (record : Option ODRecord) : PamCode :=
  match record with
  | none => PAM_SERVICE_ERR
  | some _ =>
    match od_record_attribute_create_cfstring record kODAttributeTypeAuthenticationAuthority with
    | (retval, authauth) =>
      if retval ≠ PAM_SUCCESS then retval
      else
        match authauth with
        | none => PAM_SUCCESS
        | some a =>
          if ¬ CFStringHasPrefix a kDSValueAuthAuthorityDisabledUser then PAM_SUCCESS
          else retval

/-! ## Resolving a user name to a record (Common.c:24-200) -/

/-- Common.c:25. -/
def kWaitSeconds : Nat := 1

/-- Common.c:26. -/
def kMaxIterationCount : Nat := 30

/-- An `ODNodeRef` that is not NULL, as the retry loop sees it.  At the poll made with
`current_iterations = k`, `unreachableSubnodeNames k` is what
`ODNodeCopyUnreachableSubnodeNames(cfNode, NULL)` returns (NULL or an array of names)
and `copyRecord cfUser k` is what `ODNodeCopyRecord(cfNode, kODRecordTypeUsers, cfUser,
attrs, &cferror)` returns (NULL or a record). -/
structure ODNode where
  unreachableSubnodeNames : Nat → Option (List String)
  copyRecord : String → Nat → Option ODRecord

/-- The directory service as one call of od_record_create sees it: `node` is the
result of `ODNodeCreateWithNodeType`, `none` when it returned NULL or set an error. -/
structure ODSession where
  node : Option ODNode

/-- What one call of od_record_create did: its return code, the final `*record`, the
number of calls of `ODNodeCopyRecord` and the number of calls of `sleep(kWaitSeconds)`. -/
structure RecordResult where
  retval : PamCode
  record : Option ODRecord
  fetches : Nat
  sleeps : Nat

/-- Common.c:133-139: `unreachable_count` of one iteration. -/
def unreachable_count (cfNode : ODNode) (current_iterations : Nat) : Nat :=
  match cfNode.unreachableSubnodeNames current_iterations with
  | some unreachable_nodes => unreachable_nodes.length
  | none => 0

/-- The `while` loop of od_record_create, Common.c:132-150, entered with the given
value of `current_iterations` and the given numbers of fetches and sleeps made so far.
Returns `*record` and the two counters when the loop is left. -/
def od_record_create_loop (cfNode : ODNode) (cfUser : String)
    (current_iterations fetches sleeps : Nat) : Option ODRecord × Nat × Nat :=
  if current_iterations ≤ kMaxIterationCount then
    match cfNode.copyRecord cfUser current_iterations with
    | some r => (some r, fetches + 1, sleeps)
    | none =>
      if unreachable_count cfNode current_iterations = 0 then (none, fetches + 1, sleeps)
      else od_record_create_loop cfNode cfUser (current_iterations + 1) (fetches + 1) (sleeps + 1)
  else (none, fetches, sleeps)
termination_by kMaxIterationCount + 1 - current_iterations
decreasing_by omega

/-- Common.c:91-170.  The out-pointer `record` is the address of a variable of the
caller; `cfUser` may be NULL. -/
def od_record_create (sess : ODSession) (cfUser : Option String) : RecordResult :=
  match cfUser with
  | none => ⟨PAM_SERVICE_ERR, none, 0, 0⟩
  | some user =>
    match sess.node with
    | none => ⟨PAM_SERVICE_ERR, none, 0, 0⟩
    | some cfNode =>
      match od_record_create_loop cfNode user 0 0 0 with
      | (some r, fetches, sleeps) => ⟨PAM_SUCCESS, some r, fetches, sleeps⟩
      | (none, fetches, sleeps) => ⟨PAM_USER_UNKNOWN, none, fetches, sleeps⟩

/-- The NUL character. -/
def NUL : Char := Char.ofNat 0

/-- Common.c:29-54.  `CFStringCreateWithCString` reads the buffer up to its first NUL. -/
def cstring_to_cfstring (val : Option CString) : PamCode × Option String :=
  match val with
  | none => (PAM_SERVICE_ERR, none)
  | some v => (PAM_SUCCESS, some (String.mk (v.takeWhile (fun c => c ≠ NUL))))

/-- Common.c:56-89.  `CFStringGetCString` writes the characters of `val` to the new
buffer. -/
def cfstring_to_cstring (val : Option String) : PamCode × Option CString :=
  match val with
  | none => (PAM_SERVICE_ERR, none)
  | some v => (PAM_SUCCESS, some v.data)

/-- Common.c:172-200. -/
def od_record_create_cstring (sess : ODSession) (user : Option CString) : RecordResult :=
  match user with
  | none => ⟨PAM_SERVICE_ERR, none, 0, 0⟩
  | some _ =>
    match cstring_to_cfstring user with
    | (PAM_SUCCESS, cfUser) => od_record_create sess cfUser
    | (retval, _) => ⟨retval, none, 0, 0⟩

/-! ## Kerberos principal of a user (Common.c:615-702) -/

/-- The fields of `s` between occurrences of the character `sep`. -/
def splitChars (sep : Char) : List Char → List (List Char)
  | [] => [[]]
  | c :: cs =>
    if c = sep then [] :: splitChars sep cs
    else
      match splitChars sep cs with
      | [] => [[c]]
      | field :: fields => (c :: field) :: fields

/-- Model of `CFStringCreateArrayBySeparatingStrings(kCFAllocatorDefault, s, sep)` for a
separator of one character: the fields in order, a string without separator giving the
one-element array of itself. -/
def CFStringCreateArrayBySeparatingStrings (s : String) (sep : Char) : List String :=
  (splitChars sep s.data).map String.mk

/-- The test of Common.c:659-661 on the array `authparts`: true when the value is
passed over (`continue`), false when it is selected (`break`).  Indices 1 and 4 are read
only when the array has at least 5 entries. -/
def authparts_rejected (authparts : List String) : Bool :=
  decide (authparts.length < 5) ||
  !(CFStringEqual (authparts.getD 1 "") "Kerberosv5") ||
  CFStringHasPrefix (authparts.getD 4 "") "LKDC:"

/-- The `for` loop of od_principal_for_user, Common.c:649-670, run on the values not
yet visited; `authparts` is NULL whenever an iteration starts.  Returns `authparts` as
the loop leaves it: NULL (`none`) when the values are exhausted or when a NULL or
non-string value is met (`break` at line 653), the fields of the selected value
otherwise. -/
def od_principal_for_user_loop : List CFTypeRef → Option (List String)
  | [] => none
  | none :: _ => none
  | some (CFType.other _) :: _ => none
  | some (CFType.string val) :: rest =>
    if authparts_rejected (CFStringCreateArrayBySeparatingStrings val (Char.ofNat 59)) then
      od_principal_for_user_loop rest
    else some (CFStringCreateArrayBySeparatingStrings val (Char.ofNat 59))

/-- Common.c:615-702.  Returns the code and `*od_principal`. -/
def od_principal_for_user (sess : ODSession) (user : Option CString) :
    PamCode × Option CString :=
  match user with
  | none => (PAM_SERVICE_ERR, none)
  | some _ =>
    let created := od_record_create_cstring sess user
    if created.retval ≠ PAM_SUCCESS then (created.retval, none)
    else
      match od_record_attribute_create_cfarray created.record
          kODAttributeTypeAuthenticationAuthority with
      | (PAM_SUCCESS, some vals) =>
        match od_principal_for_user_loop vals with
        | none => (PAM_PERM_DENIED, none)
        | some authparts =>
          match authparts.get? 3 with
          | none => (PAM_PERM_DENIED, none)
          | some principal => cfstring_to_cstring (some principal)
      | (PAM_SUCCESS, none) => (PAM_PERM_DENIED, none)
      | (retval, _) => (retval, none)

/-! ## Home-mount descriptor (Common.c:517-576) -/

/-- The C library `isspace` in the C locale: space, and the characters 9 to 13. -/
def isspace (c : Char) : Bool :=
  decide (c.toNat = 32) || (decide (9 ≤ c.toNat) && decide (c.toNat ≤ 13))

/-- The character at `buf + i`; the terminator when `i` is the length of the buffer. -/
def charAt (buf : CString) (i : Nat) : Char :=
  buf.getD i NUL

/-- The C string that starts at `buf + p`: the characters before the first NUL. -/
def cstringAt (buf : CString) (p : Nat) : CString :=
  (buf.drop p).takeWhile (fun c => c ≠ NUL)

/-- Offset of the first occurrence of `needle` in `hay`. -/
def findSub (needle : CString) : CString → Option Nat
  | [] => if needle.isPrefixOf [] then some 0 else none
  | c :: cs =>
    if needle.isPrefixOf (c :: cs) then some 0
    else (findSub needle cs).map (fun k => k + 1)

/-- The C library `strstr(buf + p, needle)`, as an offset into `buf`; `none` is NULL. -/
def strstr (buf : CString) (p : Nat) (needle : CString) : Option Nat :=
  (findSub needle (cstringAt buf p)).map (fun k => k + p)

/-- The loop `while ('\0' != *p && isspace(*p)) p++` of Common.c:541-542 and 559-560,
run on the characters from `buf + p` on; returns the final `p`. -/
def skipSpaces : CString → Nat → Nat
  | [], p => p
  | c :: cs, p => if c ≠ NUL ∧ isspace c = true then skipSpaces cs (p + 1) else p

/-- The loop `while (record_end >= start && '\0' != *record_end &&
isspace(*(record_end-1))) record_end--` of Common.c:546-547 and 564-565, as a function
of the initial `record_end`; returns the final one.  `start` is at least 5 in both
uses, so the loop is left by its first test before `record_end` can reach 0. -/
def trimBack (buf : CString) (start : Nat) : Nat → Nat
  | 0 => 0
  | e + 1 =>
    if start ≤ e + 1 ∧ charAt buf (e + 1) ≠ NUL ∧ isspace (charAt buf e) = true then
      trimBack buf start e
    else e + 1

/-- Common.c:521. -/
def URL_OPEN : CString := "<url>".data

/-- Common.c:522. -/
def URL_CLOSE : CString := "</url>".data

/-- Common.c:523. -/
def PATH_OPEN : CString := "<path>".data

/-- Common.c:524. -/
def PATH_CLOSE : CString := "</path>".data

/-- Common.c:517-576 on the buffer `inp` (the C parameter `in`), which the function
overwrites in place.  Returns the code, `*out_url` and `*out_path`. -/
def extract_homemount (inp : Option CString) : PamCode × Option CString × Option CString :=
  match inp with
  | none => (PAM_SERVICE_ERR, none, none)
  | some buf =>
    match strstr buf 0 URL_OPEN with
    | none => (PAM_SERVICE_ERR, none, none)
    | some url_open =>
      let server_URL := skipSpaces (buf.drop (url_open + URL_OPEN.length)) (url_open + URL_OPEN.length)
      match strstr buf server_URL URL_CLOSE with
      | none => (PAM_SERVICE_ERR, none, none)
      | some url_close =>
        let record_end := trimBack buf server_URL url_close
        let buf1 := buf.set record_end NUL
        let out_url := cstringAt buf1 server_URL
        let record_start := record_end + 1
        match strstr buf1 record_start PATH_OPEN with
        | none => (PAM_SUCCESS, some out_url, none)
        | some path_open =>
          let path := skipSpaces (buf1.drop (path_open + PATH_OPEN.length)) (path_open + PATH_OPEN.length)
          match strstr buf1 path PATH_CLOSE with
          | none => (PAM_SERVICE_ERR, some out_url, none)
          | some path_close =>
            let record_end2 := trimBack buf1 path path_close
            let buf2 := buf1.set record_end2 NUL
            (PAM_SUCCESS, some out_url, some (cstringAt buf2 path))

/-- The three tests of the principal selection on one authentication-authority value,
in the words of the specification: split on ';', the value has at least 5 fields, its
field 1 equals "Kerberosv5" and its field 4 does not begin with "LKDC:". -/
def qualifying_descriptor (v : String) : Prop :=
  5 ≤ (CFStringCreateArrayBySeparatingStrings v (Char.ofNat 59)).length ∧
  (CFStringCreateArrayBySeparatingStrings v (Char.ofNat 59)).get? 1 = some "Kerberosv5" ∧
  ¬ ("LKDC:".data <+: ((CFStringCreateArrayBySeparatingStrings v (Char.ofNat 59)).getD 4 "").data)

instance qualifying_descriptor_decidable (v : String) : Decidable (qualifying_descriptor v) := by
  unfold qualifying_descriptor
  infer_instance

/-! ## Password policy, home directory and shell checks (Common.c:324-370, 407-490) -/

/-- The code that `CFErrorGetCode(oderror)` returns after a refusal, as far as the
switch of od_record_check_pwpolicy distinguishes codes: the eight constants it names,
and `other` for every code different from them all. -/
inductive ODErrorCode
  | kODErrorCredentialsAccountNotFound
  | kODErrorCredentialsAccountDisabled
  | kODErrorCredentialsAccountInactive
  | kODErrorCredentialsPasswordExpired
  | kODErrorCredentialsPasswordChangeRequired
  | kODErrorCredentialsInvalid
  | kODErrorCredentialsAccountTemporarilyLocked
  | kODErrorCredentialsAccountLocked
  | other (code : Int)
  deriving DecidableEq, Repr

/-- Common.c:324-370.  `authenticationAllowed r` is the answer of
`ODRecordAuthenticationAllowed(record, &oderror)` for the record: `none` when it
returns true, `some code` when it returns false and sets `oderror` to an error of that
code. -/
def od_record_check_pwpolicy (record : Option ODRecord)
    (authenticationAllowed : ODRecord → Option ODErrorCode) : PamCode :=
  match record with
  | none => PAM_SERVICE_ERR
  | some r =>
    match authenticationAllowed r with
    | some ODErrorCode.kODErrorCredentialsAccountNotFound => PAM_USER_UNKNOWN
    | some ODErrorCode.kODErrorCredentialsAccountDisabled => PAM_PERM_DENIED
    | some ODErrorCode.kODErrorCredentialsAccountInactive => PAM_PERM_DENIED
    | some ODErrorCode.kODErrorCredentialsPasswordExpired => PAM_NEW_AUTHTOK_REQD
    | some ODErrorCode.kODErrorCredentialsPasswordChangeRequired => PAM_NEW_AUTHTOK_REQD
    | some ODErrorCode.kODErrorCredentialsInvalid => PAM_AUTH_ERR
    | some ODErrorCode.kODErrorCredentialsAccountTemporarilyLocked => PAM_APPLE_ACCT_TEMP_LOCK
    | some ODErrorCode.kODErrorCredentialsAccountLocked => PAM_APPLE_ACCT_LOCKED
    | some (ODErrorCode.other _) => PAM_AUTH_ERR
    | none => PAM_SUCCESS

/-- Common.c:407-453. -/
def od_record_check_homedir (record : Option ODRecord) : PamCode :=
  match record with
  | none => PAM_SERVICE_ERR
  | some _ =>
    match od_record_attribute_create_cfstring record kODAttributeTypeNFSHomeDirectory with
    | (retval, tmp) =>
      if retval ≠ PAM_SUCCESS then retval
      else
        match tmp with
        | none => PAM_SUCCESS
        | some home =>
          if CFStringEqual home "/dev/null" then PAM_PERM_DENIED
          else if CFStringEqual home "99" then PAM_PERM_DENIED
          else PAM_SUCCESS

/-- Common.c:455-490.  `retval` holds the accessor's code when line 478 is reached and
is returned unchanged when the comparison fails. -/
def od_record_check_shell (record : Option ODRecord) : PamCode :=
  match record with
  | none => PAM_SERVICE_ERR
  | some _ =>
    match od_record_attribute_create_cfstring record kODAttributeTypeUserShell with
    | (retval, cfstr) =>
      if retval ≠ PAM_SUCCESS then retval
      else
        match cfstr with
        | none => PAM_SUCCESS
        | some shell =>
          if CFStringEqual shell "/usr/bin/false" then PAM_PERM_DENIED
          else retval

/-! ## Certificate matching (attribute_matching.c:193-272) -/

/-- The dictionary of the configuration file as copyConfigFileContent accepts it
(attribute_matching.c:68-90): the values under the keys "fields", "formatString" and
"dsAttributeString". -/
structure MatchConfig where
  fields : List String
  formatString : String
  dsAttributeString : String

/-- A `SecKeychainRef`, identified by a number. -/
abbrev SecKeychainRef := Nat

/-- A certificate as the matching code uses it: `details` is the dictionary that
copyCertificateDetails builds from it (the string filed under each field name, `none`
for a field the certificate lacks), and `keychain` is the reference that
`SecKeychainItemCopyKeychain` returns, `none` when its status is not errSecSuccess. -/
structure SecCertificate where
  details : String → Option String
  keychain : Option SecKeychainRef

/-- The dictionary that createUserSearchKey returns. -/
structure SearchKey where
  targetSearchString : String
  dsAttributeString : String
  deriving DecidableEq, Repr

/-- The scan of `CFStringFindAndReplace` with no compare option over the characters
not yet visited: occurrences of `target` are found from left to right in the original
text, without overlap, and each is replaced by `repl`.  The number is how many
characters of a found occurrence are still to pass over. -/
def findAndReplace (target repl : List Char) : Nat → List Char → List Char
  | _, [] => []
  | skip + 1, _ :: cs => findAndReplace target repl skip cs
  | 0, c :: cs =>
    if target.isPrefixOf (c :: cs) then repl ++ findAndReplace target repl (target.length - 1) cs
    else c :: findAndReplace target repl 0 cs

/-- Model of `CFStringFindAndReplace(s, target, repl, CFRangeMake(0, length), 0)`: the
new content of the mutable string `s`.  An empty `target` is never found. -/
def CFStringFindAndReplace (s target repl : String) : String :=
  if target.data = [] then s else String.mk (findAndReplace target.data repl.data 0 s.data)

/-- The string `CFStringCreateWithFormat(kCFAllocatorDefault, NULL, CFSTR("$%d"),
(int)(i + 1))` of attribute_matching.c:222. -/
def replaceString (i : Nat) : String :=
  String.mk ("$".data ++ Nat.toDigits 10 (i + 1))

/-- The `for` loop of createUserSearchKey, attribute_matching.c:216-226, run from index
`i` on the entries of `userSearchValues` not yet visited; returns the final content of
`formatString`. -/
def createUserSearchKey_loop (values : String → Option String) :
    Nat → List String → String → String
  | _, [], formatString => formatString
  | i, tagString :: rest, formatString =>
    match values tagString with
    | some valueString =>
      createUserSearchKey_loop values (i + 1) rest
        (CFStringFindAndReplace formatString (replaceString i) valueString)
    | none => createUserSearchKey_loop values (i + 1) rest formatString

/-- attribute_matching.c:193-239.  `configFile` is what copyConfigFileContent returns,
`none` for NULL. -/
def createUserSearchKey (configFile : Option MatchConfig) (certificate : SecCertificate) :
    Option SearchKey :=
  match configFile with
  | none => none
  | some config =>
    some ⟨createUserSearchKey_loop certificate.details 0 config.fields config.formatString,
      config.dsAttributeString⟩

/-- The value of `match` at attribute_matching.c:258 for one certificate's dictionary. -/
def attribute_match (odRecord : Option ODRecord) (dict : SearchKey) : Bool :=
  match od_record_attribute_create_cfstring odRecord dict.dsAttributeString with
  | (res, value) =>
    decide (res = PAM_SUCCESS) &&
      (match value with
        | some v => CFStringEqual dict.targetSearchString v
        | none => false)

/-- The `for` loop of copyAttributeMatchedKeychain, attribute_matching.c:248-269, run
on the certificates not yet visited. -/
def copyAttributeMatchedKeychain_loop (configFile : Option MatchConfig)
    (odRecord : Option ODRecord) : List SecCertificate → Option SecKeychainRef
  | [] => none
  | certificate :: rest =>
    match createUserSearchKey configFile certificate with
    | none => copyAttributeMatchedKeychain_loop configFile odRecord rest
    | some dict =>
      if attribute_match odRecord dict = true then
        match certificate.keychain with
        | some result => some result
        | none => copyAttributeMatchedKeychain_loop configFile odRecord rest
      else copyAttributeMatchedKeychain_loop configFile odRecord rest

/-- attribute_matching.c:241-272.  The configuration file is read once for each
certificate; `configFile` is its content throughout the call. -/
def copyAttributeMatchedKeychain (configFile : Option MatchConfig)
    (odRecord : Option ODRecord) (certificates : Option (List SecCertificate)) :
    Option SecKeychainRef :=
  match certificates with
  | none => none
  | some certs => copyAttributeMatchedKeychain_loop configFile odRecord certs

/-- What one call of copyAttributeMatchedKeychain does: the reference it is about to
return (`none` for NULL), and whether one of the fetches it made released its
out-pointer, the address of the variable `value` of attribute_matching.c:256. -/
structure KeychainSearch where
  result : Option SecKeychainRef
  releases_out_pointer : Bool
  deriving DecidableEq, Repr

/-- The `for` loop of copyAttributeMatchedKeychain, attribute_matching.c:248-269, run
on the certificates not yet visited, with the fetch of line 257 taken as a run of the
scalar accessor. -/
def copyAttributeMatchedKeychain_loop_run (configFile : Option MatchConfig)
    (odRecord : Option ODRecord) : List SecCertificate → KeychainSearch
  | [] => ⟨none, false⟩
  | certificate :: rest =>
    match createUserSearchKey configFile certificate with
    | none => copyAttributeMatchedKeychain_loop_run configFile odRecord rest
    | some dict =>
      match od_record_attribute_create_cfstring_run odRecord dict.dsAttributeString with
      | ⟨res, value, released⟩ =>
        if (decide (res = PAM_SUCCESS) &&
            (match value with
              | some v => CFStringEqual dict.targetSearchString v
              | none => false)) = true then
          match certificate.keychain with
          | some result => ⟨some result, released⟩
          | none =>
            ⟨(copyAttributeMatchedKeychain_loop_run configFile odRecord rest).result,
              released ||
                (copyAttributeMatchedKeychain_loop_run configFile odRecord
                  rest).releases_out_pointer⟩
        else
          ⟨(copyAttributeMatchedKeychain_loop_run configFile odRecord rest).result,
            released ||
              (copyAttributeMatchedKeychain_loop_run configFile odRecord
                rest).releases_out_pointer⟩

/-- attribute_matching.c:241-272 as a run: the reference computed together with the
record of an out-pointer release among its fetches. -/
def copyAttributeMatchedKeychain_run (configFile : Option MatchConfig)
    (odRecord : Option ODRecord) (certificates : Option (List SecCertificate)) :
    KeychainSearch :=
  match certificates with
  | none => ⟨none, false⟩
  | some certs => copyAttributeMatchedKeychain_loop_run configFile odRecord certs

/-- The template with every placeholder replaced at once, in the words of the
specification, for placeholders of one digit: a `$` followed by a character `d` for
which `value d` is present is replaced by that value, and every other character is
copied. -/
def substitute_placeholders (value : Char → Option (List Char)) : List Char → List Char
  | [] => []
  | [c] => [c]
  | c :: d :: rest =>
    if c = Char.ofNat 36 then
      match value d with
      | some v => v ++ substitute_placeholders value rest
      | none => c :: substitute_placeholders value (d :: rest)
    else c :: substitute_placeholders value (d :: rest)

/-- The value that the specification gives to the placeholder `$d`: when `d` is the
digit of `i` with `1 ≤ i ≤ 9` and `i` at most the number of fields, the certificate's
value for `fields[i-1]`, absent when the certificate lacks that field. -/
def placeholder_value (fields : List String) (details : String → Option String)
    (d : Char) : Option (List Char) :=
  if 49 ≤ d.toNat ∧ d.toNat ≤ 57 ∧ d.toNat - 48 ≤ fields.length then
    match fields.get? (d.toNat - 49) with
    | some tag => (details tag).map String.data
    | none => none
  else none

/-- A certificate matches, in the words of the specification: the scalar fetched for
the configured directory attribute is present and equal to the search string built for
the certificate. -/
def certificate_matches (config : MatchConfig) (odRecord : Option ODRecord)
    (certificate : SecCertificate) : Prop :=
  od_record_attribute_create_cfstring odRecord config.dsAttributeString =
    (PAM_SUCCESS,
      some (createUserSearchKey_loop certificate.details 0 config.fields config.formatString))

/-- The text `hay` reads `pre`, then `needle`, then `post`, and this is the first
place where `needle` stands in `hay`. -/
def first_occurrence (needle hay pre post : CString) : Prop :=
  hay = pre ++ needle ++ post ∧ ∀ j, j < pre.length → ¬ needle <+: hay.drop j

/-- The failure condition of the mount descriptor in the words of the specification:
the text holds no "<url>"; or no "</url>" after the first "<url>"; or, after the URL
element (the first "<url>" up to the first "</url>" that follows it), a "<path>" with no
"</path>" after it.  The "<path>" may be any occurrence after the URL element. -/
def malformed_descriptor_any_path (text : CString) : Prop :=
  ¬ URL_OPEN <:+: text ∨
  ∃ pre after, first_occurrence URL_OPEN text pre after ∧
    (¬ URL_CLOSE <:+: after ∨
      ∃ content rest, first_occurrence URL_CLOSE after content rest ∧
        ∃ mid after2, rest = mid ++ PATH_OPEN ++ after2 ∧
          ¬ PATH_CLOSE <:+: after2)

/-- The failure condition of the mount descriptor with its last clause read on the
first "<path>" only: the text holds no "<url>"; or no "</url>" after the first "<url>";
or the first "<path>" after the URL element has no "</path>" after it.  It differs from
malformed_descriptor_any_path on a text such as "<url>a</url><path>p</path><path>q",
where a later "<path>" is left open and the first one is closed. -/
def malformed_descriptor (text : CString) : Prop :=
  ¬ URL_OPEN <:+: text ∨
  ∃ pre after, first_occurrence URL_OPEN text pre after ∧
    (¬ URL_CLOSE <:+: after ∨
      ∃ content rest, first_occurrence URL_CLOSE after content rest ∧
        ∃ mid after2, first_occurrence PATH_OPEN rest mid after2 ∧
          ¬ PATH_CLOSE <:+: after2)

/-! ## Home of a user (Common.c:492-515, 578-613) -/

/-- Common.c:492-515.  Returns the code and `*out`; `out` is written only when the
attribute has a value. -/
def od_string_from_record (record : Option ODRecord) (attrib : String) :
    PamCode × Option CString :=
  match record with
  | none => (PAM_SERVICE_ERR, none)
  | some _ =>
    match od_record_attribute_create_cfstring record attrib with
    | (retval, val) =>
      if retval ≠ PAM_SUCCESS then (retval, none)
      else
        match val with
        | none => (retval, none)
        | some v => cfstring_to_cstring (some v)

/-- Common.c:578-613.  Returns the code, `*server_URL`, `*path` and `*homedir`.  The
code of extract_homemount at line 596 is not read. -/
def od_extract_home (sess : ODSession) (username : Option CString) :
    PamCode × Option CString × Option CString × Option CString :=
  if (od_record_create_cstring sess username).retval ≠ PAM_SUCCESS then
    ((od_record_create_cstring sess username).retval, none, none, none)
  else
    match od_string_from_record (od_record_create_cstring sess username).record
        kODAttributeTypeHomeDirectory with
    | (retval, tmp) =>
      if retval ≠ PAM_SUCCESS then (retval, none, none, none)
      else
        match extract_homemount tmp with
        | (_, server_URL, path) =>
          match od_string_from_record (od_record_create_cstring sess username).record
              kODAttributeTypeNFSHomeDirectory with
          | (retval2, homedir) =>
            if retval2 ≠ PAM_SUCCESS then (retval2, server_URL, path, homedir)
            else (PAM_SUCCESS, server_URL, path, homedir)

/-! ## Account check of pam_self (pam_self.c:43-75) -/

/-- A `struct passwd` as far as pam_self reads it: the `uid_t` field. -/
structure passwd where
  pw_uid : Nat
  deriving DecidableEq, Repr

/-- What the calls of pam_sm_acct_mgmt answer: `pam_get_user` is the code of
`pam_get_user(pamh, &user, NULL)` and the `user` it leaves, `pam_get_item_RUSER` the
code of `pam_get_item(pamh, PAM_RUSER, &ruser)` and the `ruser` it leaves, and
`getpwnam_r name` the return value of `getpwnam_r` for that name and the entry its
result pointer designates (`none` for NULL). -/
structure PamSelfHandle where
  pam_get_user : PamCode × Option CString
  pam_get_item_RUSER : PamCode × Option CString
  getpwnam_r : CString → Int × Option passwd

/-- pam_self.c:43-75.  Each `||` chain of lines 53-54 and 61-62 is evaluated from left
to right; `uid` is copied before the second lookup reuses the buffer. -/
def pam_sm_acct_mgmt (pamh : PamSelfHandle) : PamCode :=
  if pamh.pam_get_user.1 ≠ PAM_SUCCESS then PAM_AUTH_ERR
  else
    match pamh.pam_get_user.2 with
    | none => PAM_AUTH_ERR
    | some user =>
      if (pamh.getpwnam_r user).1 ≠ 0 then PAM_AUTH_ERR
      else
        match (pamh.getpwnam_r user).2 with
        | none => PAM_AUTH_ERR
        | some pwd =>
          if pamh.pam_get_item_RUSER.1 ≠ PAM_SUCCESS then PAM_AUTH_ERR
          else
            match pamh.pam_get_item_RUSER.2 with
            | none => PAM_AUTH_ERR
            | some ruser =>
              if (pamh.getpwnam_r ruser).1 ≠ 0 then PAM_AUTH_ERR
              else
                match (pamh.getpwnam_r ruser).2 with
                | none => PAM_AUTH_ERR
                | some rpwd =>
                  if pwd.pw_uid ≠ rpwd.pw_uid then PAM_AUTH_ERR
                  else PAM_SUCCESS

/-! ## Concrete inputs -/

/-- A record whose only attribute is `attrib`, with the given values. -/
def recordWith (attrib : String) (vals : List CFTypeRef) : ODRecord :=
  ⟨fun a => if a = attrib then some vals else none⟩

/-- A record of a disabled user: its authentication authority starts with the
disabled-user marker. -/
def disabledUserRecord : ODRecord :=
  recordWith kODAttributeTypeAuthenticationAuthority
    [some (CFType.string ";DisabledUser;;ShadowHash;")]

/-- A node that never returns the record and always reports one unreachable subnode. -/
def unreachableNode : ODNode :=
  ⟨fun _ => some ["/LDAPv3/ldap.example.com"], fun _ _ => none⟩

/-- A node that reports one unreachable subnode at polls 0 and 1 and none from poll 2
on, and never returns a record. -/
def recoveringNode : ODNode :=
  ⟨fun k => if k < 2 then some ["/LDAPv3/ldap.example.com"] else none, fun _ _ => none⟩

/-- A node that returns `r` for every user from poll `k` on, nothing before, and that
always reports one unreachable subnode. -/
def lateNode (k : Nat) (r : ODRecord) : ODNode :=
  ⟨fun _ => some ["/LDAPv3/ldap.example.com"], fun _ j => if j < k then none else some r⟩

/-- A record whose authentication authority holds a local-KDC descriptor followed by a
Kerberos descriptor of the realm REALM.COM. -/
def kerberosRecord : ODRecord :=
  recordWith kODAttributeTypeAuthenticationAuthority
    [some (CFType.string "1;Kerberosv5;;;LKDC:abc"),
     some (CFType.string "1;Kerberosv5;;princA;REALM.COM")]

/-- A record whose authentication authority holds an object that is not a string
followed by a Kerberos descriptor of the realm REALM.COM. -/
def mixedRecord : ODRecord :=
  recordWith kODAttributeTypeAuthenticationAuthority
    [some (CFType.other 0), some (CFType.string "1;Kerberosv5;;princA;REALM.COM")]

/-- A record whose authentication authority holds a value of two fields, then a
Kerberos descriptor of the realm REALM.COM, then an object that is not a string. -/
def malformedFirstRecord : ODRecord :=
  recordWith kODAttributeTypeAuthenticationAuthority
    [some (CFType.string ";ShadowHash;"),
     some (CFType.string "1;Kerberosv5;;princA;REALM.COM"), some (CFType.other 0)]

/-- A record whose authentication authority holds only values that do not qualify. -/
def shadowHashRecord : ODRecord :=
  recordWith kODAttributeTypeAuthenticationAuthority
    [some (CFType.string ";ShadowHash;"), some (CFType.string "1;Kerberosv5;;;LKDC:abc")]

/-- A session whose node returns `r` for every user at the first poll. -/
def sessionWith (r : ODRecord) : ODSession :=
  ⟨some (lateNode 0 r)⟩

/-- The certificate of the specification's example: NT principal name "12345",
organization "mil", held in keychain 7. -/
def exampleCertificate : SecCertificate :=
  ⟨fun tag => if tag = "NT Principal Name" then some "12345"
    else if tag = "Organization" then some "mil" else none, some 7⟩

/-- The configuration of the specification's example. -/
def exampleConfig : MatchConfig :=
  ⟨["NT Principal Name", "Organization"], "$1@$2", "dsAttrTypeNative:MyUserIdentifier"⟩

/-- A configuration of ten fields whose template is the tenth placeholder. -/
def tenFieldConfig : MatchConfig :=
  ⟨["Country", "Organization", "Common Name", "OrganizationalUnit:1", "OrganizationalUnit:2",
    "OrganizationalUnit:3", "RFC 822 Name", "NT Principal Name", "Country", "Organization"],
   "$10", "dsAttrTypeNative:MyUserIdentifier"⟩

/-- A certificate of country "US" and organization "mil". -/
def usMilCertificate : SecCertificate :=
  ⟨fun tag => if tag = "Country" then some "US"
    else if tag = "Organization" then some "mil" else none, some 7⟩

/-- A certificate whose common name is the text "$2", of organization "mil". -/
def dollarCertificate : SecCertificate :=
  ⟨fun tag => if tag = "Common Name" then some "$2"
    else if tag = "Organization" then some "mil" else none, some 7⟩

/-- A certificate whose common name is "2", of organization "mil". -/
def digitCertificate : SecCertificate :=
  ⟨fun tag => if tag = "Common Name" then some "2"
    else if tag = "Organization" then some "mil" else none, some 7⟩

/-- A record with the given values of the home-directory attribute and the NFS home
"/Users/x". -/
def homeRecord (home : List CFTypeRef) : ODRecord :=
  ⟨fun a => if a = kODAttributeTypeHomeDirectory then some home
    else if a = kODAttributeTypeNFSHomeDirectory then some [some (CFType.string "/Users/x")]
    else none⟩

/-- A password database in which "root" and "toor" both have uid 0 and "alice" has uid
501, asked for the target user "root" by the requesting user `ruser`. -/
def selfHandle (ruser : Option CString) : PamSelfHandle :=
  ⟨(PAM_SUCCESS, some "root".data), (PAM_SUCCESS, ruser),
   fun name => if name = "root".data then (0, some ⟨0⟩)
     else if name = "toor".data then (0, some ⟨0⟩)
     else if name = "alice".data then (0, some ⟨501⟩)
     else (0, none)⟩

/-! ## Theorems -/

theorem od_record_create_loop_eq (cfNode : ODNode) (cfUser : String) (i f s : Nat) :
    od_record_create_loop cfNode cfUser i f s =
      if i ≤ kMaxIterationCount then
        match cfNode.copyRecord cfUser i with
        | some r => (some r, f + 1, s)
        | none =>
          if unreachable_count cfNode i = 0 then (none, f + 1, s)
          else od_record_create_loop cfNode cfUser (i + 1) (f + 1) (s + 1)
      else (none, f, s) := by
  rw [od_record_create_loop]

/-- Iterations that find no record while some subnode is unreachable each add one fetch
and one sleep and pass to the next iteration. -/
theorem od_record_create_loop_skip (cfNode : ODNode) (cfUser : String) (d : Nat) :
    ∀ i f s : Nat, i + d ≤ kMaxIterationCount + 1 →
      (∀ j, i ≤ j → j < i + d →
        cfNode.copyRecord cfUser j = none ∧ unreachable_count cfNode j ≠ 0) →
      od_record_create_loop cfNode cfUser i f s =
        od_record_create_loop cfNode cfUser (i + d) (f + d) (s + d) := by
  induction d with
  | zero => intro i f s _ _; rfl
  | succ d ih =>
    intro i f s hle hmiss
    have hi : i ≤ kMaxIterationCount := by omega
    obtain ⟨hnone, hcount⟩ := hmiss i (le_refl i) (by omega)
    rw [od_record_create_loop_eq, if_pos hi, hnone]
    simp only [if_neg hcount]
    rw [ih (i + 1) (f + 1) (s + 1) (by omega)
      (fun j h1 h2 => hmiss j (by omega) (by omega))]
    have e1 : i + 1 + d = i + (d + 1) := by omega
    have e2 : f + 1 + d = f + (d + 1) := by omega
    have e3 : s + 1 + d = s + (d + 1) := by omega
    rw [e1, e2, e3]

/-- The loop is left without a fetch once `current_iterations` exceeds the maximum. -/
theorem od_record_create_loop_exhausted (cfNode : ODNode) (cfUser : String) (i f s : Nat)
    (h : kMaxIterationCount < i) :
    od_record_create_loop cfNode cfUser i f s = (none, f, s) := by
  rw [od_record_create_loop_eq, if_neg (by omega)]

/-- A node that never returns the record and always has an unreachable subnode is
polled 31 times, with 31 sleeps. -/
theorem od_record_create_loop_never_found (cfNode : ODNode) (cfUser : String)
    (hmiss : ∀ j, cfNode.copyRecord cfUser j = none ∧ unreachable_count cfNode j ≠ 0) :
    od_record_create_loop cfNode cfUser 0 0 0 =
      (none, kMaxIterationCount + 1, kMaxIterationCount + 1) := by
  rw [od_record_create_loop_skip cfNode cfUser (kMaxIterationCount + 1) 0 0 0 (by omega)
    (fun j _ _ => hmiss j)]
  rw [od_record_create_loop_exhausted _ _ _ _ _ (by omega)]
  simp

/-- From any iteration on, the loop adds at most one fetch and one sleep for each value
of `current_iterations` up to the maximum. -/
theorem od_record_create_loop_counts_le (cfNode : ODNode) (cfUser : String) (n : Nat) :
    ∀ i f s : Nat, kMaxIterationCount + 1 - i ≤ n →
      (od_record_create_loop cfNode cfUser i f s).2.1 ≤ f + (kMaxIterationCount + 1 - i) ∧
      (od_record_create_loop cfNode cfUser i f s).2.2 ≤ s + (kMaxIterationCount + 1 - i) := by
  induction n with
  | zero =>
    intro i f s h
    rw [od_record_create_loop_exhausted _ _ _ _ _ (by omega)]
    simp
  | succ n ih =>
    intro i f s h
    rw [od_record_create_loop_eq]
    by_cases hi : i ≤ kMaxIterationCount
    · rw [if_pos hi]
      cases cfNode.copyRecord cfUser i with
      | some r => simp only; omega
      | none =>
        by_cases hz : unreachable_count cfNode i = 0
        · simp only [if_pos hz]; omega
        · simp only [if_neg hz]
          have := ih (i + 1) (f + 1) (s + 1) (by omega)
          omega
    · rw [if_neg hi]
      simp

/-- Every call of od_record_create, whatever the node answers, makes at most
`kMaxIterationCount + 1 = 31` fetches and as many sleeps. -/
theorem od_record_create_counts_le (sess : ODSession) (cfUser : Option String) :
    (od_record_create sess cfUser).fetches ≤ kMaxIterationCount + 1 ∧
    (od_record_create sess cfUser).sleeps ≤ kMaxIterationCount + 1 := by
  unfold od_record_create
  cases cfUser with
  | none => simp
  | some user =>
    cases sess.node with
    | none => simp
    | some cfNode =>
      have h := od_record_create_loop_counts_le cfNode user (kMaxIterationCount + 1) 0 0 0
        (by omega)
      simp only
      rcases hl : od_record_create_loop cfNode user 0 0 0 with ⟨rec, f, s⟩
      rw [hl] at h
      cases rec <;> simpa using h

/-! ### The scalar accessor -/

/-- NULL entries at the head of the value list are passed over. -/
theorem od_record_attribute_create_cfstring_loop_skip_null (pre rest : List CFTypeRef)
    (hpre : ∀ v ∈ pre, v = none) :
    od_record_attribute_create_cfstring_loop (pre ++ rest) =
      od_record_attribute_create_cfstring_loop rest := by
  induction pre with
  | nil => rfl
  | cons v pre ih =>
    have hv : v = none := hpre v (List.mem_cons_self v pre)
    subst hv
    simp only [List.cons_append, od_record_attribute_create_cfstring_loop]
    exact ih (fun w hw => hpre w (List.mem_cons_of_mem _ hw))

/-- On a record that has values for the attribute the accessor is the loop over them. -/
theorem od_record_attribute_create_cfstring_some (r : ODRecord) (attrib : String)
    (vals : List CFTypeRef) (h : r.values attrib = some vals) :
    od_record_attribute_create_cfstring (some r) attrib =
      od_record_attribute_create_cfstring_loop vals := by
  simp [od_record_attribute_create_cfstring, od_record_attribute_create_cfstring_run,
    od_record_attribute_create_cfstring_body, od_record_attribute_create_cfarray, h]

/-- On a record that has no value array for the attribute the accessor succeeds with
an absent result. -/
theorem od_record_attribute_create_cfstring_none (r : ODRecord) (attrib : String)
    (h : r.values attrib = none) :
    od_record_attribute_create_cfstring (some r) attrib = (PAM_SUCCESS, none) := by
  simp [od_record_attribute_create_cfstring, od_record_attribute_create_cfstring_run,
    od_record_attribute_create_cfstring_body, od_record_attribute_create_cfarray, h]

/-- Whenever the scalar fetch of the authentication authority succeeds, the
authority-disabled check returns PAM_SUCCESS, whatever the value is. -/
theorem od_record_check_authauthority_of_fetch_success (r : ODRecord) (authauth : Option String)
    (h : od_record_attribute_create_cfstring (some r) kODAttributeTypeAuthenticationAuthority
      = (PAM_SUCCESS, authauth)) :
    od_record_check_authauthority (some r) = PAM_SUCCESS := by
  simp only [od_record_check_authauthority, h]
  cases authauth with
  | none => simp
  | some a => simp

/-- C1, code defect: for the record of a disabled user, whose authentication authority
is the single string ";DisabledUser;;ShadowHash;", the scalar fetch succeeds with that
value, the value begins with the disabled-user marker, and od_record_check_authauthority
returns PAM_SUCCESS where the claim requires PAM_PERM_DENIED. -/
theorem C1_disabled_user_is_allowed :
    od_record_attribute_create_cfstring (some disabledUserRecord)
        kODAttributeTypeAuthenticationAuthority
      = (PAM_SUCCESS, some ";DisabledUser;;ShadowHash;") ∧
    CFStringHasPrefix ";DisabledUser;;ShadowHash;" kDSValueAuthAuthorityDisabledUser = true ∧
    od_record_check_authauthority (some disabledUserRecord) = PAM_SUCCESS ∧
    od_record_check_authauthority (some disabledUserRecord) ≠ PAM_PERM_DENIED := by
  decide

/-- The cleanup releases the out-pointer exactly on the runs whose code is not
PAM_SUCCESS. -/
theorem od_record_attribute_create_cfstring_run_releases (record : Option ODRecord)
    (attrib : String) :
    (od_record_attribute_create_cfstring_run record attrib).releases_out_pointer =
      decide (PAM_SUCCESS ≠ (od_record_attribute_create_cfstring_run record attrib).retval) := by
  unfold od_record_attribute_create_cfstring_run
  rcases od_record_attribute_create_cfstring_body record attrib with ⟨retval, out⟩
  rfl

/-- On a record that has values for the attribute, a run of the accessor is the loop
over them followed by the cleanup. -/
theorem od_record_attribute_create_cfstring_run_some (r : ODRecord) (attrib : String)
    (vals : List CFTypeRef) (h : r.values attrib = some vals) :
    od_record_attribute_create_cfstring_run (some r) attrib =
      ⟨(od_record_attribute_create_cfstring_loop vals).1,
        (od_record_attribute_create_cfstring_loop vals).2,
        decide (PAM_SUCCESS ≠ (od_record_attribute_create_cfstring_loop vals).1)⟩ := by
  simp [od_record_attribute_create_cfstring_run, od_record_attribute_create_cfstring_body,
    od_record_attribute_create_cfarray, h]

/-- On a record that has no value array for the attribute, a run of the accessor
succeeds with an absent result and releases nothing. -/
theorem od_record_attribute_create_cfstring_run_none (r : ODRecord) (attrib : String)
    (h : r.values attrib = none) :
    od_record_attribute_create_cfstring_run (some r) attrib = ⟨PAM_SUCCESS, none, false⟩ := by
  simp [od_record_attribute_create_cfstring_run, od_record_attribute_create_cfstring_body,
    od_record_attribute_create_cfarray, h]

/-- A run on a value list whose first entry that is not NULL is a string: the string is
copied to `*out`, the code is PAM_SUCCESS and the cleanup releases nothing, whatever
follows the string. -/
theorem od_record_attribute_create_cfstring_run_first_string (r : ODRecord)
    (attrib : String) (pre post : List CFTypeRef) (s : String)
    (h : r.values attrib = some (pre ++ some (CFType.string s) :: post))
    (hpre : ∀ v ∈ pre, v = none) :
    od_record_attribute_create_cfstring_run (some r) attrib = ⟨PAM_SUCCESS, some s, false⟩ := by
  rw [od_record_attribute_create_cfstring_run_some r attrib _ h,
    od_record_attribute_create_cfstring_loop_skip_null pre _ hpre]
  rfl

/-- A run on a value list whose first entry that is not NULL is not a string: the
branch of Common.c:270-274 sets PAM_PERM_DENIED with `*out` still NULL, no later entry
is read, and the cleanup releases the out-pointer. -/
theorem od_record_attribute_create_cfstring_run_first_other (r : ODRecord)
    (attrib : String) (pre post : List CFTypeRef) (t : Nat)
    (h : r.values attrib = some (pre ++ some (CFType.other t) :: post))
    (hpre : ∀ v ∈ pre, v = none) :
    od_record_attribute_create_cfstring_run (some r) attrib =
      ⟨PAM_PERM_DENIED, none, true⟩ := by
  rw [od_record_attribute_create_cfstring_run_some r attrib _ h,
    od_record_attribute_create_cfstring_loop_skip_null pre _ hpre]
  rfl

/-- C2, counterexample: the value list [other, "x"] has two values, one of them the
string "x", yet a run of the scalar accessor does not succeed with "x": it stops at the
first entry, in the branch of Common.c:270-274, with the code PAM_PERM_DENIED and `*out`
still NULL, and its cleanup releases the out-pointer. -/
theorem C2_counterexample :
    1 < [some (CFType.other 0), some (CFType.string "x")].length ∧
    some (CFType.string "x") ∈ [some (CFType.other 0), some (CFType.string "x")] ∧
    od_record_attribute_create_cfstring_run
        (some (recordWith "attr" [some (CFType.other 0), some (CFType.string "x")])) "attr"
      = ⟨PAM_PERM_DENIED, none, true⟩ ∧
    od_record_attribute_create_cfstring_run
        (some (recordWith "attr" [some (CFType.other 0), some (CFType.string "x")])) "attr"
      ≠ ⟨PAM_SUCCESS, some "x", false⟩ := by
  decide

/-- C2, amended: on an attribute with more than one value a run of the scalar accessor
passes over NULL entries and lets the first entry that is not NULL decide, whatever
follows it.  If that entry is a string the run succeeds with the string and releases
nothing.  If it is not a string it is not passed over: no string is returned, the run
takes the branch that sets PAM_PERM_DENIED with `*out` still NULL, and its cleanup
releases the out-pointer.  When every entry is NULL the run succeeds with an absent
result. -/
theorem C2_scalar_multi_first_entry_decides (r : ODRecord) (attrib : String)
    (vals : List CFTypeRef) (hvals : r.values attrib = some vals) (_hmany : 1 < vals.length) :
    (∀ (pre post : List CFTypeRef) (s : String),
        vals = pre ++ some (CFType.string s) :: post → (∀ v ∈ pre, v = none) →
        od_record_attribute_create_cfstring_run (some r) attrib =
          ⟨PAM_SUCCESS, some s, false⟩) ∧
    (∀ (pre post : List CFTypeRef) (t : Nat),
        vals = pre ++ some (CFType.other t) :: post → (∀ v ∈ pre, v = none) →
        od_record_attribute_create_cfstring_run (some r) attrib =
          ⟨PAM_PERM_DENIED, none, true⟩ ∧
        ∀ s : String, (od_record_attribute_create_cfstring_run (some r) attrib).out
          ≠ some s) ∧
    ((∀ v ∈ vals, v = none) →
        od_record_attribute_create_cfstring_run (some r) attrib =
          ⟨PAM_SUCCESS, none, false⟩) := by
  refine ⟨?_, ?_, ?_⟩
  · intro pre post s hsplit hpre
    exact od_record_attribute_create_cfstring_run_first_string r attrib pre post s
      (hsplit ▸ hvals) hpre
  · intro pre post t hsplit hpre
    have h := od_record_attribute_create_cfstring_run_first_other r attrib pre post t
      (hsplit ▸ hvals) hpre
    refine ⟨h, ?_⟩
    intro s hs
    rw [h] at hs
    cases hs
  · intro hall
    have h := od_record_attribute_create_cfstring_loop_skip_null vals [] hall
    rw [List.append_nil] at h
    rw [od_record_attribute_create_cfstring_run_some r attrib vals hvals, h]
    rfl

/-- Witness of C2_scalar_multi_first_entry_decides on the values [NULL, "x", other]:
the string "x" is returned and nothing is released. -/
theorem C2_scalar_multi_first_entry_decides_witness :
    od_record_attribute_create_cfstring_run
        (some (recordWith "attr" [none, some (CFType.string "x"), some (CFType.other 0)])) "attr"
      = ⟨PAM_SUCCESS, some "x", false⟩ :=
  (C2_scalar_multi_first_entry_decides
    (recordWith "attr" [none, some (CFType.string "x"), some (CFType.other 0)]) "attr"
    [none, some (CFType.string "x"), some (CFType.other 0)] (by decide) (by decide)).1
    [none] [some (CFType.other 0)] "x" (by decide) (by decide)

/-- On an attribute with no value (no array, or an empty array) or with a single string
value, a run of the scalar accessor succeeds, with an absent result or with the value,
and its cleanup releases nothing. -/
theorem od_record_attribute_create_cfstring_run_at_most_one_string (r : ODRecord)
    (attrib : String) :
    (r.values attrib = none ∨ r.values attrib = some [] →
        od_record_attribute_create_cfstring_run (some r) attrib =
          ⟨PAM_SUCCESS, none, false⟩) ∧
    (∀ s : String, r.values attrib = some [some (CFType.string s)] →
        od_record_attribute_create_cfstring_run (some r) attrib =
          ⟨PAM_SUCCESS, some s, false⟩) := by
  refine ⟨?_, ?_⟩
  · rintro (h | h)
    · exact od_record_attribute_create_cfstring_run_none r attrib h
    · rw [od_record_attribute_create_cfstring_run_some r attrib [] h]; rfl
  · intro s h
    rw [od_record_attribute_create_cfstring_run_some r attrib _ h]; rfl

/-- C6, code defect: on an attribute whose single value is not a string, a run of the
scalar accessor sets PAM_PERM_DENIED with `*out` still NULL, as the claim says, and then
its cleanup releases the out-pointer (Common.c:278-281), so the run is not the plain
failure that the claim describes. -/
theorem C6_non_string_value_releases_out_pointer :
    od_record_attribute_create_cfstring_run
        (some (recordWith "attr" [some (CFType.other 0)])) "attr"
      = ⟨PAM_PERM_DENIED, none, true⟩ ∧
    od_record_attribute_create_cfstring_run
        (some (recordWith "attr" [some (CFType.other 0)])) "attr"
      ≠ ⟨PAM_PERM_DENIED, none, false⟩ := by
  decide

/-- C3, code defect: against a node that never returns the record and always reports an
unreachable subnode, one call of od_record_create fetches the record 31 times and
sleeps 31 times before returning PAM_USER_UNKNOWN, one more than the 30 attempts of the
claim and of kMaxIterationCount. -/
theorem C3_thirty_one_attempts :
    kMaxIterationCount = 30 ∧
    (od_record_create ⟨some unreachableNode⟩ (some "user")).fetches = 31 ∧
    (od_record_create ⟨some unreachableNode⟩ (some "user")).sleeps = 31 ∧
    (od_record_create ⟨some unreachableNode⟩ (some "user")).retval = PAM_USER_UNKNOWN ∧
    ¬ (od_record_create ⟨some unreachableNode⟩ (some "user")).fetches ≤ 30 := by
  have h := od_record_create_loop_never_found unreachableNode "user"
    (fun j => ⟨rfl, by simp [unreachable_count, unreachableNode]⟩)
  simp [od_record_create, h, kMaxIterationCount]

/-- C4: if the loop reaches attempt `k` (no earlier attempt found the record or saw
zero unreachable subnodes) and at attempt `k` the fetch returns nothing while the
unreachable count is zero, od_record_create returns PAM_USER_UNKNOWN with no record
after exactly `k + 1` fetches and `k` sleeps: none after that attempt, and for `k = 0`
one fetch and no sleep. -/
theorem C4_authoritative_absence (sess : ODSession) (cfNode : ODNode) (cfUser : String)
    (k : Nat) (hnode : sess.node = some cfNode) (hk : k ≤ kMaxIterationCount)
    (hmiss : ∀ j, j < k →
      cfNode.copyRecord cfUser j = none ∧ unreachable_count cfNode j ≠ 0)
    (hnone : cfNode.copyRecord cfUser k = none)
    (hzero : unreachable_count cfNode k = 0) :
    (od_record_create sess (some cfUser)).retval = PAM_USER_UNKNOWN ∧
    (od_record_create sess (some cfUser)).record = none ∧
    (od_record_create sess (some cfUser)).fetches = k + 1 ∧
    (od_record_create sess (some cfUser)).sleeps = k := by
  have hloop : od_record_create_loop cfNode cfUser 0 0 0 = (none, k + 1, k) := by
    rw [od_record_create_loop_skip cfNode cfUser k 0 0 0 (by omega)
      (fun j _ h2 => hmiss j (by omega))]
    rw [od_record_create_loop_eq, if_pos (by omega)]
    simp [hnone, hzero]
  simp [od_record_create, hnode, hloop]

/-- Witness of C4_authoritative_absence: a node with an unreachable subnode at polls 0
and 1 and none at poll 2 gives PAM_USER_UNKNOWN after 3 fetches and 2 sleeps. -/
theorem C4_authoritative_absence_witness :
    (od_record_create ⟨some recoveringNode⟩ (some "user")).retval = PAM_USER_UNKNOWN ∧
    (od_record_create ⟨some recoveringNode⟩ (some "user")).record = none ∧
    (od_record_create ⟨some recoveringNode⟩ (some "user")).fetches = 2 + 1 ∧
    (od_record_create ⟨some recoveringNode⟩ (some "user")).sleeps = 2 :=
  C4_authoritative_absence ⟨some recoveringNode⟩ recoveringNode "user" 2 rfl (by decide)
    (fun j hj => ⟨rfl, by simp [unreachable_count, recoveringNode, hj]⟩) rfl (by decide)

/-- C5: if the loop reaches attempt `k` and the fetch of attempt `k` returns the record
`r`, od_record_create returns PAM_SUCCESS with `r` after exactly `k + 1` fetches and `k`
sleeps, whatever the unreachable count of attempt `k` is. -/
theorem C5_found_record_succeeds (sess : ODSession) (cfNode : ODNode) (cfUser : String)
    (k : Nat) (r : ODRecord) (hnode : sess.node = some cfNode) (hk : k ≤ kMaxIterationCount)
    (hmiss : ∀ j, j < k →
      cfNode.copyRecord cfUser j = none ∧ unreachable_count cfNode j ≠ 0)
    (hfound : cfNode.copyRecord cfUser k = some r) :
    (od_record_create sess (some cfUser)).retval = PAM_SUCCESS ∧
    (od_record_create sess (some cfUser)).record = some r ∧
    (od_record_create sess (some cfUser)).fetches = k + 1 ∧
    (od_record_create sess (some cfUser)).sleeps = k := by
  have hloop : od_record_create_loop cfNode cfUser 0 0 0 = (some r, k + 1, k) := by
    rw [od_record_create_loop_skip cfNode cfUser k 0 0 0 (by omega)
      (fun j _ h2 => hmiss j (by omega))]
    rw [od_record_create_loop_eq, if_pos (by omega)]
    simp [hfound]
  simp [od_record_create, hnode, hloop]

/-- Witness of C5_found_record_succeeds: a node that always reports an unreachable
subnode and returns the record at poll 3 gives PAM_SUCCESS with that record after 4
fetches and 3 sleeps. -/
theorem C5_found_record_succeeds_witness :
    unreachable_count (lateNode 3 disabledUserRecord) 3 = 1 ∧
    (od_record_create ⟨some (lateNode 3 disabledUserRecord)⟩ (some "user")).retval
      = PAM_SUCCESS ∧
    (od_record_create ⟨some (lateNode 3 disabledUserRecord)⟩ (some "user")).record
      = some disabledUserRecord ∧
    (od_record_create ⟨some (lateNode 3 disabledUserRecord)⟩ (some "user")).fetches = 3 + 1 ∧
    (od_record_create ⟨some (lateNode 3 disabledUserRecord)⟩ (some "user")).sleeps = 3 :=
  ⟨rfl, C5_found_record_succeeds ⟨some (lateNode 3 disabledUserRecord)⟩
    (lateNode 3 disabledUserRecord) "user" 3 disabledUserRecord rfl (by decide)
    (fun j hj => ⟨by simp [lateNode, hj], by simp [unreachable_count, lateNode]⟩) rfl⟩

/-! ### The Kerberos principal -/

/-- The test of the loop rejects a value exactly when the value does not qualify. -/
theorem authparts_rejected_iff (v : String) :
    authparts_rejected (CFStringCreateArrayBySeparatingStrings v (Char.ofNat 59)) = true ↔
      ¬ qualifying_descriptor v := by
  unfold authparts_rejected qualifying_descriptor CFStringEqual CFStringHasPrefix
  generalize CFStringCreateArrayBySeparatingStrings v (Char.ofNat 59) = parts
  by_cases hlen : parts.length < 5
  · simp [hlen]
  · obtain ⟨x, hx⟩ : ∃ x, parts[1]? = some x :=
      ⟨parts[1], List.getElem?_eq_getElem (by omega)⟩
    have hge : 5 ≤ parts.length := by omega
    simp [hlen, hge, List.getD_eq_getElem?_getD, hx, List.get?_eq_getElem?]
    tauto

/-- String values that do not qualify, at the head of the value list, are passed over. -/
theorem od_principal_for_user_loop_skip (pre : List String) (rest : List CFTypeRef)
    (hpre : ∀ w ∈ pre, ¬ qualifying_descriptor w) :
    od_principal_for_user_loop (pre.map (fun s => some (CFType.string s)) ++ rest) =
      od_principal_for_user_loop rest := by
  induction pre with
  | nil => rfl
  | cons w pre ih =>
    have hw : authparts_rejected (CFStringCreateArrayBySeparatingStrings w (Char.ofNat 59))
        = true := (authparts_rejected_iff w).mpr (hpre w (List.mem_cons_self w pre))
    simp only [List.map_cons, List.cons_append, od_principal_for_user_loop, hw, if_true]
    exact ih (fun u hu => hpre u (List.mem_cons_of_mem _ hu))

/-- A string value that qualifies, at the head of the value list, is selected. -/
theorem od_principal_for_user_loop_select (v : String) (rest : List CFTypeRef)
    (hv : qualifying_descriptor v) :
    od_principal_for_user_loop (some (CFType.string v) :: rest) =
      some (CFStringCreateArrayBySeparatingStrings v (Char.ofNat 59)) := by
  have h : authparts_rejected (CFStringCreateArrayBySeparatingStrings v (Char.ofNat 59))
      = false := by
    cases hr : authparts_rejected (CFStringCreateArrayBySeparatingStrings v (Char.ofNat 59))
    · rfl
    · exact absurd hv ((authparts_rejected_iff v).mp hr)
  simp [od_principal_for_user_loop, h]

/-- When no string value of the list qualifies, the loop ends with `authparts` NULL. -/
theorem od_principal_for_user_loop_none (vals : List CFTypeRef)
    (hall : ∀ s, some (CFType.string s) ∈ vals → ¬ qualifying_descriptor s) :
    od_principal_for_user_loop vals = none := by
  induction vals with
  | nil => rfl
  | cons x vals ih =>
    match x with
    | none => rfl
    | some (CFType.other _) => rfl
    | some (CFType.string w) =>
      have hw : authparts_rejected (CFStringCreateArrayBySeparatingStrings w (Char.ofNat 59))
          = true := (authparts_rejected_iff w).mpr (hall w (List.mem_cons_self _ _))
      simp only [od_principal_for_user_loop, hw, if_true]
      exact ih (fun s hs => hall s (List.mem_cons_of_mem _ hs))

/-- Once the user has resolved to `record`, od_principal_for_user is decided by the
value array of the authentication authority. -/
theorem od_principal_for_user_resolved (sess : ODSession) (user : CString) (record : ODRecord)
    (hret : (od_record_create_cstring sess (some user)).retval = PAM_SUCCESS)
    (hrec : (od_record_create_cstring sess (some user)).record = some record) :
    od_principal_for_user sess (some user) =
      match record.values kODAttributeTypeAuthenticationAuthority with
      | none => (PAM_PERM_DENIED, none)
      | some vals =>
        match od_principal_for_user_loop vals with
        | none => (PAM_PERM_DENIED, none)
        | some authparts =>
          match authparts.get? 3 with
          | none => (PAM_PERM_DENIED, none)
          | some principal => (PAM_SUCCESS, some principal.data) := by
  simp only [od_principal_for_user, hret, hrec, od_record_attribute_create_cfarray,
    cfstring_to_cstring]
  cases record.values kODAttributeTypeAuthenticationAuthority with
  | none => simp
  | some vals => simp

/-- A session whose node returns `r` at the first poll resolves every user to `r`. -/
theorem od_record_create_cstring_sessionWith (r : ODRecord) (user : CString) :
    (od_record_create_cstring (sessionWith r) (some user)).retval = PAM_SUCCESS ∧
    (od_record_create_cstring (sessionWith r) (some user)).record = some r := by
  simp [od_record_create_cstring, cstring_to_cfstring, od_record_create, sessionWith,
    od_record_create_loop_eq, lateNode, kMaxIterationCount]

/-- A value that qualifies has a field of index 3. -/
theorem qualifying_descriptor_principal (v : String) (hv : qualifying_descriptor v) :
    ∃ principal,
      (CFStringCreateArrayBySeparatingStrings v (Char.ofNat 59)).get? 3 = some principal := by
  have hlen : 3 < (CFStringCreateArrayBySeparatingStrings v (Char.ofNat 59)).length := by
    have := hv.1
    omega
  exact ⟨_, List.get?_eq_get hlen⟩

/-- C7: when the user resolves and the authentication authority is a list of strings,
od_principal_for_user succeeds with field 3 (split on ';') of the first value, in list
order, that has at least 5 fields, whose field 1 is "Kerberosv5" and whose field 4 does
not begin with "LKDC:"; the values before it, which fail one of the tests, are passed
over. -/
theorem C7_first_qualifying_value_selected (sess : ODSession) (user : CString)
    (record : ODRecord) (pre : List String) (v : String) (post : List String)
    (hret : (od_record_create_cstring sess (some user)).retval = PAM_SUCCESS)
    (hrec : (od_record_create_cstring sess (some user)).record = some record)
    (hvals : record.values kODAttributeTypeAuthenticationAuthority =
      some ((pre ++ v :: post).map (fun s => some (CFType.string s))))
    (hpre : ∀ w ∈ pre, ¬ qualifying_descriptor w) (hv : qualifying_descriptor v) :
    ∃ principal,
      (CFStringCreateArrayBySeparatingStrings v (Char.ofNat 59)).get? 3 = some principal ∧
      od_principal_for_user sess (some user) = (PAM_SUCCESS, some principal.data) := by
  obtain ⟨principal, hp⟩ := qualifying_descriptor_principal v hv
  refine ⟨principal, hp, ?_⟩
  rw [od_principal_for_user_resolved sess user record hret hrec, hvals]
  simp only [List.map_append, List.map_cons]
  rw [od_principal_for_user_loop_skip pre _ hpre, od_principal_for_user_loop_select v _ hv]
  simp only [hp]

/-- Witness of C7_first_qualifying_value_selected: the values
["1;Kerberosv5;;;LKDC:abc", "1;Kerberosv5;;princA;REALM.COM"] yield "princA". -/
theorem C7_first_qualifying_value_selected_witness :
    od_principal_for_user (sessionWith kerberosRecord) (some "alice".data)
      = (PAM_SUCCESS, some "princA".data) :=
  match C7_first_qualifying_value_selected (sessionWith kerberosRecord) "alice".data
      kerberosRecord ["1;Kerberosv5;;;LKDC:abc"] "1;Kerberosv5;;princA;REALM.COM" []
      (od_record_create_cstring_sessionWith kerberosRecord "alice".data).1
      (od_record_create_cstring_sessionWith kerberosRecord "alice".data).2
      (by decide) (by decide) (by decide) with
  | ⟨principal, hp, h⟩ =>
    have e : principal = "princA" := Option.some.inj (hp.symm.trans (by decide))
    e ▸ h

/-- C8: when the user resolves and no authentication-authority value qualifies (the
attribute is absent, or no string value of the list, which may be empty, has at least 5
fields with field 1 "Kerberosv5" and field 4 not beginning with "LKDC:"),
od_principal_for_user fails with PAM_PERM_DENIED and writes no principal. -/
theorem C8_no_qualifying_value_denied (sess : ODSession) (user : CString) (record : ODRecord)
    (hret : (od_record_create_cstring sess (some user)).retval = PAM_SUCCESS)
    (hrec : (od_record_create_cstring sess (some user)).record = some record)
    (hnone : record.values kODAttributeTypeAuthenticationAuthority = none ∨
      ∃ vals, record.values kODAttributeTypeAuthenticationAuthority = some vals ∧
        ∀ s, some (CFType.string s) ∈ vals → ¬ qualifying_descriptor s) :
    od_principal_for_user sess (some user) = (PAM_PERM_DENIED, none) := by
  rw [od_principal_for_user_resolved sess user record hret hrec]
  rcases hnone with h | ⟨vals, h, hall⟩
  · rw [h]
  · rw [h]
    simp only [od_principal_for_user_loop_none vals hall]

/-- Witness of C8_no_qualifying_value_denied: an absent attribute, an empty list, and a
list holding a two-field value and a local-KDC descriptor all give PAM_PERM_DENIED. -/
theorem C8_no_qualifying_value_denied_witness :
    od_principal_for_user (sessionWith (recordWith "other" [])) (some "alice".data)
      = (PAM_PERM_DENIED, none) ∧
    od_principal_for_user
        (sessionWith (recordWith kODAttributeTypeAuthenticationAuthority []))
        (some "alice".data)
      = (PAM_PERM_DENIED, none) ∧
    od_principal_for_user (sessionWith shadowHashRecord) (some "alice".data)
      = (PAM_PERM_DENIED, none) :=
  ⟨C8_no_qualifying_value_denied (sessionWith (recordWith "other" [])) "alice".data
      (recordWith "other" [])
      (od_record_create_cstring_sessionWith _ _).1
      (od_record_create_cstring_sessionWith _ _).2 (Or.inl (by decide)),
   C8_no_qualifying_value_denied
      (sessionWith (recordWith kODAttributeTypeAuthenticationAuthority [])) "alice".data
      (recordWith kODAttributeTypeAuthenticationAuthority [])
      (od_record_create_cstring_sessionWith _ _).1
      (od_record_create_cstring_sessionWith _ _).2
      (Or.inr ⟨[], by decide, by simp⟩),
   C8_no_qualifying_value_denied (sessionWith shadowHashRecord) "alice".data
      shadowHashRecord
      (od_record_create_cstring_sessionWith _ _).1
      (od_record_create_cstring_sessionWith _ _).2
      (Or.inr ⟨[some (CFType.string ";ShadowHash;"),
          some (CFType.string "1;Kerberosv5;;;LKDC:abc")], by decide, by
        intro s hs
        simp only [List.mem_cons, Option.some.injEq, CFType.string.injEq,
          List.mem_singleton, List.not_mem_nil, or_false] at hs
        rcases hs with rfl | rfl <;> decide⟩)⟩

/-- C9, counterexample: the value list [other, "1;Kerberosv5;;princA;REALM.COM"] holds
a qualifying Kerberos descriptor after a value that is not a string, yet
od_principal_for_user fails with PAM_PERM_DENIED and no principal instead of returning
"princA": the value that is not a string ends the scan. -/
theorem C9_counterexample :
    qualifying_descriptor "1;Kerberosv5;;princA;REALM.COM" ∧
    mixedRecord.values kODAttributeTypeAuthenticationAuthority =
      some [some (CFType.other 0), some (CFType.string "1;Kerberosv5;;princA;REALM.COM")] ∧
    od_principal_for_user (sessionWith mixedRecord) (some "alice".data)
      = (PAM_PERM_DENIED, none) ∧
    od_principal_for_user (sessionWith mixedRecord) (some "alice".data)
      ≠ (PAM_SUCCESS, some "princA".data) := by
  have h : od_principal_for_user (sessionWith mixedRecord) (some "alice".data)
      = (PAM_PERM_DENIED, none) := by
    rw [od_principal_for_user_resolved (sessionWith mixedRecord) "alice".data mixedRecord
      (od_record_create_cstring_sessionWith _ _).1
      (od_record_create_cstring_sessionWith _ _).2]
    rfl
  refine ⟨by decide, by decide, h, ?_⟩
  rw [h]
  decide

/-- C9, amended: when the user resolves, string values that do not qualify (fewer than
5 fields, a tag other than "Kerberosv5", or a realm beginning with "LKDC:") are passed
over and the values after them are still examined, so a qualifying string value that
follows only such values yields its principal, whatever comes after it; a value that is
NULL or not a string, met after only such values, ends the scan, and the call fails
with PAM_PERM_DENIED and no principal whatever follows it. -/
theorem C9_malformed_strings_skipped_non_string_stops (sess : ODSession) (user : CString)
    (record : ODRecord) (pre : List String)
    (hret : (od_record_create_cstring sess (some user)).retval = PAM_SUCCESS)
    (hrec : (od_record_create_cstring sess (some user)).record = some record)
    (hpre : ∀ w ∈ pre, ¬ qualifying_descriptor w) :
    (∀ (v : String) (post : List CFTypeRef),
        record.values kODAttributeTypeAuthenticationAuthority =
          some (pre.map (fun s => some (CFType.string s)) ++ some (CFType.string v) :: post) →
        qualifying_descriptor v →
        ∃ principal,
          (CFStringCreateArrayBySeparatingStrings v (Char.ofNat 59)).get? 3 = some principal ∧
          od_principal_for_user sess (some user) = (PAM_SUCCESS, some principal.data)) ∧
    (∀ (x : CFTypeRef) (post : List CFTypeRef),
        record.values kODAttributeTypeAuthenticationAuthority =
          some (pre.map (fun s => some (CFType.string s)) ++ x :: post) →
        (x = none ∨ ∃ t, x = some (CFType.other t)) →
        od_principal_for_user sess (some user) = (PAM_PERM_DENIED, none)) := by
  rw [od_principal_for_user_resolved sess user record hret hrec]
  constructor
  · intro v post hvals hv
    obtain ⟨principal, hp⟩ := qualifying_descriptor_principal v hv
    refine ⟨principal, hp, ?_⟩
    rw [hvals]
    simp only
    rw [od_principal_for_user_loop_skip pre _ hpre, od_principal_for_user_loop_select v _ hv]
    simp only [hp]
  · intro x post hvals hx
    rw [hvals]
    simp only
    rw [od_principal_for_user_loop_skip pre _ hpre]
    rcases hx with rfl | ⟨t, rfl⟩ <;> rfl

/-- Witness of C9_malformed_strings_skipped_non_string_stops: in
[";ShadowHash;", "1;Kerberosv5;;princA;REALM.COM", other] the two-field value is passed
over and field 3 of the Kerberos descriptor is returned. -/
theorem C9_malformed_strings_skipped_non_string_stops_witness :
    ∃ principal,
      (CFStringCreateArrayBySeparatingStrings "1;Kerberosv5;;princA;REALM.COM"
        (Char.ofNat 59)).get? 3 = some principal ∧
      od_principal_for_user (sessionWith malformedFirstRecord) (some "alice".data)
        = (PAM_SUCCESS, some principal.data) :=
  (C9_malformed_strings_skipped_non_string_stops (sessionWith malformedFirstRecord)
    "alice".data malformedFirstRecord [";ShadowHash;"]
    (od_record_create_cstring_sessionWith _ _).1
    (od_record_create_cstring_sessionWith _ _).2
    (by decide)).1 "1;Kerberosv5;;princA;REALM.COM" [some (CFType.other 0)]
    (by decide) (by decide)

/-! ### The home-mount descriptor -/

/-- C10, code defect: on "<url> </url>", whose URL element holds only whitespace,
extract_homemount succeeds with the URL "</url>" where the claim requires the empty
URL: the backward trimming loop steps to the character before the content, the
terminator is written there, and the copy starts at the closing marker. -/
theorem C10_whitespace_only_url :
    extract_homemount (some "<url> </url>".data)
      = (PAM_SUCCESS, some "</url>".data, none) ∧
    extract_homemount (some "<url> </url>".data)
      ≠ (PAM_SUCCESS, some "".data, none) := by
  decide

/-- The example of the specification: the URL element " afp://host/share " gives the
URL "afp://host/share" and no path. -/
theorem extract_homemount_url_example :
    extract_homemount (some "<url> afp://host/share </url>".data)
      = (PAM_SUCCESS, some "afp://host/share".data, none) := by
  decide

/-- A whitespace character is not the terminator. -/
theorem isspace_ne_NUL (c : Char) (h : isspace c = true) : c ≠ NUL := by
  intro e
  subst e
  revert h
  decide

/-- Overwriting the character that follows `A`. -/
theorem set_append_cons (A : CString) (c x : Char) (tl : CString) :
    (A ++ c :: tl).set A.length x = A ++ x :: tl := by
  induction A with
  | nil => rfl
  | cons a A ih => simp [List.set, ih]

/-- The character at offset `A.length + i` of `A ++ L` is the character at offset `i`
of `L`. -/
theorem charAt_append_right (A L : CString) (i : Nat) :
    charAt (A ++ L) (A.length + i) = charAt L i := by
  induction A with
  | nil => simp
  | cons a A ih =>
    have e : (a :: A).length + i = (A.length + i) + 1 := by simp; omega
    rw [List.cons_append, e]
    simpa [charAt] using ih

/-- A character read inside the list belongs to it. -/
theorem charAt_mem (L : CString) (i : Nat) (h : i < L.length) : charAt L i ∈ L := by
  induction L generalizing i with
  | nil => simp at h
  | cons a L ih =>
    cases i with
    | zero => simp [charAt]
    | succ i =>
      have := ih i (by simpa using h)
      simp only [charAt, List.getD_cons_succ] at this ⊢
      exact List.mem_cons_of_mem _ this

/-- Reading inside the first part of an append. -/
theorem charAt_append_left (L M : CString) (i : Nat) (h : i < L.length) :
    charAt (L ++ M) i = charAt L i := by
  induction L generalizing i with
  | nil => simp at h
  | cons a L ih =>
    cases i with
    | zero => simp [charAt]
    | succ i =>
      have := ih i (by simpa using h)
      simpa [charAt] using this

/-- The C string that starts after `A` is the rest of the buffer when the rest holds
no NUL. -/
theorem cstringAt_append (A tl : CString) (h : NUL ∉ tl) :
    cstringAt (A ++ tl) A.length = tl := by
  unfold cstringAt
  rw [List.drop_left]
  rw [List.takeWhile_eq_self_iff]
  intro c hc
  have : c ≠ NUL := fun e => h (e ▸ hc)
  simpa using this

/-- The C string that starts after `A` stops at the first NUL. -/
theorem cstringAt_append_NUL (A core tl : CString) (h : NUL ∉ core) :
    cstringAt (A ++ core ++ NUL :: tl) A.length = core := by
  unfold cstringAt
  rw [List.append_assoc, List.drop_left]
  induction core with
  | nil => simp [List.takeWhile]
  | cons c core ih =>
    have hc : c ≠ NUL := fun e => h (e ▸ List.mem_cons_self _ _)
    have hrest : NUL ∉ core := fun hm => h (List.mem_cons_of_mem _ hm)
    simp [List.takeWhile, hc]
    simpa using ih hrest

/-- The search finds the occurrence at offset `k` when no earlier offset starts one. -/
theorem findSub_eq_some (needle : CString) :
    ∀ (hay : CString) (k : Nat), needle <+: hay.drop k → k ≤ hay.length →
      (∀ j, j < k → ¬ needle <+: hay.drop j) → findSub needle hay = some k := by
  intro hay
  induction hay with
  | nil =>
    intro k hocc hk _
    have hk0 : k = 0 := by simpa using hk
    subst hk0
    have : needle.isPrefixOf [] = true := List.isPrefixOf_iff_prefix.mpr (by simpa using hocc)
    simp [findSub, this]
  | cons c cs ih =>
    intro k hocc hk hfirst
    cases k with
    | zero =>
      have : needle.isPrefixOf (c :: cs) = true :=
        List.isPrefixOf_iff_prefix.mpr (by simpa using hocc)
      simp [findSub, this]
    | succ k =>
      have h0 : ¬ needle <+: c :: cs := by simpa using hfirst 0 (by omega)
      have hf : needle.isPrefixOf (c :: cs) = false := by
        cases hb : needle.isPrefixOf (c :: cs)
        · rfl
        · exact absurd (List.isPrefixOf_iff_prefix.mp hb) h0
      have hrec := ih k (by simpa using hocc) (by simpa using hk)
        (fun j hj => by simpa using hfirst (j + 1) (by omega))
      simp [findSub, hf, hrec]

/-- The search fails when the needle does not occur. -/
theorem findSub_eq_none (needle : CString) :
    ∀ hay : CString, ¬ needle <:+: hay → findSub needle hay = none := by
  intro hay
  induction hay with
  | nil =>
    intro h
    have hf : needle.isPrefixOf [] = false := by
      cases hb : needle.isPrefixOf []
      · rfl
      · exact absurd (List.isPrefixOf_iff_prefix.mp hb).isInfix h
    simp [findSub, hf]
  | cons c cs ih =>
    intro h
    have hf : needle.isPrefixOf (c :: cs) = false := by
      cases hb : needle.isPrefixOf (c :: cs)
      · rfl
      · exact absurd (List.isPrefixOf_iff_prefix.mp hb).isInfix h
    have hrec := ih (fun hi => h (hi.trans (List.suffix_cons c cs).isInfix))
    simp [findSub, hf, hrec]

/-- The forward loop stops after the leading whitespace. -/
theorem skipSpaces_append (ws tl : CString) (p : Nat) (hws : ∀ c ∈ ws, isspace c = true)
    (htl : ∀ c, tl.head? = some c → isspace c = false) :
    skipSpaces (ws ++ tl) p = p + ws.length := by
  induction ws generalizing p with
  | nil =>
    cases tl with
    | nil => rfl
    | cons c tl => simp [skipSpaces, htl c rfl]
  | cons w ws ih =>
    have hw : isspace w = true := hws w (List.mem_cons_self _ _)
    have hn : w ≠ NUL := isspace_ne_NUL w hw
    rw [List.cons_append, skipSpaces, if_pos ⟨hn, hw⟩,
      ih (p + 1) (fun c hc => hws c (List.mem_cons_of_mem _ hc))]
    simp only [List.length_cons]
    omega

/-- The backward loop stops at `e` when the character before `e` is not whitespace:
it steps back over `n` whitespace characters that stand before characters other than
NUL. -/
theorem trimBack_stops (buf : CString) (start e : Nat) (hstart : start ≤ e) (he : 0 < e)
    (hlast : isspace (charAt buf (e - 1)) = false) (n : Nat) :
    (∀ i, e ≤ i → i < e + n → isspace (charAt buf i) = true) →
    (∀ i, e < i → i ≤ e + n → charAt buf i ≠ NUL) →
    trimBack buf start (e + n) = e := by
  induction n with
  | zero =>
    intro _ _
    obtain ⟨e', rfl⟩ : ∃ e', e = e' + 1 := ⟨e - 1, by omega⟩
    simp only [Nat.add_zero, trimBack]
    simp only [Nat.add_sub_cancel] at hlast
    simp [hlast]
  | succ n ih =>
    intro hsp hnn
    have h1 : isspace (charAt buf (e + n)) = true := hsp (e + n) (by omega) (by omega)
    have h2 : charAt buf (e + n + 1) ≠ NUL := hnn (e + n + 1) (by omega) (by omega)
    have h3 : start ≤ e + n + 1 := by omega
    rw [← Nat.add_assoc]
    simp only [trimBack, h1, h2, h3, ne_eq, not_false_eq_true, and_self, if_true]
    exact ih (fun i a b => hsp i a (by omega)) (fun i a b => hnn i a (by omega))

/-- The last character of a non-empty list is the one at offset `length - 1`. -/
theorem charAt_getLast (L : CString) (h : L ≠ []) : charAt L (L.length - 1) = L.getLast h := by
  induction L with
  | nil => exact absurd rfl h
  | cons a L ih =>
    cases L with
    | nil => rfl
    | cons b L =>
      have := ih (List.cons_ne_nil b L)
      simpa [charAt] using this

/-- An occurrence of "<path>" in whitespace followed by "</url>" and `rest` lies in
`rest`. -/
theorem path_open_infix_rest (ws rest : CString) (hws : ∀ c ∈ ws, isspace c = true)
    (h : PATH_OPEN <:+: ws ++ (URL_CLOSE ++ rest)) : PATH_OPEN <:+: rest := by
  induction ws with
  | nil =>
    simp only [List.nil_append, URL_CLOSE, PATH_OPEN, List.cons_append] at h ⊢
    rcases List.infix_cons_iff.mp h with h | h
    · simp [List.cons_prefix_cons] at h
    rcases List.infix_cons_iff.mp h with h | h
    · simp [List.cons_prefix_cons] at h
    rcases List.infix_cons_iff.mp h with h | h
    · simp [List.cons_prefix_cons] at h
    rcases List.infix_cons_iff.mp h with h | h
    · simp [List.cons_prefix_cons] at h
    rcases List.infix_cons_iff.mp h with h | h
    · simp [List.cons_prefix_cons] at h
    rcases List.infix_cons_iff.mp h with h | h
    · simp [List.cons_prefix_cons] at h
    exact h
  | cons w ws ih =>
    have hw : isspace w = true := hws w (List.mem_cons_self _ _)
    rcases List.infix_cons_iff.mp h with h | h
    · exfalso
      simp only [PATH_OPEN, List.cons_append, List.cons_prefix_cons] at h
      have e := h.1
      subst e
      revert hw
      decide
    · exact ih (fun c hc => hws c (List.mem_cons_of_mem _ hc)) h

/-- The extraction of one element, the steps shared by the URL and the path: in a
buffer `B ++ ws1 ++ core ++ ws2 ++ close ++ rest` whose part after `B` holds no NUL,
where `ws1` and `ws2` are whitespace, `core` starts and ends with a character that is
not whitespace and `close` is a non-empty marker that does not occur earlier after `B`,
the forward loop stops at `core`, the search finds the marker, the backward loop stops
after `core`, and the write of the terminator leaves `core` as the C string there. -/
theorem element_steps (B ws1 core ws2 close rest : CString)
    (hnul : NUL ∉ ws1 ++ (core ++ (ws2 ++ (close ++ rest))))
    (hws1 : ∀ c ∈ ws1, isspace c = true) (hws2 : ∀ c ∈ ws2, isspace c = true)
    (hcore : core ≠ []) (hhead : isspace (core.head hcore) = false)
    (hlast : isspace (core.getLast hcore) = false) (hcl : close ≠ [])
    (hclose : ∀ j, j < (core ++ ws2).length →
      ¬ close <+: (core ++ (ws2 ++ (close ++ rest))).drop j) :
    skipSpaces ((B ++ (ws1 ++ (core ++ (ws2 ++ (close ++ rest))))).drop B.length) B.length
      = B.length + ws1.length ∧
    strstr (B ++ (ws1 ++ (core ++ (ws2 ++ (close ++ rest))))) (B.length + ws1.length) close
      = some (B.length + ws1.length + core.length + ws2.length) ∧
    trimBack (B ++ (ws1 ++ (core ++ (ws2 ++ (close ++ rest))))) (B.length + ws1.length)
        (B.length + ws1.length + core.length + ws2.length)
      = B.length + ws1.length + core.length ∧
    (B ++ (ws1 ++ (core ++ (ws2 ++ (close ++ rest))))).set
        (B.length + ws1.length + core.length) NUL
      = (B ++ ws1) ++ core ++ NUL :: (ws2 ++ (close ++ rest)).tail := by
  have hn_core : NUL ∉ core ++ (ws2 ++ (close ++ rest)) :=
    fun h => hnul (List.mem_append_right _ h)
  have hn_T : NUL ∉ ws2 ++ (close ++ rest) :=
    fun h => hn_core (List.mem_append_right _ h)
  refine ⟨?_, ?_, ?_, ?_⟩
  · rw [List.drop_left]
    apply skipSpaces_append ws1 _ B.length hws1
    intro c hc
    cases core with
    | nil => exact absurd rfl hcore
    | cons a core =>
      simp only [List.cons_append, List.head?_cons, Option.some.injEq] at hc
      subst hc
      simpa using hhead
  · have hcs : cstringAt (B ++ (ws1 ++ (core ++ (ws2 ++ (close ++ rest)))))
        (B.length + ws1.length) = core ++ (ws2 ++ (close ++ rest)) := by
      have := cstringAt_append (B ++ ws1) (core ++ (ws2 ++ (close ++ rest))) hn_core
      simpa [List.append_assoc] using this
    have hfind := findSub_eq_some close (core ++ (ws2 ++ (close ++ rest)))
      (core ++ ws2).length
      (by
        rw [← List.append_assoc core ws2, List.drop_left]
        exact List.prefix_append _ _)
      (by simp) hclose
    simp only [strstr, hcs, hfind, Option.map_some', List.length_append]
    congr 1
    omega
  · have he : B.length + ws1.length + core.length
        = (B ++ ws1).length + core.length := by simp
    have hlen : 0 < core.length := List.length_pos.mpr hcore
    apply trimBack_stops _ _ _ (by omega) (by omega)
    · have e1 : B.length + ws1.length + core.length - 1
          = (B ++ ws1).length + (core.length - 1) := by simp; omega
      rw [e1, ← List.append_assoc B ws1, charAt_append_right,
        charAt_append_left _ _ _ (by omega), charAt_getLast core hcore]
      exact hlast
    · intro i h1 h2
      obtain ⟨j, rfl⟩ : ∃ j, i = (B ++ (ws1 ++ core)).length + j :=
        ⟨i - (B.length + ws1.length + core.length), by simp; omega⟩
      have hj : j < ws2.length := by simp at h2; omega
      have e2 : B ++ (ws1 ++ (core ++ (ws2 ++ (close ++ rest))))
          = (B ++ (ws1 ++ core)) ++ (ws2 ++ (close ++ rest)) := by simp
      rw [e2, charAt_append_right, charAt_append_left _ _ _ hj]
      exact hws2 _ (charAt_mem ws2 j hj)
    · intro i h1 h2
      obtain ⟨j, rfl⟩ : ∃ j, i = (B ++ (ws1 ++ core)).length + j :=
        ⟨i - (B.length + ws1.length + core.length), by simp; omega⟩
      have hj : j < (ws2 ++ (close ++ rest)).length := by
        have : 0 < close.length := List.length_pos.mpr hcl
        simp at h2 ⊢
        omega
      have e2 : B ++ (ws1 ++ (core ++ (ws2 ++ (close ++ rest))))
          = (B ++ (ws1 ++ core)) ++ (ws2 ++ (close ++ rest)) := by simp
      rw [e2, charAt_append_right]
      exact fun e => hn_T (e ▸ charAt_mem _ j hj)
  · have hT : ws2 ++ (close ++ rest) ≠ [] := by
      cases close with
      | nil => exact absurd rfl hcl
      | cons a close => simp
    obtain ⟨c, tl, hct⟩ : ∃ c tl, ws2 ++ (close ++ rest) = c :: tl :=
      List.exists_cons_of_ne_nil hT
    rw [hct]
    have hset := set_append_cons (B ++ ws1 ++ core) c NUL tl
    simp only [List.length_append, List.append_assoc, List.tail_cons, Nat.add_assoc]
      at hset ⊢
    exact hset

/-- The URL of a home-mount descriptor whose URL element holds a character that is not
whitespace.  Let `text` hold no NUL and read `pre <url> ws1 core ws2 </url> rest`, where
this `<url>` is the first one of `text`, this `</url>` is the first one after it, `ws1`
and `ws2` are whitespace and `core` starts and ends with a character that is not
whitespace.  Then extract_homemount writes `core` as the URL, and when no `<path>`
occurs in `rest` it returns PAM_SUCCESS with the path absent. -/
theorem extract_homemount_url_trimmed (text pre ws1 core ws2 rest : CString)
    (htext : text = pre ++ URL_OPEN ++ ws1 ++ core ++ ws2 ++ URL_CLOSE ++ rest)
    (hnul : NUL ∉ text)
    (hopen : ∀ j, j < pre.length → ¬ URL_OPEN <+: text.drop j)
    (hws1 : ∀ c ∈ ws1, isspace c = true) (hws2 : ∀ c ∈ ws2, isspace c = true)
    (hcore : core ≠ []) (hhead : isspace (core.head hcore) = false)
    (hlast : isspace (core.getLast hcore) = false)
    (hclose : ∀ j, j < (ws1 ++ core ++ ws2).length →
      ¬ URL_CLOSE <+: (ws1 ++ core ++ ws2 ++ URL_CLOSE ++ rest).drop j) :
    (extract_homemount (some text)).2.1 = some core ∧
    (¬ PATH_OPEN <:+: rest → extract_homemount (some text) = (PAM_SUCCESS, some core, none)) := by
  have htext2 : text = (pre ++ URL_OPEN) ++ (ws1 ++ (core ++ (ws2 ++ (URL_CLOSE ++ rest)))) := by
    rw [htext]; simp only [List.append_assoc]
  have hn_tail : NUL ∉ ws1 ++ (core ++ (ws2 ++ (URL_CLOSE ++ rest))) := by
    intro h
    exact hnul (htext2 ▸ List.mem_append_right _ h)
  have hclose2 : ∀ j, j < (core ++ ws2).length →
      ¬ URL_CLOSE <+: (core ++ (ws2 ++ (URL_CLOSE ++ rest))).drop j := by
    intro j hj h
    apply hclose (ws1.length + j) (by simp at hj ⊢; omega)
    have e : (ws1 ++ core ++ ws2 ++ URL_CLOSE ++ rest).drop (ws1.length + j)
        = (core ++ (ws2 ++ (URL_CLOSE ++ rest))).drop j := by
      simp only [List.append_assoc]
      rw [← List.drop_drop, List.drop_left]
    rw [e]
    exact h
  obtain ⟨hskip, hstr, htrim, hset⟩ := element_steps (pre ++ URL_OPEN) ws1 core ws2 URL_CLOSE
    rest hn_tail hws1 hws2 hcore hhead hlast (by decide) hclose2
  rw [← htext2] at hskip hstr htrim hset
  have h_open : strstr text 0 URL_OPEN = some pre.length := by
    have hcs : cstringAt text 0 = text := cstringAt_append [] text hnul
    have hfind := findSub_eq_some URL_OPEN text pre.length
      (by
        rw [htext]
        simp only [List.append_assoc]
        rw [List.drop_left]
        exact List.prefix_append _ _)
      (by rw [htext]; simp) hopen
    simp [strstr, hcs, hfind]
  have hn_core : NUL ∉ core := fun h =>
    hn_tail (List.mem_append_right _ (List.mem_append_left _ h))
  have hn_T : NUL ∉ (ws2 ++ (URL_CLOSE ++ rest)).tail := fun h =>
    hn_tail (List.mem_append_right _ (List.mem_append_right _ (List.mem_of_mem_tail h)))
  have h_url : cstringAt ((pre ++ URL_OPEN ++ ws1) ++ core ++ NUL ::
      (ws2 ++ (URL_CLOSE ++ rest)).tail) ((pre ++ URL_OPEN).length + ws1.length) = core := by
    have := cstringAt_append_NUL (pre ++ URL_OPEN ++ ws1) core
      (ws2 ++ (URL_CLOSE ++ rest)).tail hn_core
    simp only [List.length_append, List.append_assoc, Nat.add_assoc] at this ⊢
    exact this
  have h_rest : cstringAt ((pre ++ URL_OPEN ++ ws1) ++ core ++ NUL ::
      (ws2 ++ (URL_CLOSE ++ rest)).tail) ((pre ++ URL_OPEN).length + ws1.length + core.length + 1)
      = (ws2 ++ (URL_CLOSE ++ rest)).tail := by
    have := cstringAt_append (pre ++ URL_OPEN ++ ws1 ++ core ++ [NUL])
      (ws2 ++ (URL_CLOSE ++ rest)).tail hn_T
    simp only [List.length_append, List.append_assoc, Nat.add_assoc, List.length_cons,
      List.length_nil, List.cons_append, List.nil_append, Nat.zero_add] at this ⊢
    exact this
  simp only [List.length_append, List.append_assoc] at hskip hstr htrim hset h_url h_rest
  constructor
  · simp only [extract_homemount, h_open, hskip, hstr, htrim, hset, h_url]
    split
    · rfl
    · split <;> rfl
  · intro hpath
    have hnone : findSub PATH_OPEN (ws2 ++ (URL_CLOSE ++ rest)).tail = none := by
      apply findSub_eq_none
      intro h
      exact hpath (path_open_infix_rest ws2 rest hws2
        (h.trans (List.tail_suffix _).isInfix))
    simp only [extract_homemount, h_open, hskip, hstr, htrim, hset, h_url]
    simp [strstr, h_rest, hnone]

/-- The general URL theorem applied to the example of the specification,
"<url> afp://host/share </url>". -/
theorem extract_homemount_url_trimmed_witness :
    (extract_homemount (some "<url> afp://host/share </url>".data)).2.1
      = some "afp://host/share".data ∧
    (¬ PATH_OPEN <:+: [] →
      extract_homemount (some "<url> afp://host/share </url>".data)
        = (PAM_SUCCESS, some "afp://host/share".data, none)) :=
  extract_homemount_url_trimmed "<url> afp://host/share </url>".data [] " ".data
    "afp://host/share".data " ".data [] (by decide) (by decide) (by decide) (by decide)
    (by decide) (by decide) (by decide) (by decide) (by decide)

/-! ### Password policy, home directory and shell checks -/

/-- C16: od_record_check_pwpolicy is a function of the answer of the policy service
alone: PAM_SUCCESS when authentication is allowed, and on refusal AccountNotFound gives
PAM_USER_UNKNOWN, AccountDisabled and AccountInactive PAM_PERM_DENIED, PasswordExpired
and PasswordChangeRequired PAM_NEW_AUTHTOK_REQD, CredentialsInvalid PAM_AUTH_ERR,
AccountTemporarilyLocked PAM_APPLE_ACCT_TEMP_LOCK, AccountLocked PAM_APPLE_ACCT_LOCKED
and every other code PAM_AUTH_ERR; no refusal gives PAM_SUCCESS. -/
theorem C16_pwpolicy_mapping (r : ODRecord) (allowed : ODRecord → Option ODErrorCode) :
    (allowed r = none → od_record_check_pwpolicy (some r) allowed = PAM_SUCCESS) ∧
    (∀ code, allowed r = some code →
      od_record_check_pwpolicy (some r) allowed =
        (match code with
          | ODErrorCode.kODErrorCredentialsAccountNotFound => PAM_USER_UNKNOWN
          | ODErrorCode.kODErrorCredentialsAccountDisabled => PAM_PERM_DENIED
          | ODErrorCode.kODErrorCredentialsAccountInactive => PAM_PERM_DENIED
          | ODErrorCode.kODErrorCredentialsPasswordExpired => PAM_NEW_AUTHTOK_REQD
          | ODErrorCode.kODErrorCredentialsPasswordChangeRequired => PAM_NEW_AUTHTOK_REQD
          | ODErrorCode.kODErrorCredentialsInvalid => PAM_AUTH_ERR
          | ODErrorCode.kODErrorCredentialsAccountTemporarilyLocked => PAM_APPLE_ACCT_TEMP_LOCK
          | ODErrorCode.kODErrorCredentialsAccountLocked => PAM_APPLE_ACCT_LOCKED
          | ODErrorCode.other _ => PAM_AUTH_ERR) ∧
      od_record_check_pwpolicy (some r) allowed ≠ PAM_SUCCESS) ∧
    (∀ (r2 : ODRecord) (allowed2 : ODRecord → Option ODErrorCode), allowed r = allowed2 r2 →
      od_record_check_pwpolicy (some r) allowed = od_record_check_pwpolicy (some r2) allowed2) := by
  refine ⟨?_, ?_, ?_⟩
  · intro h
    simp [od_record_check_pwpolicy, h]
  · intro code h
    cases code <;> simp [od_record_check_pwpolicy, h]
  · intro r2 allowed2 h
    simp [od_record_check_pwpolicy, h]

/-- Witness of C16_pwpolicy_mapping: a locked account gives PAM_APPLE_ACCT_LOCKED and
an unknown code gives PAM_AUTH_ERR. -/
theorem C16_pwpolicy_mapping_witness :
    od_record_check_pwpolicy (some disabledUserRecord)
        (fun _ => some ODErrorCode.kODErrorCredentialsAccountLocked)
      = PAM_APPLE_ACCT_LOCKED ∧
    od_record_check_pwpolicy (some disabledUserRecord) (fun _ => some (ODErrorCode.other 4100))
      = PAM_AUTH_ERR ∧
    od_record_check_pwpolicy (some disabledUserRecord) (fun _ => none) = PAM_SUCCESS :=
  ⟨((C16_pwpolicy_mapping disabledUserRecord
      (fun _ => some ODErrorCode.kODErrorCredentialsAccountLocked)).2.1 _ rfl).1,
   ((C16_pwpolicy_mapping disabledUserRecord
      (fun _ => some (ODErrorCode.other 4100))).2.1 _ rfl).1,
   (C16_pwpolicy_mapping disabledUserRecord (fun _ => none)).1 rfl⟩

/-- C17: when the scalar fetch of the NFS home succeeds, od_record_check_homedir
returns PAM_PERM_DENIED exactly when the value is "/dev/null" or "99", and PAM_SUCCESS
when the attribute is absent and for every other string. -/
theorem C17_homedir_sentinels (r : ODRecord) (home : Option String)
    (hfetch : od_record_attribute_create_cfstring (some r) kODAttributeTypeNFSHomeDirectory
      = (PAM_SUCCESS, home)) :
    (od_record_check_homedir (some r) = PAM_PERM_DENIED ↔
      home = some "/dev/null" ∨ home = some "99") ∧
    (¬ (home = some "/dev/null" ∨ home = some "99") →
      od_record_check_homedir (some r) = PAM_SUCCESS) := by
  simp only [od_record_check_homedir, hfetch, CFStringEqual]
  cases home with
  | none => simp
  | some h =>
    by_cases h1 : h = "/dev/null"
    · simp [h1]
    · by_cases h2 : h = "99"
      · simp [h2]
      · simp [h1, h2]

/-- Witness of C17_homedir_sentinels: "/dev/null" and "99" are denied; the empty
string, "/dev/null/x" and "990" are allowed. -/
theorem C17_homedir_sentinels_witness :
    od_record_check_homedir
        (some (recordWith kODAttributeTypeNFSHomeDirectory [some (CFType.string "/dev/null")]))
      = PAM_PERM_DENIED ∧
    od_record_check_homedir
        (some (recordWith kODAttributeTypeNFSHomeDirectory [some (CFType.string "99")]))
      = PAM_PERM_DENIED ∧
    od_record_check_homedir
        (some (recordWith kODAttributeTypeNFSHomeDirectory [some (CFType.string "")]))
      = PAM_SUCCESS ∧
    od_record_check_homedir
        (some (recordWith kODAttributeTypeNFSHomeDirectory [some (CFType.string "/dev/null/x")]))
      = PAM_SUCCESS ∧
    od_record_check_homedir
        (some (recordWith kODAttributeTypeNFSHomeDirectory [some (CFType.string "990")]))
      = PAM_SUCCESS ∧
    od_record_check_homedir (some (recordWith kODAttributeTypeNFSHomeDirectory []))
      = PAM_SUCCESS :=
  ⟨(C17_homedir_sentinels _ (some "/dev/null") (by decide)).1.mpr (Or.inl rfl),
   (C17_homedir_sentinels _ (some "99") (by decide)).1.mpr (Or.inr rfl),
   (C17_homedir_sentinels _ (some "") (by decide)).2 (by decide),
   (C17_homedir_sentinels _ (some "/dev/null/x") (by decide)).2 (by decide),
   (C17_homedir_sentinels _ (some "990") (by decide)).2 (by decide),
   (C17_homedir_sentinels _ none (by decide)).2 (by decide)⟩

/-- C18: when the scalar fetch of the login shell succeeds, od_record_check_shell
returns PAM_PERM_DENIED exactly when the value is "/usr/bin/false", and PAM_SUCCESS
when the attribute is absent and for every other string. -/
theorem C18_shell_sentinel (r : ODRecord) (shell : Option String)
    (hfetch : od_record_attribute_create_cfstring (some r) kODAttributeTypeUserShell
      = (PAM_SUCCESS, shell)) :
    (od_record_check_shell (some r) = PAM_PERM_DENIED ↔ shell = some "/usr/bin/false") ∧
    (shell ≠ some "/usr/bin/false" → od_record_check_shell (some r) = PAM_SUCCESS) := by
  simp only [od_record_check_shell, hfetch, CFStringEqual]
  cases shell with
  | none => simp
  | some h =>
    by_cases h1 : h = "/usr/bin/false"
    · simp [h1]
    · simp [h1]

/-- Witness of C18_shell_sentinel: "/usr/bin/false" is denied; "/bin/false",
"/usr/bin/false " and an absent shell are allowed. -/
theorem C18_shell_sentinel_witness :
    od_record_check_shell
        (some (recordWith kODAttributeTypeUserShell [some (CFType.string "/usr/bin/false")]))
      = PAM_PERM_DENIED ∧
    od_record_check_shell
        (some (recordWith kODAttributeTypeUserShell [some (CFType.string "/bin/false")]))
      = PAM_SUCCESS ∧
    od_record_check_shell
        (some (recordWith kODAttributeTypeUserShell [some (CFType.string "/usr/bin/false ")]))
      = PAM_SUCCESS ∧
    od_record_check_shell (some (recordWith kODAttributeTypeUserShell [])) = PAM_SUCCESS :=
  ⟨(C18_shell_sentinel _ (some "/usr/bin/false") (by decide)).1.mpr rfl,
   (C18_shell_sentinel _ (some "/bin/false") (by decide)).2 (by decide),
   (C18_shell_sentinel _ (some "/usr/bin/false ") (by decide)).2 (by decide),
   (C18_shell_sentinel _ none (by decide)).2 (by decide)⟩

/-! ### Termination of the retry loop and the first entry of the scalar accessor -/

/-- C19: od_record_create is a total function whose retry loop ends after at most
`kMaxIterationCount + 1` fetches and sleeps whatever the node answers at each poll; and
against a node that never returns the record while its unreachable count stays
positive, the call ends with PAM_USER_UNKNOWN and no record, not with
PAM_SERVICE_ERR or PAM_BUF_ERR. -/
theorem C19_resolve_terminates (sess : ODSession) (cfNode : ODNode) (cfUser : String)
    (hnode : sess.node = some cfNode) :
    (od_record_create sess (some cfUser)).fetches ≤ kMaxIterationCount + 1 ∧
    (od_record_create sess (some cfUser)).sleeps ≤ kMaxIterationCount + 1 ∧
    ((∀ k, cfNode.copyRecord cfUser k = none ∧ 0 < unreachable_count cfNode k) →
      (od_record_create sess (some cfUser)).retval = PAM_USER_UNKNOWN ∧
      (od_record_create sess (some cfUser)).record = none ∧
      (od_record_create sess (some cfUser)).retval ≠ PAM_SERVICE_ERR ∧
      (od_record_create sess (some cfUser)).retval ≠ PAM_BUF_ERR) := by
  refine ⟨(od_record_create_counts_le sess (some cfUser)).1,
    (od_record_create_counts_le sess (some cfUser)).2, ?_⟩
  intro hmiss
  have h := od_record_create_loop_never_found cfNode cfUser
    (fun j => ⟨(hmiss j).1, Nat.pos_iff_ne_zero.mp (hmiss j).2⟩)
  simp [od_record_create, hnode, h]

/-- Witness of C19_resolve_terminates: the node that never returns the record and
always reports one unreachable subnode. -/
theorem C19_resolve_terminates_witness :
    (od_record_create ⟨some unreachableNode⟩ (some "user")).fetches ≤ kMaxIterationCount + 1 ∧
    (od_record_create ⟨some unreachableNode⟩ (some "user")).retval = PAM_USER_UNKNOWN ∧
    (od_record_create ⟨some unreachableNode⟩ (some "user")).record = none :=
  ⟨(C19_resolve_terminates ⟨some unreachableNode⟩ unreachableNode "user" rfl).1,
   ((C19_resolve_terminates ⟨some unreachableNode⟩ unreachableNode "user" rfl).2.2
      (fun _ => ⟨rfl, by simp [unreachable_count, unreachableNode]⟩)).1,
   ((C19_resolve_terminates ⟨some unreachableNode⟩ unreachableNode "user" rfl).2.2
      (fun _ => ⟨rfl, by simp [unreachable_count, unreachableNode]⟩)).2.1⟩

/-- C20, code defect: the value lists [other] and [other, "x"] have the same first
entry, which is not a string.  On both, a run of the scalar accessor sets
PAM_PERM_DENIED with `*out` still NULL and then releases the out-pointer
(Common.c:278-281), a call whose effect depends on the memory at the address of the
caller's variable; on the list ["x", other], whose first entry is a string, the run
succeeds with "x" and releases nothing. -/
theorem C20_non_string_first_entry_releases_out_pointer :
    (od_record_attribute_create_cfstring_run
        (some (recordWith "a" [some (CFType.other 0)])) "a").releases_out_pointer = true ∧
    (od_record_attribute_create_cfstring_run
        (some (recordWith "b" [some (CFType.other 0), some (CFType.string "x")]))
        "b").releases_out_pointer = true ∧
    od_record_attribute_create_cfstring_run
        (some (recordWith "a" [some (CFType.other 0)])) "a" = ⟨PAM_PERM_DENIED, none, true⟩ ∧
    od_record_attribute_create_cfstring_run
        (some (recordWith "b" [some (CFType.other 0), some (CFType.string "x")])) "b"
      = ⟨PAM_PERM_DENIED, none, true⟩ ∧
    od_record_attribute_create_cfstring_run
        (some (recordWith "c" [some (CFType.string "x"), some (CFType.other 0)])) "c"
      = ⟨PAM_SUCCESS, some "x", false⟩ := by
  decide

/-! ### Certificate matching -/

/-- The dictionary built with a configuration. -/
theorem createUserSearchKey_some (config : MatchConfig) (certificate : SecCertificate) :
    createUserSearchKey (some config) certificate =
      some ⟨createUserSearchKey_loop certificate.details 0 config.fields config.formatString,
        config.dsAttributeString⟩ := rfl

/-- The test of line 258 holds exactly when the certificate matches. -/
theorem attribute_match_iff (config : MatchConfig) (odRecord : Option ODRecord)
    (certificate : SecCertificate) :
    attribute_match odRecord
        ⟨createUserSearchKey_loop certificate.details 0 config.fields config.formatString,
          config.dsAttributeString⟩ = true ↔
      certificate_matches config odRecord certificate := by
  unfold attribute_match certificate_matches CFStringEqual
  rcases h : od_record_attribute_create_cfstring odRecord config.dsAttributeString
    with ⟨res, value⟩
  cases value with
  | none => simp
  | some v =>
    simp only [Bool.and_eq_true, decide_eq_true_eq, Prod.mk.injEq, Option.some.injEq]
    constructor
    · rintro ⟨h1, h2⟩
      exact ⟨h1, h2.symm⟩
    · rintro ⟨h1, h2⟩
      exact ⟨h1, h2.symm⟩

/-- Certificates that do not match, or whose keychain lookup fails, at the head of the
list, are passed over. -/
theorem copyAttributeMatchedKeychain_loop_skip (config : MatchConfig)
    (odRecord : Option ODRecord) (pre rest : List SecCertificate)
    (hpre : ∀ c ∈ pre, ¬ certificate_matches config odRecord c ∨ c.keychain = none) :
    copyAttributeMatchedKeychain_loop (some config) odRecord (pre ++ rest) =
      copyAttributeMatchedKeychain_loop (some config) odRecord rest := by
  induction pre with
  | nil => rfl
  | cons c pre ih =>
    have ih2 := ih (fun d hd => hpre d (List.mem_cons_of_mem _ hd))
    simp only [List.cons_append, copyAttributeMatchedKeychain_loop, createUserSearchKey_some]
    rcases hpre c (List.mem_cons_self _ _) with hc | hc
    · have hf : attribute_match odRecord
          ⟨createUserSearchKey_loop c.details 0 config.fields config.formatString,
            config.dsAttributeString⟩ = false := by
        cases hb : attribute_match odRecord
          ⟨createUserSearchKey_loop c.details 0 config.fields config.formatString,
            config.dsAttributeString⟩
        · rfl
        · exact absurd ((attribute_match_iff config odRecord c).mp hb) hc
      simp only [hf]
      exact ih2
    · rw [hc]
      split <;> exact ih2

/-- C14, counterexample: of two certificates that both match, the first has no
keychain (its lookup fails) and the second is held in keychain 9; the call returns 9,
the reference of the second matching certificate, where the claim names the first
matching certificate. -/
theorem C14_counterexample :
    certificate_matches exampleConfig
      (some (recordWith "dsAttrTypeNative:MyUserIdentifier" [some (CFType.string "12345@mil")]))
      ⟨exampleCertificate.details, none⟩ ∧
    certificate_matches exampleConfig
      (some (recordWith "dsAttrTypeNative:MyUserIdentifier" [some (CFType.string "12345@mil")]))
      ⟨exampleCertificate.details, some 9⟩ ∧
    copyAttributeMatchedKeychain (some exampleConfig)
        (some (recordWith "dsAttrTypeNative:MyUserIdentifier"
          [some (CFType.string "12345@mil")]))
        (some [⟨exampleCertificate.details, none⟩, ⟨exampleCertificate.details, some 9⟩])
      = some 9 := by
  unfold certificate_matches
  decide

/-- C14, amended: with a configuration, the test of copyAttributeMatchedKeychain holds
for a certificate exactly when the scalar fetched for the configured attribute is
present and equal to the certificate's search string; the call returns the keychain of
the first certificate, in input order, that matches and whose keychain lookup succeeds,
and returns nothing when there is no such certificate, in particular when no
certificate matches, or when the list is absent. -/
theorem C14_first_matching_certificate (config : MatchConfig) (odRecord : Option ODRecord) :
    (∀ certificate dict, createUserSearchKey (some config) certificate = some dict →
      (attribute_match odRecord dict = true ↔
        ∃ v, od_record_attribute_create_cfstring odRecord config.dsAttributeString
            = (PAM_SUCCESS, some v) ∧ v = dict.targetSearchString)) ∧
    (∀ (pre post : List SecCertificate) (certificate : SecCertificate) (k : SecKeychainRef),
      (∀ c ∈ pre, ¬ certificate_matches config odRecord c ∨ c.keychain = none) →
      certificate_matches config odRecord certificate → certificate.keychain = some k →
      copyAttributeMatchedKeychain (some config) odRecord (some (pre ++ certificate :: post))
        = some k) ∧
    (∀ certs : List SecCertificate,
      (∀ c ∈ certs, ¬ certificate_matches config odRecord c ∨ c.keychain = none) →
      copyAttributeMatchedKeychain (some config) odRecord (some certs) = none) ∧
    copyAttributeMatchedKeychain (some config) odRecord none = none := by
  refine ⟨?_, ?_, ?_, rfl⟩
  · intro certificate dict hdict
    rw [createUserSearchKey_some] at hdict
    cases hdict
    rw [attribute_match_iff]
    unfold certificate_matches
    constructor
    · intro h
      exact ⟨_, h, rfl⟩
    · rintro ⟨v, h, rfl⟩
      exact h
  · intro pre post certificate k hpre hmatch hk
    have hm := (attribute_match_iff config odRecord certificate).mpr hmatch
    simp only [copyAttributeMatchedKeychain]
    rw [copyAttributeMatchedKeychain_loop_skip config odRecord pre _ hpre]
    simp [copyAttributeMatchedKeychain_loop, createUserSearchKey_some, hm, hk]
  · intro certs hall
    have h := copyAttributeMatchedKeychain_loop_skip config odRecord certs [] hall
    rw [List.append_nil] at h
    simp only [copyAttributeMatchedKeychain, h]
    rfl

/-- Witness of C14_first_matching_certificate, the example of the specification: with
the template "$1@$2" and the fields NT principal name "12345" and organization "mil",
the directory value "12345@mil" returns the certificate's keychain and the directory
value "12345@navy" returns nothing. -/
theorem C14_first_matching_certificate_witness :
    copyAttributeMatchedKeychain (some exampleConfig)
        (some (recordWith "dsAttrTypeNative:MyUserIdentifier"
          [some (CFType.string "12345@mil")]))
        (some ([] ++ exampleCertificate :: [])) = some 7 ∧
    copyAttributeMatchedKeychain (some exampleConfig)
        (some (recordWith "dsAttrTypeNative:MyUserIdentifier"
          [some (CFType.string "12345@navy")]))
        (some [exampleCertificate]) = none :=
  ⟨(C14_first_matching_certificate exampleConfig
      (some (recordWith "dsAttrTypeNative:MyUserIdentifier"
        [some (CFType.string "12345@mil")]))).2.1 [] [] exampleCertificate 7
      (by simp) (by unfold certificate_matches; decide) rfl,
   (C14_first_matching_certificate exampleConfig
      (some (recordWith "dsAttrTypeNative:MyUserIdentifier"
        [some (CFType.string "12345@navy")]))).2.2.1 [exampleCertificate]
      (by
        intro c hc
        simp only [List.mem_singleton] at hc
        subst hc
        left
        unfold certificate_matches
        decide)⟩

/-- The reference computed by a run of the matching loop is that of
copyAttributeMatchedKeychain_loop. -/
theorem copyAttributeMatchedKeychain_loop_run_result (configFile : Option MatchConfig)
    (odRecord : Option ODRecord) (certs : List SecCertificate) :
    (copyAttributeMatchedKeychain_loop_run configFile odRecord certs).result =
      copyAttributeMatchedKeychain_loop configFile odRecord certs := by
  induction certs with
  | nil => rfl
  | cons c rest ih =>
    simp only [copyAttributeMatchedKeychain_loop_run, copyAttributeMatchedKeychain_loop]
    cases hd : createUserSearchKey configFile c with
    | none => exact ih
    | some dict =>
      dsimp only
      simp only [attribute_match, od_record_attribute_create_cfstring]
      split_ifs with hcond
      · cases c.keychain with
        | none => exact ih
        | some k => rfl
      · exact ih

/-- The reference computed by a run of copyAttributeMatchedKeychain is that of
copyAttributeMatchedKeychain. -/
theorem copyAttributeMatchedKeychain_run_result (configFile : Option MatchConfig)
    (odRecord : Option ODRecord) (certificates : Option (List SecCertificate)) :
    (copyAttributeMatchedKeychain_run configFile odRecord certificates).result =
      copyAttributeMatchedKeychain configFile odRecord certificates := by
  cases certificates with
  | none => rfl
  | some certs => exact copyAttributeMatchedKeychain_loop_run_result configFile odRecord certs

/-- When the fetch of the configured attribute does not return PAM_SUCCESS, a run of
the matching loop computes no reference, and it has released an out-pointer as soon as
there is a certificate. -/
theorem copyAttributeMatchedKeychain_loop_run_fetch_failure (config : MatchConfig)
    (odRecord : Option ODRecord) (certs : List SecCertificate)
    (hfail : (od_record_attribute_create_cfstring_run odRecord
      config.dsAttributeString).retval ≠ PAM_SUCCESS) :
    (copyAttributeMatchedKeychain_loop_run (some config) odRecord certs).result = none ∧
    (certs ≠ [] →
      (copyAttributeMatchedKeychain_loop_run (some config) odRecord
        certs).releases_out_pointer = true) := by
  induction certs with
  | nil => exact ⟨rfl, fun h => absurd rfl h⟩
  | cons c rest ih =>
    have hrel := od_record_attribute_create_cfstring_run_releases odRecord
      config.dsAttributeString
    simp only [copyAttributeMatchedKeychain_loop_run, createUserSearchKey_some]
    rcases hrun : od_record_attribute_create_cfstring_run odRecord config.dsAttributeString
      with ⟨res, value, released⟩
    rw [hrun] at hfail hrel
    dsimp only at hfail hrel ⊢
    have hres : decide (res = PAM_SUCCESS) = false := by simp [hfail]
    have hreleased : released = true := by
      rw [hrel]
      simp only [decide_eq_true_eq]
      exact fun e => hfail e.symm
    simp only [hres, Bool.false_and, Bool.false_eq_true, if_false, hreleased, Bool.true_or]
    exact ⟨ih.1, fun _ => trivial⟩

/-- C15, counterexample: when the configured attribute holds an object that is not a
string, the run of the fetch is the failing one (code PAM_PERM_DENIED, `*out` NULL, the
out-pointer released) and the run of copyAttributeMatchedKeychain computes no reference:
the value it has for its caller is NULL, the value it also has when the fetch succeeds
and no certificate matches, and the code PAM_PERM_DENIED is not part of it. -/
theorem C15_counterexample :
    od_record_attribute_create_cfstring_run
        (some (recordWith "dsAttrTypeNative:MyUserIdentifier" [some (CFType.other 0)]))
        exampleConfig.dsAttributeString = ⟨PAM_PERM_DENIED, none, true⟩ ∧
    copyAttributeMatchedKeychain_run (some exampleConfig)
        (some (recordWith "dsAttrTypeNative:MyUserIdentifier" [some (CFType.other 0)]))
        (some [exampleCertificate]) = ⟨none, true⟩ ∧
    od_record_attribute_create_cfstring_run
        (some (recordWith "dsAttrTypeNative:MyUserIdentifier"
          [some (CFType.string "12345@navy")]))
        exampleConfig.dsAttributeString = ⟨PAM_SUCCESS, some "12345@navy", false⟩ ∧
    copyAttributeMatchedKeychain_run (some exampleConfig)
        (some (recordWith "dsAttrTypeNative:MyUserIdentifier"
          [some (CFType.string "12345@navy")]))
        (some [exampleCertificate]) = ⟨none, false⟩ := by
  decide

/-- C15, amended: copyAttributeMatchedKeychain has no way to report a failed fetch.
When the fetch of the configured attribute does not return PAM_SUCCESS, no certificate
matches and the run computes no reference, having released an out-pointer as soon as
the list holds a certificate; and a run that computes a reference is one whose fetch
returned PAM_SUCCESS and released nothing. -/
theorem C15_fetch_failure_gives_nothing (config : MatchConfig) (odRecord : Option ODRecord)
    (certificates : Option (List SecCertificate)) :
    ((od_record_attribute_create_cfstring_run odRecord config.dsAttributeString).retval
        ≠ PAM_SUCCESS →
      (copyAttributeMatchedKeychain_run (some config) odRecord certificates).result = none ∧
      ∀ c cs, certificates = some (c :: cs) →
        (copyAttributeMatchedKeychain_run (some config) odRecord
          certificates).releases_out_pointer = true) ∧
    (∀ k, (copyAttributeMatchedKeychain_run (some config) odRecord certificates).result
        = some k →
      (od_record_attribute_create_cfstring_run odRecord config.dsAttributeString).retval
        = PAM_SUCCESS ∧
      (od_record_attribute_create_cfstring_run odRecord
        config.dsAttributeString).releases_out_pointer = false) := by
  have key : (od_record_attribute_create_cfstring_run odRecord
        config.dsAttributeString).retval ≠ PAM_SUCCESS →
      (copyAttributeMatchedKeychain_run (some config) odRecord certificates).result = none ∧
      ∀ c cs, certificates = some (c :: cs) →
        (copyAttributeMatchedKeychain_run (some config) odRecord
          certificates).releases_out_pointer = true := by
    intro hfail
    cases certificates with
    | none => exact ⟨rfl, fun c cs h => by cases h⟩
    | some certs =>
      have h := copyAttributeMatchedKeychain_loop_run_fetch_failure config odRecord certs hfail
      refine ⟨h.1, ?_⟩
      intro c cs hc
      cases hc
      exact h.2 (List.cons_ne_nil c cs)
  refine ⟨key, ?_⟩
  intro k hk
  have hsucc : (od_record_attribute_create_cfstring_run odRecord
      config.dsAttributeString).retval = PAM_SUCCESS := by
    by_contra hne
    rw [(key hne).1] at hk
    cases hk
  refine ⟨hsucc, ?_⟩
  rw [od_record_attribute_create_cfstring_run_releases, hsucc]
  rfl

/-- Witness of C15_fetch_failure_gives_nothing: an attribute holding an object that is
not a string, and a NULL record; in both the fetch fails, no reference is computed and
an out-pointer is released. -/
theorem C15_fetch_failure_gives_nothing_witness :
    ((copyAttributeMatchedKeychain_run (some exampleConfig)
        (some (recordWith "dsAttrTypeNative:MyUserIdentifier" [some (CFType.other 0)]))
        (some [exampleCertificate])).result = none ∧
      (copyAttributeMatchedKeychain_run (some exampleConfig)
        (some (recordWith "dsAttrTypeNative:MyUserIdentifier" [some (CFType.other 0)]))
        (some [exampleCertificate])).releases_out_pointer = true) ∧
    (copyAttributeMatchedKeychain_run (some exampleConfig) none
        (some [exampleCertificate])).result = none :=
  ⟨⟨((C15_fetch_failure_gives_nothing exampleConfig
        (some (recordWith "dsAttrTypeNative:MyUserIdentifier" [some (CFType.other 0)]))
        (some [exampleCertificate])).1 (by decide)).1,
     ((C15_fetch_failure_gives_nothing exampleConfig
        (some (recordWith "dsAttrTypeNative:MyUserIdentifier" [some (CFType.other 0)]))
        (some [exampleCertificate])).1 (by decide)).2 exampleCertificate [] rfl⟩,
   ((C15_fetch_failure_gives_nothing exampleConfig none (some [exampleCertificate])).1
      (by decide)).1⟩

/-! ### The search string -/

/-- A text without `$` before `X` is copied by the scan for a target that starts with
`$`. -/
theorem findAndReplace_append_left (target' repl w X : List Char)
    (hw : Char.ofNat 36 ∉ w) :
    findAndReplace (Char.ofNat 36 :: target') repl 0 (w ++ X) =
      w ++ findAndReplace (Char.ofNat 36 :: target') repl 0 X := by
  induction w with
  | nil => rfl
  | cons c w ih =>
    have hc : c ≠ Char.ofNat 36 := fun e => hw (e ▸ List.mem_cons_self _ _)
    have hc2 : ¬ Char.ofNat 36 = c := fun e => hc e.symm
    have hpre : (Char.ofNat 36 :: target').isPrefixOf (c :: (w ++ X)) = false := by
      simp [List.isPrefixOf, hc2]
    rw [List.cons_append, findAndReplace, if_neg (by simp [hpre])]
    rw [ih (fun h => hw (List.mem_cons_of_mem _ h))]
    rfl

/-- One pass of the loop on a text already substituted for other placeholders: when the
values hold no `$` and no `$` of the template is followed by another `$`, replacing `$d`
by `v` in the substituted text gives the text substituted for `$d` as well. -/
theorem findAndReplace_substitute (value : Char → Option (List Char)) (d : Char)
    (v : List Char) (hd : d ≠ Char.ofNat 36) (hnone : value d = none)
    (hvals : ∀ e w, value e = some w → Char.ofNat 36 ∉ w) (n : Nat) :
    ∀ t : List Char, t.length ≤ n → ¬ [Char.ofNat 36, Char.ofNat 36] <:+: t →
      findAndReplace [Char.ofNat 36, d] v 0 (substitute_placeholders value t) =
        substitute_placeholders (fun e => if e = d then some v else value e) t := by
  induction n with
  | zero =>
    intro t ht _
    have : t = [] := List.length_eq_zero.mp (Nat.le_zero.mp ht)
    subst this
    rfl
  | succ n ih =>
    intro t ht hdd
    match t, ht, hdd with
    | [], _, _ => rfl
    | [c], _, _ =>
      simp [substitute_placeholders, findAndReplace, List.isPrefixOf]
    | c :: e :: rest, ht, hdd =>
      have hlen1 : (e :: rest).length ≤ n := by simpa using ht
      have hlen2 : rest.length ≤ n := by simp at ht; omega
      have hdd1 : ¬ [Char.ofNat 36, Char.ofNat 36] <:+: e :: rest :=
        fun h => hdd (h.trans (List.suffix_cons c _).isInfix)
      have hdd2 : ¬ [Char.ofNat 36, Char.ofNat 36] <:+: rest :=
        fun h => hdd1 (h.trans (List.suffix_cons e _).isInfix)
      have ih1 := ih (e :: rest) hlen1 hdd1
      have ih2 := ih rest hlen2 hdd2
      by_cases hc : c = Char.ofNat 36
      · subst hc
        have he : e ≠ Char.ofNat 36 := by
          intro h
          subst h
          exact hdd ⟨[], rest, by simp⟩
        have hsub : ∀ val : Char → Option (List Char),
            substitute_placeholders val (e :: rest) = e :: substitute_placeholders val rest := by
          intro val
          cases rest with
          | nil => simp [substitute_placeholders]
          | cons f rest => simp [substitute_placeholders, he]
        cases hve : value e with
        | some w =>
          have hed : e ≠ d := fun h => by rw [h, hnone] at hve; cases hve
          simp only [substitute_placeholders, hve, hed, if_true, if_false]
          rw [findAndReplace_append_left [d] v w _ (hvals e w hve), ih2]
        | none =>
          by_cases hed : e = d
          · subst hed
            simp only [substitute_placeholders, hve, if_true]
            rw [hsub value]
            have hpre : [Char.ofNat 36, e].isPrefixOf
                (Char.ofNat 36 :: e :: substitute_placeholders value rest) = true := by
              simp [List.isPrefixOf]
            rw [findAndReplace, if_pos hpre]
            simp only [List.length_cons, List.length_nil, Nat.zero_add, Nat.add_sub_cancel,
              findAndReplace]
            rw [ih2]
          · simp only [substitute_placeholders, hve, hed, if_true, if_false]
            rw [hsub value]
            have hpre : [Char.ofNat 36, d].isPrefixOf
                (Char.ofNat 36 :: e :: substitute_placeholders value rest) = false := by
              have : ¬ d = e := fun h => hed h.symm
              simp [List.isPrefixOf, this]
            rw [findAndReplace, if_neg (by simp [hpre]), ← hsub value, ih1]
      · have hc2 : ¬ Char.ofNat 36 = c := fun h => hc h.symm
        have hpre : [Char.ofNat 36, d].isPrefixOf
            (c :: substitute_placeholders value (e :: rest)) = false := by
          simp [List.isPrefixOf, hc2]
        simp only [substitute_placeholders, hc, if_false]
        rw [findAndReplace, if_neg (by simp [hpre]), ih1]

/-- The placeholder of a field of index below 9 is `$` followed by one digit. -/
theorem replaceString_data (i : Nat) (hi : i < 9) :
    (replaceString i).data = [Char.ofNat 36, Char.ofNat (49 + i)] := by
  interval_cases i <;> rfl

/-- A value given to a placeholder is the certificate's value for one of the fields. -/
theorem placeholder_value_mem (fields : List String) (details : String → Option String)
    (e : Char) (w : List Char) (h : placeholder_value fields details e = some w) :
    ∃ tag ∈ fields, ∃ v, details tag = some v ∧ w = v.data := by
  unfold placeholder_value at h
  split at h
  · split at h
    · next tag htag =>
      cases hv : details tag with
      | none => simp [hv] at h
      | some v =>
        simp only [hv, Option.map_some', Option.some.injEq] at h
        exact ⟨tag, List.get?_mem htag, v, hv, h.symm⟩
    · cases h
  · cases h

/-- The placeholder of the next field has no value yet. -/
theorem placeholder_value_next (done : List String) (details : String → Option String)
    (h : done.length < 9) :
    placeholder_value done details (Char.ofNat (49 + done.length)) = none := by
  have hn : (Char.ofNat (49 + done.length)).toNat = 49 + done.length := by
    generalize done.length = i at h
    interval_cases i <;> rfl
  unfold placeholder_value
  rw [hn]
  rw [if_neg (by omega)]

/-- Adding a field gives its placeholder the certificate's value for it and leaves
the other placeholders as they were. -/
theorem placeholder_value_snoc (done : List String) (tag : String)
    (details : String → Option String) (h : done.length < 9) :
    placeholder_value (done ++ [tag]) details =
      fun e => if e = Char.ofNat (49 + done.length) then (details tag).map String.data
        else placeholder_value done details e := by
  have hn : (Char.ofNat (49 + done.length)).toNat = 49 + done.length := by
    generalize done.length = i at h
    interval_cases i <;> rfl
  funext e
  by_cases he : e = Char.ofNat (49 + done.length)
  · subst he
    simp only [if_true]
    unfold placeholder_value
    rw [hn]
    have e1 : 49 + done.length - 49 = done.length := by omega
    rw [if_pos (by simp; omega), e1]
    simp
  · simp only [he, if_false]
    have hne : e.toNat ≠ 49 + done.length := by
      intro hh
      apply he
      rw [← hh, Char.ofNat_toNat]
    unfold placeholder_value
    by_cases hc : 49 ≤ e.toNat ∧ e.toNat ≤ 57 ∧ e.toNat - 48 ≤ done.length
    · have hc2 : 49 ≤ e.toNat ∧ e.toNat ≤ 57 ∧ e.toNat - 48 ≤ (done ++ [tag]).length := by
        simp; omega
      rw [if_pos hc, if_pos hc2]
      have hlt : e.toNat - 49 < done.length := by omega
      simp only [List.get?_eq_getElem?]
      rw [List.getElem?_append_left hlt]
    · have hc2 : ¬ (49 ≤ e.toNat ∧ e.toNat ≤ 57 ∧ e.toNat - 48 ≤ (done ++ [tag]).length) := by
        simp at hc ⊢
        omega
      rw [if_neg hc, if_neg hc2]

/-- The loop of createUserSearchKey computes the substitution: entered at the index
that follows the fields `done` with the template substituted for them, it ends with the
template substituted for all the fields, when there are at most 9 fields, no value
holds a `$` and no `$` of the template is followed by another `$`. -/
theorem createUserSearchKey_loop_substitute (details : String → Option String)
    (template : List Char)
    (htmpl : ¬ [Char.ofNat 36, Char.ofNat 36] <:+: template) :
    ∀ (remaining done : List String) (formatString : String),
      (done ++ remaining).length ≤ 9 →
      (∀ tag ∈ done ++ remaining, ∀ v, details tag = some v → Char.ofNat 36 ∉ v.data) →
      formatString = String.mk (substitute_placeholders (placeholder_value done details) template) →
      createUserSearchKey_loop details done.length remaining formatString =
        String.mk (substitute_placeholders
          (placeholder_value (done ++ remaining) details) template) := by
  intro remaining
  induction remaining with
  | nil =>
    intro done formatString _ _ hfmt
    simp [createUserSearchKey_loop, hfmt]
  | cons tag rest ih =>
    intro done formatString hlen hvals hfmt
    have hdone : done.length < 9 := by simp at hlen; omega
    have hassoc : done ++ tag :: rest = (done ++ [tag]) ++ rest := by simp
    have hlen2 : (done ++ [tag]).length = done.length + 1 := by simp
    have ih2 := ih (done ++ [tag])
    rw [hlen2, ← hassoc] at ih2
    rw [createUserSearchKey_loop]
    cases hv : details tag with
    | none =>
      simp only
      apply ih2 formatString hlen hvals
      rw [hfmt, placeholder_value_snoc done tag details hdone, hv]
      congr 2
      funext e
      by_cases he : e = Char.ofNat (49 + done.length)
      · rw [he, placeholder_value_next done details hdone]
        simp
      · simp [he]
    | some v =>
      simp only
      apply ih2 _ hlen hvals
      have htag : Char.ofNat 36 ∉ v.data := hvals tag (by simp) v hv
      have hd : Char.ofNat (49 + done.length) ≠ Char.ofNat 36 := by
        generalize done.length = i at hdone
        interval_cases i <;> decide
      have hpass := findAndReplace_substitute (placeholder_value done details)
        (Char.ofNat (49 + done.length)) v.data hd (placeholder_value_next done details hdone)
        (fun e w hw => by
          obtain ⟨tag2, hmem, v2, hv2, rfl⟩ := placeholder_value_mem done details e w hw
          exact hvals tag2 (List.mem_append_left _ hmem) v2 hv2)
        template.length template (le_refl _) htmpl
      rw [placeholder_value_snoc done tag details hdone, hv]
      simp only [CFStringFindAndReplace, replaceString_data done.length hdone]
      rw [if_neg (by simp), hfmt, hpass]
      rfl

/-- With ten fields and the template "$10", a certificate of country "US" (field 1)
and organization "mil" (field 10) gives the search string "US0", not "mil": the loop
builds the placeholder "$10" for the tenth field (attribute_matching.c:222) and does
not find it, the pass for "$1" having already rewritten its first two characters. -/
theorem createUserSearchKey_tenth_placeholder :
    tenFieldConfig.fields.get? 9 = some "Organization" ∧
    usMilCertificate.details "Organization" = some "mil" ∧
    replaceString 9 = "$10" ∧
    createUserSearchKey (some tenFieldConfig) usMilCertificate
      = some ⟨"US0", "dsAttrTypeNative:MyUserIdentifier"⟩ := by
  decide

/-- C13, counterexample: with the fields common name and organization and the template
"$1", a certificate whose common name is the text "$2" and whose organization is "mil"
gives "mil": the value inserted for "$1" is itself rewritten by the pass for "$2" and
does not appear verbatim.  And with the template "$$1" and the common name "2", where
the claim gives "$2" (a `$` of the template followed by the value of "$1"), the first
pass leaves "$2" and the second pass rewrites it to "mil". -/
theorem C13_counterexample :
    createUserSearchKey (some ⟨["Common Name", "Organization"], "$1", "attr"⟩) dollarCertificate
      = some ⟨"mil", "attr"⟩ ∧
    dollarCertificate.details "Common Name" = some "$2" ∧
    createUserSearchKey (some ⟨["Common Name", "Organization"], "$1", "attr"⟩) dollarCertificate
      ≠ some ⟨"$2", "attr"⟩ ∧
    createUserSearchKey (some ⟨["Common Name", "Organization"], "$$1", "attr"⟩) digitCertificate
      = some ⟨"mil", "attr"⟩ ∧
    digitCertificate.details "Common Name" = some "2" ∧
    createUserSearchKey (some ⟨["Common Name", "Organization"], "$$1", "attr"⟩) digitCertificate
      ≠ some ⟨"$2", "attr"⟩ := by
  decide

/-- C13, amended: for every template in which no `$` is immediately followed by
another `$`, every field list of at most 9 entries and every certificate field set
whose values for those fields hold no `$`, the search string built by
createUserSearchKey is the template in which each placeholder `$i` with `1 ≤ i ≤ n` is
replaced by the certificate's value for `fields[i-1]` when that field is present and is
left as it stands when it is absent, all other text being unchanged. -/
theorem C13_search_string_substitution (config : MatchConfig) (certificate : SecCertificate)
    (hn : config.fields.length ≤ 9)
    (hvals : ∀ tag ∈ config.fields, ∀ v, certificate.details tag = some v →
      Char.ofNat 36 ∉ v.data)
    (htmpl : ¬ [Char.ofNat 36, Char.ofNat 36] <:+: config.formatString.data) :
    createUserSearchKey (some config) certificate =
      some ⟨String.mk (substitute_placeholders
          (placeholder_value config.fields certificate.details) config.formatString.data),
        config.dsAttributeString⟩ := by
  rw [createUserSearchKey_some]
  have h := createUserSearchKey_loop_substitute certificate.details config.formatString.data
    htmpl config.fields [] config.formatString (by simpa using hn) (by simpa using hvals)
    (by
      have hnone : placeholder_value [] certificate.details = fun _ => none := by
        funext e
        unfold placeholder_value
        split
        · next hc => simp at hc; omega
        · rfl
      rw [hnone]
      have hid : ∀ t : List Char, substitute_placeholders (fun _ => none) t = t := by
        intro t
        induction t with
        | nil => rfl
        | cons c t ih =>
          cases t with
          | nil => rfl
          | cons d t => simp [substitute_placeholders, ih]
      rw [hid])
  simp only [List.length_nil, List.nil_append] at h
  rw [h]

/-- Witness of C13_search_string_substitution: the template "$1@$2-$3" with the fields
NT principal name "12345" and organization "mil" gives "12345@mil-$3". -/
theorem C13_search_string_substitution_witness :
    createUserSearchKey
        (some ⟨["NT Principal Name", "Organization", "Country"], "$1@$2-$3", "attr"⟩)
        exampleCertificate =
      some ⟨String.mk (substitute_placeholders
          (placeholder_value ["NT Principal Name", "Organization", "Country"]
            exampleCertificate.details) "$1@$2-$3".data), "attr"⟩ ∧
    String.mk (substitute_placeholders
        (placeholder_value ["NT Principal Name", "Organization", "Country"]
          exampleCertificate.details) "$1@$2-$3".data) = "12345@mil-$3" :=
  ⟨C13_search_string_substitution
      ⟨["NT Principal Name", "Organization", "Country"], "$1@$2-$3", "attr"⟩
      exampleCertificate (by decide)
      (by
        intro tag _ v hv
        simp only [exampleCertificate] at hv
        split at hv
        · cases hv; decide
        · split at hv
          · cases hv; decide
          · cases hv)
      (by decide),
   by decide⟩

/-! ### The home-mount descriptor: every text -/

/-- A search from `buf + p` when the buffer holds no NUL from there on. -/
theorem strstr_of_drop (buf : CString) (p : Nat) (needle L : CString)
    (h : buf.drop p = L) (hn : NUL ∉ L) :
    strstr buf p needle = (findSub needle L).map (fun k => k + p) := by
  have hcs : cstringAt buf p = L := by
    unfold cstringAt
    rw [h, List.takeWhile_eq_self_iff]
    intro c hc
    have : c ≠ NUL := fun e => hn (e ▸ hc)
    simpa using this
  simp only [strstr, hcs]

/-- The forward loop passes over the leading whitespace. -/
theorem skipSpaces_eq (L : CString) (p : Nat) :
    skipSpaces L p = p + (L.takeWhile isspace).length := by
  induction L generalizing p with
  | nil => rfl
  | cons c L ih =>
    by_cases hc : isspace c = true
    · have hn : c ≠ NUL := isspace_ne_NUL c hc
      rw [skipSpaces, if_pos ⟨hn, hc⟩, ih, List.takeWhile_cons_of_pos hc]
      simp only [List.length_cons]
      omega
    · rw [skipSpaces, if_neg (fun h => hc h.2), List.takeWhile_cons_of_neg hc]
      rfl

/-- Dropping the leading whitespace by its length. -/
theorem drop_takeWhile_length (L : CString) :
    L.drop (L.takeWhile isspace).length = L.dropWhile isspace := by
  induction L with
  | nil => rfl
  | cons c L ih =>
    by_cases hc : isspace c = true
    · rw [List.takeWhile_cons_of_pos hc, List.dropWhile_cons_of_pos hc]
      simpa using ih
    · rw [List.takeWhile_cons_of_neg hc, List.dropWhile_cons_of_neg hc]
      rfl

/-- A character that does not start the needle is passed over by the search. -/
theorem findSub_cons_skip (a c : Char) (needle' L : CString) (h : c ≠ a) :
    findSub (a :: needle') (c :: L) = (findSub (a :: needle') L).map (fun k => k + 1) := by
  have h2 : ¬ a = c := fun e => h e.symm
  have hpre : (a :: needle').isPrefixOf (c :: L) = false := by
    simp [List.isPrefixOf, h2]
  rw [findSub, if_neg (by simp [hpre])]

/-- Characters that do not start the needle are passed over by the search. -/
theorem findSub_append_skip (a : Char) (needle' ws L : CString) (h : ∀ c ∈ ws, c ≠ a) :
    findSub (a :: needle') (ws ++ L) =
      (findSub (a :: needle') L).map (fun k => k + ws.length) := by
  induction ws with
  | nil => simp
  | cons w ws ih =>
    rw [List.cons_append, findSub_cons_skip a w needle' _ (h w (List.mem_cons_self _ _)),
      ih (fun c hc => h c (List.mem_cons_of_mem _ hc))]
    cases findSub (a :: needle') L with
    | none => rfl
    | some k =>
      simp only [Option.map_some', List.length_cons, Option.some.injEq]
      omega

/-- The search that follows the forward loop finds what a search from the start of
the whitespace finds, when the needle starts with a character that is not whitespace. -/
theorem strstr_after_skipSpaces (buf : CString) (a : Nat) (a0 : Char) (needle' : CString)
    (hn : NUL ∉ buf.drop a) (ha0 : isspace a0 = false) :
    strstr buf (skipSpaces (buf.drop a) a) (a0 :: needle') =
      (findSub (a0 :: needle') (buf.drop a)).map (fun k => k + a) := by
  rw [skipSpaces_eq]
  have hsplit := List.takeWhile_append_dropWhile isspace (buf.drop a)
  have hdrop : buf.drop (a + ((buf.drop a).takeWhile isspace).length)
      = (buf.drop a).dropWhile isspace := by
    rw [← List.drop_drop, drop_takeWhile_length]
  have hn2 : NUL ∉ (buf.drop a).dropWhile isspace :=
    fun h => hn (hsplit ▸ List.mem_append_right _ h)
  rw [strstr_of_drop buf _ (a0 :: needle') _ hdrop hn2]
  have hskip := findSub_append_skip a0 needle' ((buf.drop a).takeWhile isspace)
    ((buf.drop a).dropWhile isspace) (by
      intro c hc e
      have := (List.mem_takeWhile_imp hc)
      rw [e, ha0] at this
      cases this)
  rw [hsplit] at hskip
  rw [hskip]
  cases findSub (a0 :: needle') ((buf.drop a).dropWhile isspace) with
  | none => rfl
  | some k =>
    simp only [Option.map_some', Option.some.injEq]
    omega

/-- The backward loop ends at or before its start value, having stepped over
whitespace only. -/
theorem trimBack_spec (buf : CString) (start : Nat) (e : Nat) :
    trimBack buf start e ≤ e ∧
    ∀ i, trimBack buf start e ≤ i → i < e → isspace (charAt buf i) = true := by
  induction e with
  | zero => exact ⟨Nat.le_refl _, fun i _ h => absurd h (Nat.not_lt_zero i)⟩
  | succ e ih =>
    rw [trimBack]
    split
    · next hc =>
      refine ⟨Nat.le_succ_of_le ih.1, ?_⟩
      intro i h1 h2
      by_cases hi : i = e
      · rw [hi]; exact hc.2.2
      · exact ih.2 i h1 (by omega)
    · exact ⟨Nat.le_refl _, fun i h1 h2 => by omega⟩

/-- What a successful search says: the needle stands at the offset and at no earlier
one. -/
theorem findSub_some_spec (needle : CString) :
    ∀ (hay : CString) (k : Nat), findSub needle hay = some k →
      k ≤ hay.length ∧ needle <+: hay.drop k ∧ ∀ j, j < k → ¬ needle <+: hay.drop j := by
  intro hay
  induction hay with
  | nil =>
    intro k h
    rw [findSub] at h
    split at h
    · next hp =>
      cases h
      exact ⟨Nat.le_refl _, List.isPrefixOf_iff_prefix.mp hp, fun j hj => absurd hj (Nat.not_lt_zero j)⟩
    · cases h
  | cons c cs ih =>
    intro k h
    rw [findSub] at h
    split at h
    · next hp =>
      cases h
      exact ⟨Nat.zero_le _, List.isPrefixOf_iff_prefix.mp hp,
        fun j hj => absurd hj (Nat.not_lt_zero j)⟩
    · next hp =>
      cases hk : findSub needle cs with
      | none => rw [hk] at h; cases h
      | some k' =>
        rw [hk] at h
        cases h
        obtain ⟨h1, h2, h3⟩ := ih k' hk
        refine ⟨by simpa using h1, by simpa using h2, ?_⟩
        intro j hj
        cases j with
        | zero =>
          intro hpre
          exact hp (List.isPrefixOf_iff_prefix.mpr (by simpa using hpre))
        | succ j =>
          have := h3 j (Nat.lt_of_succ_lt_succ hj)
          simpa using this

/-- The search fails exactly when the needle does not occur. -/
theorem findSub_eq_none_iff (needle hay : CString) :
    findSub needle hay = none ↔ ¬ needle <:+: hay := by
  constructor
  · intro h hinf
    induction hay with
    | nil =>
      rw [findSub] at h
      have hp : needle <+: [] := by
        have := List.eq_nil_of_infix_nil hinf
        subst this
        exact List.prefix_refl _
      rw [if_pos (List.isPrefixOf_iff_prefix.mpr hp)] at h
      cases h
    | cons c cs ih =>
      rw [findSub] at h
      split at h
      · cases h
      · next hp =>
        rcases List.infix_cons_iff.mp hinf with h1 | h1
        · exact hp (List.isPrefixOf_iff_prefix.mpr h1)
        · cases hk : findSub needle cs with
          | none => exact ih hk h1
          | some k => rw [hk] at h; cases h
  · exact findSub_eq_none needle hay

/-- The buffer from an offset inside it: the character there, then the rest. -/
theorem drop_eq_charAt_cons (L : CString) (i : Nat) (h : i < L.length) :
    L.drop i = charAt L i :: L.drop (i + 1) := by
  induction L generalizing i with
  | nil => simp at h
  | cons a L ih =>
    cases i with
    | zero => simp [charAt]
    | succ i =>
      have := ih i (by simpa using h)
      simpa [charAt] using this

/-- The search for "<path>" from "</url>": the closing marker is passed over. -/
theorem findSub_path_open_url_close (R : CString) :
    findSub PATH_OPEN (URL_CLOSE ++ R) = (findSub PATH_OPEN R).map (fun k => k + 6) := by
  have e1 : PATH_OPEN = Char.ofNat 60 :: "path>".data := rfl
  have e2 : URL_CLOSE ++ R = Char.ofNat 60 :: ("/url>".data ++ R) := rfl
  have hpre : (Char.ofNat 60 :: "path>".data).isPrefixOf (Char.ofNat 60 :: ("/url>".data ++ R))
      = false := by
    simp [List.isPrefixOf]
  rw [e1, e2, findSub, if_neg (Bool.eq_false_iff.mp hpre),
    findSub_append_skip (Char.ofNat 60) "path>".data "/url>".data R (by decide)]
  cases findSub (Char.ofNat 60 :: "path>".data) R with
  | none => rfl
  | some k => rfl

/-- The search for "<path>" from whitespace that precedes "</url>": the whitespace and
the closing marker are passed over. -/
theorem findSub_path_open_before_close (text : CString) (e : Nat)
    (hclose : URL_CLOSE <+: text.drop e) (d : Nat) :
    ∀ r, r + d = e → (∀ i, r ≤ i → i < e → isspace (charAt text i) = true) →
      findSub PATH_OPEN (text.drop r) =
        (findSub PATH_OPEN (text.drop (e + 6))).map (fun k => k + (d + 6)) := by
  have hlen : e + 6 ≤ text.length := by
    have := hclose.length_le
    simp [URL_CLOSE] at this
    omega
  induction d with
  | zero =>
    intro r hr _
    have hre : r = e := by omega
    subst hre
    obtain ⟨t, ht⟩ := hclose
    have hR : text.drop (r + 6) = t := by
      rw [← List.drop_drop, ← ht]
      exact List.drop_left URL_CLOSE t
    rw [← ht, hR, findSub_path_open_url_close]
  | succ d ih =>
    intro r hr hws
    have hlt : r < text.length := by omega
    have hsp : isspace (charAt text r) = true := hws r (Nat.le_refl _) (by omega)
    rw [drop_eq_charAt_cons text r hlt]
    show findSub (Char.ofNat 60 :: "path>".data) _ = _
    rw [findSub_cons_skip (Char.ofNat 60) (charAt text r) "path>".data _ (by
      intro e2
      rw [e2] at hsp
      revert hsp
      decide)]
    have := ih (r + 1) (by omega) (fun i h1 h2 => hws i (by omega) h2)
    show Option.map (fun k => k + 1) (findSub PATH_OPEN (text.drop (r + 1))) = _
    rw [this]
    cases findSub PATH_OPEN (text.drop (e + 6)) with
    | none => rfl
    | some k =>
      simp only [Option.map_some', Option.some.injEq]
      omega

/-- The search for "<path>" that follows the extraction of the URL finds what a search
from the text after "</url>" finds, wherever the backward loop stopped. -/
theorem path_search_after_trim (text : CString) (start e : Nat) (hnul : NUL ∉ text)
    (hclose : URL_CLOSE <+: text.drop e) :
    strstr (text.set (trimBack text start e) NUL) (trimBack text start e + 1) PATH_OPEN =
      (findSub PATH_OPEN (text.drop (e + 6))).map (fun k => k + (e + 6)) := by
  obtain ⟨hr, hws⟩ := trimBack_spec text start e
  generalize trimBack text start e = r at hr hws
  have hdrop : (text.set r NUL).drop (r + 1) = text.drop (r + 1) :=
    List.drop_set_of_lt NUL text (Nat.lt_succ_self r)
  have hn : NUL ∉ text.drop (r + 1) := fun h => hnul (List.mem_of_mem_drop h)
  rw [strstr_of_drop _ _ PATH_OPEN _ hdrop hn]
  by_cases hre : r = e
  · subst hre
    obtain ⟨t, ht⟩ := hclose
    have h1 : text.drop (r + 1) = "/url>".data ++ t := by
      rw [← List.drop_drop, ← ht]
      rfl
    have h6 : text.drop (r + 6) = t := by
      rw [← List.drop_drop, ← ht]
      exact List.drop_left URL_CLOSE t
    have e1 : PATH_OPEN = Char.ofNat 60 :: "path>".data := rfl
    have e5 : "/url>".data.length = 5 := rfl
    rw [h1, h6, e1,
      findSub_append_skip (Char.ofNat 60) "path>".data "/url>".data t (by decide), e5]
    cases findSub (Char.ofNat 60 :: "path>".data) t with
    | none => rfl
    | some k =>
      simp only [Option.map_some', Option.some.injEq]
      omega
  · have := findSub_path_open_before_close text e hclose (e - (r + 1)) (r + 1) (by omega)
      (fun i h1 h2 => hws i (by omega) h2)
    rw [this]
    cases findSub PATH_OPEN (text.drop (e + 6)) with
    | none => rfl
    | some k =>
      simp only [Option.map_some', Option.some.injEq]
      omega

/-- The outcome of extract_homemount once "<url>" and "</url>" are found, on a text
without NUL: the URL is written, and the rest is decided by the search for "<path>" in
the text after "</url>" and by the search for "</path>" in the text after "<path>". -/
theorem extract_homemount_after_url (text : CString) (p c : Nat) (hnul : NUL ∉ text)
    (hopen : findSub URL_OPEN text = some p)
    (hclose : findSub URL_CLOSE (text.drop (p + 5)) = some c) :
    ∃ r url, r ≤ c + (p + 5) ∧
      (findSub PATH_OPEN (text.drop (c + (p + 5) + 6)) = none →
        extract_homemount (some text) = (PAM_SUCCESS, some url, none)) ∧
      (∀ m, findSub PATH_OPEN (text.drop (c + (p + 5) + 6)) = some m →
        strstr (text.set r NUL)
            (skipSpaces ((text.set r NUL).drop (m + (c + (p + 5) + 6) + 6))
              (m + (c + (p + 5) + 6) + 6)) PATH_CLOSE
          = (findSub PATH_CLOSE (text.drop (m + (c + (p + 5) + 6) + 6))).map
              (fun k => k + (m + (c + (p + 5) + 6) + 6)) ∧
        extract_homemount (some text) =
          match strstr (text.set r NUL)
            (skipSpaces ((text.set r NUL).drop (m + (c + (p + 5) + 6) + 6))
              (m + (c + (p + 5) + 6) + 6)) PATH_CLOSE with
          | none => (PAM_SERVICE_ERR, some url, none)
          | some path_close =>
            (PAM_SUCCESS, some url,
              some (cstringAt
                ((text.set r NUL).set
                  (trimBack (text.set r NUL)
                    (skipSpaces ((text.set r NUL).drop (m + (c + (p + 5) + 6) + 6))
                      (m + (c + (p + 5) + 6) + 6)) path_close) NUL)
                (skipSpaces ((text.set r NUL).drop (m + (c + (p + 5) + 6) + 6))
                  (m + (c + (p + 5) + 6) + 6))))) := by
  have h_open : strstr text 0 URL_OPEN = some p := by
    rw [strstr_of_drop text 0 URL_OPEN text rfl hnul, hopen]
    rfl
  have hn5 : NUL ∉ text.drop (p + 5) := fun h => hnul (List.mem_of_mem_drop h)
  have h_close : strstr text (skipSpaces (text.drop (p + 5)) (p + 5)) URL_CLOSE
      = some (c + (p + 5)) := by
    have := strstr_after_skipSpaces text (p + 5) (Char.ofNat 60) "/url>".data hn5 (by decide)
    show strstr text _ (Char.ofNat 60 :: "/url>".data) = _
    rw [this]
    show Option.map _ (findSub URL_CLOSE (text.drop (p + 5))) = _
    rw [hclose]
    rfl
  have hpre : URL_CLOSE <+: text.drop (c + (p + 5)) := by
    have := (findSub_some_spec URL_CLOSE _ c hclose).2.1
    rwa [List.drop_drop, Nat.add_comm] at this
  have hT := path_search_after_trim text (skipSpaces (text.drop (p + 5)) (p + 5))
    (c + (p + 5)) hnul hpre
  obtain ⟨hr, _⟩ := trimBack_spec text (skipSpaces (text.drop (p + 5)) (p + 5)) (c + (p + 5))
  have hlen : URL_OPEN.length = 5 := rfl
  have hlen2 : PATH_OPEN.length = 6 := rfl
  refine ⟨trimBack text (skipSpaces (text.drop (p + 5)) (p + 5)) (c + (p + 5)),
    cstringAt (text.set (trimBack text (skipSpaces (text.drop (p + 5)) (p + 5)) (c + (p + 5)))
      NUL) (skipSpaces (text.drop (p + 5)) (p + 5)), hr, ?_, ?_⟩
  · intro hnone
    rw [hnone] at hT
    simp only [extract_homemount, h_open, hlen, h_close, hT, Option.map_none']
  · intro m hm
    rw [hm] at hT
    have hlt : trimBack text (skipSpaces (text.drop (p + 5)) (p + 5)) (c + (p + 5))
        < m + (c + (p + 5) + 6) + 6 := by omega
    have hdrop := List.drop_set_of_lt NUL text hlt
    constructor
    · have := strstr_after_skipSpaces
        (text.set (trimBack text (skipSpaces (text.drop (p + 5)) (p + 5)) (c + (p + 5))) NUL)
        (m + (c + (p + 5) + 6) + 6) (Char.ofNat 60) "/path>".data
        (by rw [hdrop]; exact fun h => hnul (List.mem_of_mem_drop h)) (by decide)
      rw [hdrop] at this ⊢
      exact this
    · simp only [extract_homemount, h_open, hlen, h_close, hT, Option.map_some', hlen2]

/-- A first occurrence is what the search finds. -/
theorem first_occurrence_findSub (needle hay pre post : CString)
    (h : first_occurrence needle hay pre post) :
    findSub needle hay = some pre.length ∧ hay.drop (pre.length + needle.length) = post := by
  obtain ⟨heq, hfirst⟩ := h
  constructor
  · apply findSub_eq_some needle hay pre.length _ _ hfirst
    · rw [heq, List.append_assoc, List.drop_left]
      exact List.prefix_append _ _
    · rw [heq]
      simp only [List.length_append]
      omega
  · rw [heq, ← List.length_append]
    exact List.drop_left _ _

/-- What the search finds is a first occurrence. -/
theorem findSub_first_occurrence (needle hay : CString) (k : Nat)
    (h : findSub needle hay = some k) :
    first_occurrence needle hay (hay.take k) (hay.drop (k + needle.length)) := by
  obtain ⟨hk, ⟨t, ht⟩, hfirst⟩ := findSub_some_spec needle hay k h
  have hlen : (hay.take k).length = k := by simp [hk]
  have ht2 : hay.drop (k + needle.length) = t := by
    rw [← List.drop_drop, ← ht]
    exact List.drop_left _ _
  constructor
  · rw [ht2, List.append_assoc, ht]
    exact (List.take_append_drop k hay).symm
  · intro j hj
    rw [hlen] at hj
    exact hfirst j hj

/-- When "<url>" is not found the parse fails and writes nothing. -/
theorem extract_homemount_no_url_open (text : CString) (hnul : NUL ∉ text)
    (h : findSub URL_OPEN text = none) :
    extract_homemount (some text) = (PAM_SERVICE_ERR, none, none) := by
  have h_open : strstr text 0 URL_OPEN = none := by
    rw [strstr_of_drop text 0 URL_OPEN text rfl hnul, h]
    rfl
  simp only [extract_homemount, h_open]

/-- When "</url>" is not found after "<url>" the parse fails and writes nothing. -/
theorem extract_homemount_no_url_close (text : CString) (p : Nat) (hnul : NUL ∉ text)
    (hopen : findSub URL_OPEN text = some p)
    (hclose : findSub URL_CLOSE (text.drop (p + 5)) = none) :
    extract_homemount (some text) = (PAM_SERVICE_ERR, none, none) := by
  have h_open : strstr text 0 URL_OPEN = some p := by
    rw [strstr_of_drop text 0 URL_OPEN text rfl hnul, hopen]
    rfl
  have hn5 : NUL ∉ text.drop (p + 5) := fun h => hnul (List.mem_of_mem_drop h)
  have h_close : strstr text (skipSpaces (text.drop (p + 5)) (p + 5)) URL_CLOSE = none := by
    have := strstr_after_skipSpaces text (p + 5) (Char.ofNat 60) "/url>".data hn5 (by decide)
    show strstr text _ (Char.ofNat 60 :: "/url>".data) = _
    rw [this]
    show Option.map _ (findSub URL_CLOSE (text.drop (p + 5))) = _
    rw [hclose]
    rfl
  have hlen : URL_OPEN.length = 5 := rfl
  simp only [extract_homemount, h_open, hlen, h_close]

/-- The outcome of extract_homemount on a text without NUL, by the four searches made
on the text itself: for "<url>", for "</url>" after it, for "<path>" after that, and
for "</path>" after that. -/
theorem extract_homemount_outcome (text : CString) (hnul : NUL ∉ text) :
    match findSub URL_OPEN text with
    | none => extract_homemount (some text) = (PAM_SERVICE_ERR, none, none)
    | some p =>
      match findSub URL_CLOSE (text.drop (p + 5)) with
      | none => extract_homemount (some text) = (PAM_SERVICE_ERR, none, none)
      | some c =>
        ∃ url,
          match findSub PATH_OPEN (text.drop (c + (p + 5) + 6)) with
          | none => extract_homemount (some text) = (PAM_SUCCESS, some url, none)
          | some m =>
            match findSub PATH_CLOSE (text.drop (m + (c + (p + 5) + 6) + 6)) with
            | none => extract_homemount (some text) = (PAM_SERVICE_ERR, some url, none)
            | some _ =>
              ∃ path, extract_homemount (some text) = (PAM_SUCCESS, some url, some path) := by
  cases h1 : findSub URL_OPEN text with
  | none => exact extract_homemount_no_url_open text hnul h1
  | some p =>
    dsimp only
    cases h2 : findSub URL_CLOSE (text.drop (p + 5)) with
    | none => exact extract_homemount_no_url_close text p hnul h1 h2
    | some c =>
      dsimp only
      obtain ⟨r, url, _, hA, hB⟩ := extract_homemount_after_url text p c hnul h1 h2
      refine ⟨url, ?_⟩
      cases h3 : findSub PATH_OPEN (text.drop (c + (p + 5) + 6)) with
      | none => exact hA h3
      | some m =>
        dsimp only
        obtain ⟨hs, hres⟩ := hB m h3
        cases h4 : findSub PATH_CLOSE (text.drop (m + (c + (p + 5) + 6) + 6)) with
        | none =>
          rw [h4] at hs
          rw [hres, hs]
          rfl
        | some k =>
          rw [h4] at hs
          rw [hres, hs]
          exact ⟨_, rfl⟩

/-- The failure condition of the specification, by the same four searches. -/
theorem malformed_descriptor_iff (text : CString) :
    malformed_descriptor text ↔
      match findSub URL_OPEN text with
      | none => True
      | some p =>
        match findSub URL_CLOSE (text.drop (p + 5)) with
        | none => True
        | some c =>
          match findSub PATH_OPEN (text.drop (c + (p + 5) + 6)) with
          | none => False
          | some m => findSub PATH_CLOSE (text.drop (m + (c + (p + 5) + 6) + 6)) = none := by
  have hl1 : URL_OPEN.length = 5 := rfl
  have hl2 : URL_CLOSE.length = 6 := rfl
  have hl3 : PATH_OPEN.length = 6 := rfl
  unfold malformed_descriptor
  cases h1 : findSub URL_OPEN text with
  | none =>
    simp only [iff_true]
    exact Or.inl ((findSub_eq_none_iff _ _).mp h1)
  | some p =>
    have hinf1 : URL_OPEN <:+: text := by
      by_contra hc
      rw [(findSub_eq_none_iff _ _).mpr hc] at h1
      cases h1
    have key1 : ∀ pre after, first_occurrence URL_OPEN text pre after →
        after = text.drop (p + 5) := by
      intro pre after hfo
      obtain ⟨hf, hd⟩ := first_occurrence_findSub _ _ _ _ hfo
      rw [h1] at hf
      cases hf
      rw [← hd, hl1]
    dsimp only
    cases h2 : findSub URL_CLOSE (text.drop (p + 5)) with
    | none =>
      simp only [iff_true]
      refine Or.inr ⟨_, _, findSub_first_occurrence _ _ _ h1, Or.inl ?_⟩
      rw [hl1]
      exact (findSub_eq_none_iff _ _).mp h2
    | some c =>
      have hinf2 : URL_CLOSE <:+: text.drop (p + 5) := by
        by_contra hc
        rw [(findSub_eq_none_iff _ _).mpr hc] at h2
        cases h2
      have key2 : ∀ content rest,
          first_occurrence URL_CLOSE (text.drop (p + 5)) content rest →
          rest = text.drop (c + (p + 5) + 6) := by
        intro content rest hfo
        obtain ⟨hf, hd⟩ := first_occurrence_findSub _ _ _ _ hfo
        rw [h2] at hf
        cases hf
        rw [← hd, hl2, List.drop_drop]
        congr 1
        omega
      have fo2 : first_occurrence URL_CLOSE (text.drop (p + 5))
          ((text.drop (p + 5)).take c) (text.drop (c + (p + 5) + 6)) := by
        have := findSub_first_occurrence _ _ _ h2
        rw [hl2, List.drop_drop] at this
        have e : p + 5 + (c + 6) = c + (p + 5) + 6 := by omega
        rw [e] at this
        exact this
      dsimp only
      cases h3 : findSub PATH_OPEN (text.drop (c + (p + 5) + 6)) with
      | none =>
        simp only [iff_false]
        rintro (h | ⟨pre, after, hfo1, h | ⟨content, rest, hfo2, mid, after2, hfo3, _⟩⟩)
        · exact h hinf1
        · rw [key1 pre after hfo1] at h
          exact h hinf2
        · rw [key1 pre after hfo1] at hfo2
          rw [key2 content rest hfo2] at hfo3
          have := (first_occurrence_findSub _ _ _ _ hfo3).1
          rw [h3] at this
          cases this
      | some m =>
        have key3 : ∀ mid after2,
            first_occurrence PATH_OPEN (text.drop (c + (p + 5) + 6)) mid after2 →
            after2 = text.drop (m + (c + (p + 5) + 6) + 6) := by
          intro mid after2 hfo
          obtain ⟨hf, hd⟩ := first_occurrence_findSub _ _ _ _ hfo
          rw [h3] at hf
          cases hf
          rw [← hd, hl3, List.drop_drop]
          congr 1
          omega
        have fo3 : first_occurrence PATH_OPEN (text.drop (c + (p + 5) + 6))
            ((text.drop (c + (p + 5) + 6)).take m) (text.drop (m + (c + (p + 5) + 6) + 6)) := by
          have := findSub_first_occurrence _ _ _ h3
          rw [hl3, List.drop_drop] at this
          have e : c + (p + 5) + 6 + (m + 6) = m + (c + (p + 5) + 6) + 6 := by omega
          rw [e] at this
          exact this
        dsimp only
        constructor
        · rintro (h | ⟨pre, after, hfo1, h | ⟨content, rest, hfo2, mid, after2, hfo3, h⟩⟩)
          · exact absurd hinf1 h
          · rw [key1 pre after hfo1] at h
            exact absurd hinf2 h
          · rw [key1 pre after hfo1] at hfo2
            rw [key2 content rest hfo2] at hfo3
            rw [key3 mid after2 hfo3] at h
            exact (findSub_eq_none_iff _ _).mpr h
        · intro h4
          have hfo1 := findSub_first_occurrence _ _ _ h1
          rw [hl1] at hfo1
          exact Or.inr ⟨_, _, hfo1, Or.inr ⟨_, _, fo2, _, _, fo3,
            (findSub_eq_none_iff _ _).mp h4⟩⟩

/-- The failure condition read on the first "<path>" implies the one read on any
"<path>" after the URL element. -/
theorem malformed_descriptor_any_path_of_first (text : CString)
    (h : malformed_descriptor text) : malformed_descriptor_any_path text := by
  rcases h with h | ⟨pre, after, h1, h2⟩
  · exact Or.inl h
  · refine Or.inr ⟨pre, after, h1, ?_⟩
    rcases h2 with h2 | ⟨content, rest, hc, mid, after2, hp, hn⟩
    · exact Or.inl h2
    · exact Or.inr ⟨content, rest, hc, mid, after2, hp.1, hn⟩

/-- C12, counterexample: the text "<url>a</url><path>p</path><path>q" holds, after its
URL element, a "<path>" with no "</path>" after it, the second one, so the failure
condition of the claim holds; yet extract_homemount returns PAM_SUCCESS, with the URL
"a" and the path "p" of the first "<path>", which is closed. -/
theorem C12_counterexample :
    malformed_descriptor_any_path "<url>a</url><path>p</path><path>q".data ∧
    extract_homemount (some "<url>a</url><path>p</path><path>q".data)
      = (PAM_SUCCESS, some "a".data, some "p".data) ∧
    (extract_homemount (some "<url>a</url><path>p</path><path>q".data)).1
      ≠ PAM_SERVICE_ERR :=
  ⟨Or.inr ⟨[], "a</url><path>p</path><path>q".data,
      ⟨rfl, fun j hj => absurd hj (Nat.not_lt_zero j)⟩,
      Or.inr ⟨"a".data, "<path>p</path><path>q".data, ⟨rfl, by decide⟩,
        "<path>p</path>".data, "q".data, rfl, by decide⟩⟩,
    by decide, by decide⟩

/-- C12, amended: extract_homemount returns PAM_SERVICE_ERR for an absent input, and
for a text (a C string, so without NUL) exactly when the text holds no "<url>", or no
"</url>" after the first "<url>", or the first "<path>" after the URL element has no
"</path>" after it; in every other case it returns PAM_SUCCESS. -/
theorem C12_parse_failure_iff (text : CString) (hnul : NUL ∉ text) :
    (extract_homemount none).1 = PAM_SERVICE_ERR ∧
    ((extract_homemount (some text)).1 = PAM_SERVICE_ERR ↔ malformed_descriptor text) ∧
    (¬ malformed_descriptor text → (extract_homemount (some text)).1 = PAM_SUCCESS) := by
  refine ⟨rfl, ?_⟩
  rw [malformed_descriptor_iff]
  have hout := extract_homemount_outcome text hnul
  cases h1 : findSub URL_OPEN text with
  | none =>
    rw [h1] at hout
    dsimp only at hout ⊢
    rw [hout]
    simp
  | some p =>
    rw [h1] at hout
    dsimp only at hout ⊢
    cases h2 : findSub URL_CLOSE (text.drop (p + 5)) with
    | none =>
      rw [h2] at hout
      dsimp only at hout ⊢
      rw [hout]
      simp
    | some c =>
      rw [h2] at hout
      dsimp only at hout ⊢
      obtain ⟨url, hout⟩ := hout
      cases h3 : findSub PATH_OPEN (text.drop (c + (p + 5) + 6)) with
      | none =>
        rw [h3] at hout
        dsimp only at hout ⊢
        rw [hout]
        simp
      | some m =>
        rw [h3] at hout
        dsimp only at hout ⊢
        cases h4 : findSub PATH_CLOSE (text.drop (m + (c + (p + 5) + 6) + 6)) with
        | none =>
          rw [h4] at hout
          dsimp only at hout
          rw [hout]
          simp
        | some k =>
          rw [h4] at hout
          dsimp only at hout
          obtain ⟨path, hout⟩ := hout
          rw [hout]
          simp

/-- Witness of C12_parse_failure_iff: "no url here" fails, and so do a text without
"</url>" and a text whose "<path>" is not closed; "<url>afp://h/s</url>" succeeds. -/
theorem C12_parse_failure_iff_witness :
    (extract_homemount (some "no url here".data)).1 = PAM_SERVICE_ERR ∧
    (extract_homemount (some "<url>afp://h/s".data)).1 = PAM_SERVICE_ERR ∧
    (extract_homemount (some "<url>afp://h/s</url><path>/Users/x".data)).1
      = PAM_SERVICE_ERR ∧
    (extract_homemount (some "<url>afp://h/s</url>".data)).1 = PAM_SUCCESS :=
  ⟨(C12_parse_failure_iff "no url here".data (by decide)).2.1.mpr (Or.inl (by decide)),
   (C12_parse_failure_iff "<url>afp://h/s".data (by decide)).2.1.mpr
      (Or.inr ⟨[], "afp://h/s".data, ⟨rfl, fun j hj => absurd hj (Nat.not_lt_zero j)⟩,
        Or.inl (by decide)⟩),
   (C12_parse_failure_iff "<url>afp://h/s</url><path>/Users/x".data (by decide)).2.1.mpr
      (Or.inr ⟨[], "afp://h/s</url><path>/Users/x".data,
        ⟨rfl, fun j hj => absurd hj (Nat.not_lt_zero j)⟩,
        Or.inr ⟨"afp://h/s".data, "<path>/Users/x".data, ⟨rfl, by decide⟩,
          [], "/Users/x".data, ⟨rfl, fun j hj => absurd hj (Nat.not_lt_zero j)⟩,
          by decide⟩⟩),
   (C12_parse_failure_iff "<url>afp://h/s</url>".data (by decide)).2.2
      (by
        rw [malformed_descriptor_iff]
        have h1 : findSub URL_OPEN "<url>afp://h/s</url>".data = some 0 := by decide
        rw [h1]
        dsimp only
        have h2 : findSub URL_CLOSE (List.drop (0 + 5) "<url>afp://h/s</url>".data) = some 9 := by
          decide
        rw [h2]
        dsimp only
        have h3 : findSub PATH_OPEN (List.drop (9 + (0 + 5) + 6) "<url>afp://h/s</url>".data)
            = none := by decide
        rw [h3]
        exact not_false)⟩

/-- C11, code defect: on "<url>afp://h/s</url><path> </path>", whose path element holds
only whitespace, extract_homemount succeeds with the path "</path>" where the claim
requires the empty path: the backward trimming loop of the path (Common.c:564) has the
same test as that of the URL and steps to the character before the content. -/
theorem C11_whitespace_only_path :
    extract_homemount (some "<url>afp://h/s</url><path> </path>".data)
      = (PAM_SUCCESS, some "afp://h/s".data, some "</path>".data) ∧
    extract_homemount (some "<url>afp://h/s</url><path> </path>".data)
      ≠ (PAM_SUCCESS, some "afp://h/s".data, some "".data) := by
  decide

/-- The example of the specification with a path: URL "afp://h/s" and path "/Users/x";
and a "<path>" that stands only before the URL element is ignored. -/
theorem extract_homemount_path_example :
    extract_homemount (some "<url>afp://h/s</url><path> /Users/x </path>".data)
      = (PAM_SUCCESS, some "afp://h/s".data, some "/Users/x".data) ∧
    extract_homemount (some "<path>/a</path><url>afp://h/s</url>".data)
      = (PAM_SUCCESS, some "afp://h/s".data, none) := by
  decide

/-- The searches that extract_homemount makes, read off a text whose first "<url>" is
followed by `after` and whose first "</url>" in `after` is followed by `rest`. -/
theorem first_occurrences_findSub (text pre after content rest : CString)
    (hfo1 : first_occurrence URL_OPEN text pre after)
    (hfo2 : first_occurrence URL_CLOSE after content rest) :
    findSub URL_OPEN text = some pre.length ∧
    findSub URL_CLOSE (text.drop (pre.length + 5)) = some content.length ∧
    text.drop (content.length + (pre.length + 5) + 6) = rest := by
  obtain ⟨h1, hd1⟩ := first_occurrence_findSub _ _ _ _ hfo1
  obtain ⟨h2, hd2⟩ := first_occurrence_findSub _ _ _ _ hfo2
  have hl1 : URL_OPEN.length = 5 := rfl
  have hl2 : URL_CLOSE.length = 6 := rfl
  rw [hl1] at hd1
  rw [hl2] at hd2
  refine ⟨h1, by rw [hd1]; exact h2, ?_⟩
  rw [← hd2, ← hd1, List.drop_drop]
  congr 1
  omega

/-- The path is present exactly when "<path>" follows the URL element: for a text
without NUL that parses successfully, whose first "<url>" is followed by `after` and
whose first "</url>" in `after` is followed by `rest`, extract_homemount writes a path
if and only if "<path>" occurs in `rest`. -/
theorem extract_homemount_path_present_iff (text pre after content rest : CString)
    (hnul : NUL ∉ text) (hfo1 : first_occurrence URL_OPEN text pre after)
    (hfo2 : first_occurrence URL_CLOSE after content rest)
    (hsucc : (extract_homemount (some text)).1 = PAM_SUCCESS) :
    (extract_homemount (some text)).2.2 ≠ none ↔ PATH_OPEN <:+: rest := by
  obtain ⟨h1, h2, hrest⟩ := first_occurrences_findSub text pre after content rest hfo1 hfo2
  have hout := extract_homemount_outcome text hnul
  rw [h1] at hout
  dsimp only at hout
  rw [h2] at hout
  dsimp only at hout
  obtain ⟨url, hout⟩ := hout
  rw [hrest] at hout
  cases h3 : findSub PATH_OPEN rest with
  | none =>
    rw [h3] at hout
    dsimp only at hout
    rw [hout]
    have := (findSub_eq_none_iff _ _).mp h3
    simp [this]
  | some m =>
    have hinf : PATH_OPEN <:+: rest := by
      by_contra hc
      rw [(findSub_eq_none_iff _ _).mpr hc] at h3
      cases h3
    rw [h3] at hout
    dsimp only at hout
    cases h4 : findSub PATH_CLOSE
        (text.drop (m + (content.length + (pre.length + 5) + 6) + 6)) with
    | none =>
      rw [h4] at hout
      dsimp only at hout
      rw [hout] at hsucc
      cases hsucc
    | some k =>
      rw [h4] at hout
      dsimp only at hout
      obtain ⟨path, hout⟩ := hout
      rw [hout]
      simp [hinf]

/-- The path of a home-mount descriptor whose path element holds a character that is
not whitespace.  Let `text` hold no NUL, let its first "<url>" be followed by `after`,
the first "</url>" of `after` by `rest`, and the first "<path>" of `rest` by
`ws1 core ws2 </path> rest2`, where this "</path>" is the first one after the "<path>",
`ws1` and `ws2` are whitespace and `core` starts and ends with a character that is not
whitespace.  Then extract_homemount returns PAM_SUCCESS and writes `core` as the
path. -/
theorem extract_homemount_path_trimmed
    (text pre after content rest mid ws1 core ws2 rest2 : CString)
    (hnul : NUL ∉ text) (hfo1 : first_occurrence URL_OPEN text pre after)
    (hfo2 : first_occurrence URL_CLOSE after content rest)
    (hfo3 : first_occurrence PATH_OPEN rest mid (ws1 ++ core ++ ws2 ++ PATH_CLOSE ++ rest2))
    (hws1 : ∀ c ∈ ws1, isspace c = true) (hws2 : ∀ c ∈ ws2, isspace c = true)
    (hcore : core ≠ []) (hhead : isspace (core.head hcore) = false)
    (hlast : isspace (core.getLast hcore) = false)
    (hclose : ∀ j, j < (ws1 ++ core ++ ws2).length →
      ¬ PATH_CLOSE <+: (ws1 ++ core ++ ws2 ++ PATH_CLOSE ++ rest2).drop j) :
    (extract_homemount (some text)).1 = PAM_SUCCESS ∧
    (extract_homemount (some text)).2.2 = some core := by
  obtain ⟨h1, h2, hrest⟩ := first_occurrences_findSub text pre after content rest hfo1 hfo2
  obtain ⟨h3, hd3⟩ := first_occurrence_findSub _ _ _ _ hfo3
  have hl3 : PATH_OPEN.length = 6 := rfl
  rw [hl3] at hd3
  rw [← hrest] at h3 hd3
  obtain ⟨r, url, hr, _, hB⟩ :=
    extract_homemount_after_url text pre.length content.length hnul h1 h2
  obtain ⟨_, hres⟩ := hB mid.length h3
  have hafter2 : text.drop (mid.length + (content.length + (pre.length + 5) + 6) + 6)
      = ws1 ++ (core ++ (ws2 ++ (PATH_CLOSE ++ rest2))) := by
    rw [List.drop_drop] at hd3
    have e : content.length + (pre.length + 5) + 6 + (mid.length + 6)
        = mid.length + (content.length + (pre.length + 5) + 6) + 6 := by omega
    rw [e] at hd3
    rw [hd3]
    simp only [List.append_assoc]
  have hrq : r < mid.length + (content.length + (pre.length + 5) + 6) + 6 := by omega
  generalize mid.length + (content.length + (pre.length + 5) + 6) + 6 = q6
    at hres hafter2 hrq
  have hdrop : (text.set r NUL).drop q6 = text.drop q6 := List.drop_set_of_lt NUL text hrq
  have hn : NUL ∉ ws1 ++ (core ++ (ws2 ++ (PATH_CLOSE ++ rest2))) := by
    rw [← hafter2]
    exact fun h => hnul (List.mem_of_mem_drop h)
  have hq6 : q6 ≤ (text.set r NUL).length := by
    rw [List.length_set]
    by_contra hc
    have : text.drop q6 = [] := List.drop_eq_nil_of_le (by omega)
    rw [this] at hafter2
    have hne : ws1 ++ (core ++ (ws2 ++ (PATH_CLOSE ++ rest2))) ≠ [] := by
      cases core with
      | nil => exact absurd rfl hcore
      | cons a core => simp
    exact hne hafter2.symm
  have hBlen : ((text.set r NUL).take q6).length = q6 := by
    rw [List.length_take]
    omega
  have hbuf : (text.set r NUL).take q6 ++ (ws1 ++ (core ++ (ws2 ++ (PATH_CLOSE ++ rest2))))
      = text.set r NUL := by
    rw [← hafter2, ← hdrop]
    exact List.take_append_drop q6 _
  have hclose2 : ∀ j, j < (core ++ ws2).length →
      ¬ PATH_CLOSE <+: (core ++ (ws2 ++ (PATH_CLOSE ++ rest2))).drop j := by
    intro j hj h
    apply hclose (ws1.length + j) (by simp at hj ⊢; omega)
    have e : (ws1 ++ core ++ ws2 ++ PATH_CLOSE ++ rest2).drop (ws1.length + j)
        = (core ++ (ws2 ++ (PATH_CLOSE ++ rest2))).drop j := by
      simp only [List.append_assoc]
      rw [← List.drop_drop, List.drop_left]
    rw [e]
    exact h
  obtain ⟨hskip, hstr, htrim, hset⟩ := element_steps ((text.set r NUL).take q6) ws1 core ws2
    PATH_CLOSE rest2 hn hws1 hws2 hcore hhead hlast (by decide) hclose2
  rw [hbuf, hBlen] at hskip hstr htrim hset
  have hn_core : NUL ∉ core := fun h =>
    hn (List.mem_append_right _ (List.mem_append_left _ h))
  have hpath : cstringAt (((text.set r NUL).take q6 ++ ws1) ++ core ++ NUL ::
      (ws2 ++ (PATH_CLOSE ++ rest2)).tail) (q6 + ws1.length) = core := by
    have := cstringAt_append_NUL ((text.set r NUL).take q6 ++ ws1) core
      (ws2 ++ (PATH_CLOSE ++ rest2)).tail hn_core
    rw [List.length_append, hBlen] at this
    exact this
  rw [hskip, hstr] at hres
  dsimp only at hres
  rw [htrim, hset, hpath] at hres
  rw [hres]
  exact ⟨rfl, rfl⟩

/-- The general path theorem applied to the example of the specification,
"<url>afp://h/s</url><path> /Users/x </path>". -/
theorem extract_homemount_path_trimmed_witness :
    (extract_homemount (some "<url>afp://h/s</url><path> /Users/x </path>".data)).1
      = PAM_SUCCESS ∧
    (extract_homemount (some "<url>afp://h/s</url><path> /Users/x </path>".data)).2.2
      = some "/Users/x".data :=
  extract_homemount_path_trimmed "<url>afp://h/s</url><path> /Users/x </path>".data []
    "afp://h/s</url><path> /Users/x </path>".data "afp://h/s".data
    "<path> /Users/x </path>".data [] " ".data "/Users/x".data " ".data [] (by decide)
    ⟨rfl, fun j hj => absurd hj (Nat.not_lt_zero j)⟩ ⟨rfl, by decide⟩
    ⟨rfl, fun j hj => absurd hj (Nat.not_lt_zero j)⟩ (by decide) (by decide) (by decide)
    (by decide) (by decide) (by decide)

/-! ### The home of a user -/

/-- With a record, od_string_from_record succeeds when the scalar fetch does and
converts the value. -/
theorem od_string_from_record_of_fetch (r : ODRecord) (attrib : String) (val : Option String)
    (h : od_record_attribute_create_cfstring (some r) attrib = (PAM_SUCCESS, val)) :
    od_string_from_record (some r) attrib = (PAM_SUCCESS, val.map String.data) := by
  unfold od_string_from_record
  simp only [h]
  cases val with
  | none => simp
  | some v => simp [cfstring_to_cstring]

/-- C21: whenever the user resolves and the scalar fetches of the home-directory value
and of the NFS home path succeed, od_extract_home returns PAM_SUCCESS whatever code
extract_homemount returned on the home-directory value, and its URL and path outputs
are the ones extract_homemount wrote (nothing at all, or the URL alone, when it
failed). -/
theorem C21_extract_home_ignores_parse (sess : ODSession) (user : CString) (record : ODRecord)
    (home nfs : Option String)
    (hret : (od_record_create_cstring sess (some user)).retval = PAM_SUCCESS)
    (hrec : (od_record_create_cstring sess (some user)).record = some record)
    (hhome : od_record_attribute_create_cfstring (some record) kODAttributeTypeHomeDirectory
      = (PAM_SUCCESS, home))
    (hnfs : od_record_attribute_create_cfstring (some record) kODAttributeTypeNFSHomeDirectory
      = (PAM_SUCCESS, nfs)) :
    od_extract_home sess (some user) =
      (PAM_SUCCESS, (extract_homemount (home.map String.data)).2.1,
        (extract_homemount (home.map String.data)).2.2, nfs.map String.data) := by
  unfold od_extract_home
  simp only [hret, hrec, od_string_from_record_of_fetch record _ home hhome,
    od_string_from_record_of_fetch record _ nfs hnfs]
  simp

/-- Witness of C21_extract_home_ignores_parse: with the home-directory attribute absent,
with the value "/Users/x" that has no "<url>", and with the value
"<url>afp://h/s</url><path>/Users/x" whose path is not closed, extract_homemount fails
and od_extract_home returns PAM_SUCCESS, with no URL in the first two cases and the URL
alone in the third. -/
theorem C21_extract_home_ignores_parse_witness :
    (extract_homemount none).1 = PAM_SERVICE_ERR ∧
    od_extract_home (sessionWith (homeRecord [])) (some "alice".data)
      = (PAM_SUCCESS, none, none, some "/Users/x".data) ∧
    (extract_homemount (some "/Users/x".data)).1 = PAM_SERVICE_ERR ∧
    od_extract_home (sessionWith (homeRecord [some (CFType.string "/Users/x")]))
        (some "alice".data)
      = (PAM_SUCCESS, none, none, some "/Users/x".data) ∧
    (extract_homemount (some "<url>afp://h/s</url><path>/Users/x".data)).1
      = PAM_SERVICE_ERR ∧
    od_extract_home
        (sessionWith (homeRecord [some (CFType.string "<url>afp://h/s</url><path>/Users/x")]))
        (some "alice".data)
      = (PAM_SUCCESS, some "afp://h/s".data, none, some "/Users/x".data) :=
  ⟨by decide,
   (C21_extract_home_ignores_parse (sessionWith (homeRecord [])) "alice".data (homeRecord [])
      none (some "/Users/x")
      (od_record_create_cstring_sessionWith _ _).1 (od_record_create_cstring_sessionWith _ _).2
      (by decide) (by decide)).trans (by decide),
   by decide,
   (C21_extract_home_ignores_parse
      (sessionWith (homeRecord [some (CFType.string "/Users/x")])) "alice".data
      (homeRecord [some (CFType.string "/Users/x")]) (some "/Users/x") (some "/Users/x")
      (od_record_create_cstring_sessionWith _ _).1 (od_record_create_cstring_sessionWith _ _).2
      (by decide) (by decide)).trans (by decide),
   by decide,
   (C21_extract_home_ignores_parse
      (sessionWith (homeRecord [some (CFType.string "<url>afp://h/s</url><path>/Users/x")]))
      "alice".data (homeRecord [some (CFType.string "<url>afp://h/s</url><path>/Users/x")])
      (some "<url>afp://h/s</url><path>/Users/x") (some "/Users/x")
      (od_record_create_cstring_sessionWith _ _).1 (od_record_create_cstring_sessionWith _ _).2
      (by decide) (by decide)).trans (by decide)⟩

/-! ### The account check of pam_self -/

/-- C22: pam_sm_acct_mgmt returns PAM_SUCCESS if and only if pam_get_user gives a
target user name, pam_get_item gives a requesting user name, getpwnam_r finds an entry
for each of them, and the two entries have the same uid; in every other case it returns
PAM_AUTH_ERR.  The two names need not be equal. -/
theorem C22_same_uid_iff (pamh : PamSelfHandle) :
    (pam_sm_acct_mgmt pamh = PAM_SUCCESS ↔
      ∃ user ruser pwd rpwd,
        pamh.pam_get_user = (PAM_SUCCESS, some user) ∧
        pamh.getpwnam_r user = (0, some pwd) ∧
        pamh.pam_get_item_RUSER = (PAM_SUCCESS, some ruser) ∧
        pamh.getpwnam_r ruser = (0, some rpwd) ∧
        pwd.pw_uid = rpwd.pw_uid) ∧
    (pam_sm_acct_mgmt pamh ≠ PAM_SUCCESS → pam_sm_acct_mgmt pamh = PAM_AUTH_ERR) := by
  unfold pam_sm_acct_mgmt
  rcases hu : pamh.pam_get_user with ⟨c1, u⟩
  rcases hr : pamh.pam_get_item_RUSER with ⟨c2, ru⟩
  by_cases h1 : c1 = PAM_SUCCESS
  swap
  · simp [h1]
  subst h1
  cases u with
  | none => simp
  | some user =>
    rcases hp : pamh.getpwnam_r user with ⟨e1, pw⟩
    by_cases h2 : e1 = 0
    swap
    · simp [h2, hp]
    subst h2
    cases pw with
    | none => simp [hp]
    | some pwd =>
      by_cases h3 : c2 = PAM_SUCCESS
      swap
      · simp [h3, hp]
      subst h3
      cases ru with
      | none => simp [hp]
      | some ruser =>
        rcases hq : pamh.getpwnam_r ruser with ⟨e2, rpw⟩
        by_cases h4 : e2 = 0
        swap
        · simp [h4, hp, hq]
        subst h4
        cases rpw with
        | none => simp [hp, hq]
        | some rpwd =>
          by_cases h5 : pwd.pw_uid = rpwd.pw_uid
          · simp [hp, hq, h5]
          · simp [hp, hq, h5]

/-- Witness of C22_same_uid_iff: the requesting user "toor", a different name with the
uid of "root", is accepted; "alice", an unknown name and an absent name are refused
with PAM_AUTH_ERR. -/
theorem C22_same_uid_iff_witness :
    pam_sm_acct_mgmt (selfHandle (some "toor".data)) = PAM_SUCCESS ∧
    pam_sm_acct_mgmt (selfHandle (some "alice".data)) = PAM_AUTH_ERR ∧
    pam_sm_acct_mgmt (selfHandle (some "nobody".data)) = PAM_AUTH_ERR ∧
    pam_sm_acct_mgmt (selfHandle none) = PAM_AUTH_ERR :=
  ⟨(C22_same_uid_iff (selfHandle (some "toor".data))).1.mpr
      ⟨"root".data, "toor".data, ⟨0⟩, ⟨0⟩, rfl, by decide, rfl, by decide, rfl⟩,
   (C22_same_uid_iff (selfHandle (some "alice".data))).2 (by decide),
   (C22_same_uid_iff (selfHandle (some "nobody".data))).2 (by decide),
   (C22_same_uid_iff (selfHandle none)).2 (by decide)⟩

/-! ### Sequential and simultaneous substitution -/

/-- Substituting no placeholder leaves the template as it is. -/
theorem substitute_placeholders_none (t : List Char) :
    substitute_placeholders (fun _ => none) t = t := by
  induction t with
  | nil => rfl
  | cons c t ih =>
    cases t with
    | nil => rfl
    | cons d t => simp [substitute_placeholders, ih]

/-- The whole loop of createUserSearchKey computes the substitution of the template,
when there are at most 9 fields, no value holds a `$` and no `$` of the template is
followed by another `$`. -/
theorem createUserSearchKey_loop_substitute_all (details : String → Option String)
    (fields : List String) (formatString : String) (hn : fields.length ≤ 9)
    (hvals : ∀ tag ∈ fields, ∀ v, details tag = some v → Char.ofNat 36 ∉ v.data)
    (htmpl : ¬ [Char.ofNat 36, Char.ofNat 36] <:+: formatString.data) :
    createUserSearchKey_loop details 0 fields formatString =
      String.mk (substitute_placeholders (placeholder_value fields details)
        formatString.data) := by
  have h := createUserSearchKey_loop_substitute details formatString.data htmpl fields []
    formatString (by simpa using hn) (by simpa using hvals)
    (by
      have hnone : placeholder_value [] details = fun _ => none := by
        funext e
        unfold placeholder_value
        split
        · next hc => simp at hc; omega
        · rfl
      rw [hnone, substitute_placeholders_none])
  simpa using h

/-- When every `$` of the template is followed by a character that has a value, and
no value holds a `$`, the substituted template holds no `$`. -/
theorem substitute_placeholders_no_dollar (value : Char → Option (List Char))
    (hvals : ∀ d v, value d = some v → Char.ofNat 36 ∉ v) (n : Nat) :
    ∀ t : List Char, t.length ≤ n →
      (∀ pre post, t = pre ++ Char.ofNat 36 :: post →
        ∃ d rest v, post = d :: rest ∧ value d = some v) →
      Char.ofNat 36 ∉ substitute_placeholders value t := by
  induction n with
  | zero =>
    intro t ht _
    have : t = [] := List.length_eq_zero.mp (Nat.le_zero.mp ht)
    subst this
    simp [substitute_placeholders]
  | succ n ih =>
    intro t ht hfollow
    match t, ht, hfollow with
    | [], _, _ => simp [substitute_placeholders]
    | [c], _, hfollow =>
      have hc : c ≠ Char.ofNat 36 := by
        intro e
        obtain ⟨d, rest, v, hpost, _⟩ := hfollow [] [] (by simp [e])
        cases hpost
      simp only [substitute_placeholders, List.mem_singleton]
      exact fun e => hc e.symm
    | c :: e :: rest, ht, hfollow =>
      have hlen1 : (e :: rest).length ≤ n := by simpa using ht
      have hlen2 : rest.length ≤ n := by simp at ht; omega
      have hf1 : ∀ pre post, e :: rest = pre ++ Char.ofNat 36 :: post →
          ∃ d rest v, post = d :: rest ∧ value d = some v := by
        intro pre post h
        exact hfollow (c :: pre) post (by rw [h]; rfl)
      have hf2 : ∀ pre post, rest = pre ++ Char.ofNat 36 :: post →
          ∃ d rest v, post = d :: rest ∧ value d = some v := by
        intro pre post h
        exact hfollow (c :: e :: pre) post (by rw [h]; rfl)
      have ih1 := ih (e :: rest) hlen1 hf1
      have ih2 := ih rest hlen2 hf2
      by_cases hc : c = Char.ofNat 36
      · subst hc
        obtain ⟨d, rest2, v, hpost, hv⟩ := hfollow [] (e :: rest) rfl
        rw [List.cons.injEq] at hpost
        rw [← hpost.1] at hv
        simp only [substitute_placeholders, hv, if_true, List.mem_append, not_or]
        exact ⟨hvals e v hv, ih2⟩
      · simp only [substitute_placeholders, hc, if_false, List.mem_cons, not_or]
        exact ⟨fun h => hc h.symm, ih1⟩

/-- C23: createUserSearchKey replaces the placeholders one after the other, each pass
over the output of the previous one.  For every template in which each `$` is
immediately followed by a digit `d` with `1 ≤ d ≤ n ≤ 9` that names a field present in
the certificate's field set, and for field values none of which holds a `$`, the search
string so built is the template with all placeholders replaced at once by their field
values, and no `$` is left in it. -/
theorem C23_sequential_equals_simultaneous (config : MatchConfig)
    (certificate : SecCertificate) (hn : config.fields.length ≤ 9)
    (htmpl : ∀ pre post, config.formatString.data = pre ++ Char.ofNat 36 :: post →
      ∃ d rest tag v, post = d :: rest ∧ 49 ≤ d.toNat ∧ d.toNat ≤ 48 + config.fields.length ∧
        config.fields.get? (d.toNat - 49) = some tag ∧ certificate.details tag = some v)
    (hvals : ∀ tag ∈ config.fields, ∀ v, certificate.details tag = some v →
      Char.ofNat 36 ∉ v.data) :
    createUserSearchKey (some config) certificate =
      some ⟨String.mk (substitute_placeholders
          (placeholder_value config.fields certificate.details) config.formatString.data),
        config.dsAttributeString⟩ ∧
    Char.ofNat 36 ∉ substitute_placeholders
      (placeholder_value config.fields certificate.details) config.formatString.data := by
  have hnodd : ¬ [Char.ofNat 36, Char.ofNat 36] <:+: config.formatString.data := by
    rintro ⟨s, u, hsu⟩
    obtain ⟨d, rest, tag, v, hpost, hd, _⟩ :=
      htmpl s (Char.ofNat 36 :: u) (by rw [← hsu]; simp)
    rw [List.cons.injEq] at hpost
    rw [← hpost.1] at hd
    revert hd
    decide
  have hvalue : ∀ pre post, config.formatString.data = pre ++ Char.ofNat 36 :: post →
      ∃ d rest v, post = d :: rest ∧
        placeholder_value config.fields certificate.details d = some v := by
    intro pre post h
    obtain ⟨d, rest, tag, v, hpost, hd1, hd2, htag, hv⟩ := htmpl pre post h
    refine ⟨d, rest, v.data, hpost, ?_⟩
    unfold placeholder_value
    rw [if_pos ⟨hd1, by omega, by omega⟩, htag]
    simp only [hv, Option.map_some']
  constructor
  · rw [createUserSearchKey_some,
      createUserSearchKey_loop_substitute_all certificate.details config.fields
        config.formatString hn hvals hnodd]
  · apply substitute_placeholders_no_dollar _ _ config.formatString.data.length _
      (Nat.le_refl _) hvalue
    intro d w hw
    obtain ⟨tag, hmem, v, hv, rfl⟩ :=
      placeholder_value_mem config.fields certificate.details d w hw
    exact hvals tag hmem v hv

/-- Witness of C23_sequential_equals_simultaneous: the template "$1@$2" with the NT
principal name "12345" and the organization "mil" gives "12345@mil" both ways. -/
theorem C23_sequential_equals_simultaneous_witness :
    createUserSearchKey (some exampleConfig) exampleCertificate =
      some ⟨String.mk (substitute_placeholders
          (placeholder_value exampleConfig.fields exampleCertificate.details)
          exampleConfig.formatString.data), exampleConfig.dsAttributeString⟩ ∧
    String.mk (substitute_placeholders
        (placeholder_value exampleConfig.fields exampleCertificate.details)
        exampleConfig.formatString.data) = "12345@mil" :=
  ⟨(C23_sequential_equals_simultaneous exampleConfig exampleCertificate (by decide)
      (by
        intro pre post h
        have h5 : "$1@$2".data = pre ++ Char.ofNat 36 :: post := h
        rcases pre with _ | ⟨a, _ | ⟨b, _ | ⟨c, _ | ⟨d, _ | ⟨e, pre⟩⟩⟩⟩⟩
        · refine ⟨Char.ofNat 49, "@$2".data, "NT Principal Name", "12345", ?_, by decide,
            by decide, by decide, by decide⟩
          have := List.tail_eq_of_cons_eq h5
          exact this.symm
        · have := List.head_eq_of_cons_eq (List.tail_eq_of_cons_eq h5)
          exact absurd this (by decide)
        · have := List.head_eq_of_cons_eq (List.tail_eq_of_cons_eq (List.tail_eq_of_cons_eq h5))
          exact absurd this (by decide)
        · refine ⟨Char.ofNat 50, [], "Organization", "mil", ?_, by decide,
            by decide, by decide, by decide⟩
          have := List.tail_eq_of_cons_eq (List.tail_eq_of_cons_eq
            (List.tail_eq_of_cons_eq (List.tail_eq_of_cons_eq h5)))
          exact this.symm
        · have := List.head_eq_of_cons_eq (List.tail_eq_of_cons_eq (List.tail_eq_of_cons_eq
            (List.tail_eq_of_cons_eq (List.tail_eq_of_cons_eq h5))))
          exact absurd this (by decide)
        · have := congrArg List.length h5
          simp at this)
      (by
        intro tag _ v hv
        simp only [exampleCertificate] at hv
        split at hv
        · cases hv; decide
        · split at hv
          · cases hv; decide
          · cases hv)).1,
   by decide⟩

end PamModules
